import Mathlib

/-!
Shallow embedding of the FAT16-style filesystem of `ryos`
(`kernel/src/file_system/fat16.rs`), covering the sector allocator, the
per-directory allocation table (`FAT`), directory records, and the
orchestrating `FAtApi` operations.  Machine integers (`u8`/`u16`/`u32`)
are modelled as `Nat` with explicit masks / `% 2 ^ w` where the source
performs wrapping arithmetic.  Fallible Rust functions returning
`Result<T, FileSystemError>` become `Except FileSystemError T`.
Rust strings used as file names are modelled as their byte lists
(`List Nat`), which is what the code stores and compares.
-/

namespace Ry

/-- Error enum of `file_system/errors.rs`, extended with the variants that
`fat16.rs` constructs (`NotAFile`, `NotADirectory`, `DirAlreadyExists`,
`InvalidSectorAllocator`).  The extra `outOfFuel` constructor is a model
artifact bounding the call-recursion depth of `remove_dir_by_name`; the
theorems show it is never produced when enough fuel is supplied. -/
inductive FileSystemError where
  | FileNotFound
  | DirectoryNotFound
  | AccessDenied
  | OutOfSpace
  | IndexOutOfBounds
  | UnusedSector
  | DiskNotAvailable
  | BadSector
  | FileAlreadyExists
  | InvalidDirectory
  | NotAFile
  | NotADirectory
  | DirAlreadyExists
  | InvalidSectorAllocator
  | outOfFuel
  deriving DecidableEq, Repr

open FileSystemError

/-- Bytes per sector (`disk_driver.rs`). -/
def SECTOR_SIZE : Nat := 512

/-- First sector handed out by the allocator (`fat16.rs` line 15). -/
def FIRST_USABLE_SECTOR : Nat := 21

/-! ## FATEntry (packed 16-bit allocation entry) -/

/-- One packed 16-bit allocation-table entry (`struct FATEntry(u16)`). -/
structure FATEntry where
  val : Nat
  deriving DecidableEq, Repr

instance : Inhabited FATEntry := ⟨⟨0⟩⟩

namespace FATEntry

def TYPE_MASK : Nat := 0xF000
def SECTOR_MASK : Nat := 0x0FFF
def TYPE_FREE : Nat := 0x0000
def TYPE_EOF : Nat := 0x1000
def TYPE_BAD : Nat := 0x2000
def TYPE_USED : Nat := 0x3000

def new_free : FATEntry := ⟨TYPE_FREE⟩

def new_eof : FATEntry := ⟨TYPE_EOF⟩

/-- `FATEntry::new_used`: fails with `BadSector` unless the sector fits in
12 bits; otherwise packs the Used tag with the masked sector. -/
def new_used (sector : Nat) : Except FileSystemError FATEntry :=
  if sector > SECTOR_MASK then .error BadSector
  else .ok ⟨TYPE_USED ||| (sector &&& SECTOR_MASK)⟩

def get_type (e : FATEntry) : Nat := e.val &&& TYPE_MASK

def is_free (e : FATEntry) : Bool := e.get_type == TYPE_FREE

def is_eof (e : FATEntry) : Bool := e.get_type == TYPE_EOF

def is_used (e : FATEntry) : Bool := e.get_type == TYPE_USED

def is_bad (e : FATEntry) : Bool := e.get_type == TYPE_BAD

/-- `FATEntry::get_sector`: only Used entries expose their sector. -/
def get_sector (e : FATEntry) : Except FileSystemError Nat :=
  if e.is_used then .ok (e.val &&& SECTOR_MASK) else .error UnusedSector

def as_bin (e : FATEntry) : Nat := e.val

end FATEntry

/-! ## FAT (one-sector, 256-entry allocation table) -/

/-- Per-directory allocation table: 256 packed entries in one sector. -/
structure FAT where
  entries : List FATEntry
  deriving DecidableEq, Repr

namespace FAT

def MAGIC_NUMBER : Nat := 0xF1A7

/-- `FAT::new`: all entries free, entry 0 holding the magic marker. -/
def new : FAT :=
  { entries := (List.replicate (SECTOR_SIZE / 2) FATEntry.new_free).set 0 ⟨MAGIC_NUMBER⟩ }

def is_valid (f : FAT) : Bool := (f.entries.getD 0 default).as_bin == MAGIC_NUMBER

/-- Scan helper for `first_free_entry` (the Rust loop over `1..len`). -/
def firstFreeFrom : List FATEntry → Nat → Option Nat
  | [], _ => none
  | e :: rest, i => if e.is_free then some i else firstFreeFrom rest (i + 1)

/-- `FAT::first_free_entry`: linear scan from index 1;
`OutOfSpace` when no entry is free. -/
def first_free_entry (f : FAT) : Except FileSystemError Nat :=
  match firstFreeFrom (f.entries.drop 1) 1 with
  | some i => .ok i
  | none => .error OutOfSpace

/-- `FAT::add_entry`: store at the first free index. -/
def add_entry (f : FAT) (e : FATEntry) : Except FileSystemError FAT :=
  match f.first_free_entry with
  | .ok index => .ok { entries := f.entries.set index e }
  | .error er => .error er

/-- `FAT::remove_entry`: reset the slot to Free (the Rust version always
returns `Ok(())`, so the model returns the table directly). -/
def remove_entry (f : FAT) (index : Nat) : FAT :=
  { entries := f.entries.set index FATEntry.new_free }

end FAT

/-! ## SectorAllocator -/

/-- Global sector allocator: watermark plus LIFO free-list.  The Rust
`Vec` pushes/pops at the end, so the list's last element is the
most-recently-freed sector. -/
structure SectorAllocator where
  next_free : Nat
  freed_sectors : List Nat
  deriving DecidableEq, Repr

namespace SectorAllocator

def MAGIC_SECTOR_NUMBER : Nat := 0x22

def new : SectorAllocator := ⟨FIRST_USABLE_SECTOR, []⟩

/-- `get_free_sectors(count)`: bump the watermark (wrapping u16 add) and
return the previous watermark; never consults the free-list. -/
def get_free_sectors (a : SectorAllocator) (count : Nat) : Nat × SectorAllocator :=
  (((a.next_free + count) % 65536 + 65536 - count) % 65536,
    { a with next_free := (a.next_free + count) % 65536 })

/-- `get_free_sector()`: pop the most recently freed sector if any,
otherwise take one fresh sector at the watermark. -/
def get_free_sector (a : SectorAllocator) : Nat × SectorAllocator :=
  match a.freed_sectors.getLast? with
  | some s => (s, { a with freed_sectors := a.freed_sectors.dropLast })
  | none => a.get_free_sectors 1

/-- `free(sector)`: push onto the free-list. -/
def free (a : SectorAllocator) (sector : Nat) : SectorAllocator :=
  { a with freed_sectors := a.freed_sectors ++ [sector] }

/-- `free_directory(sector)`: push the full 8-sector directory span
`sector, sector+1, ..., sector+7` (loop over `0..8`). -/
def free_directory (a : SectorAllocator) (sector : Nat) : SectorAllocator :=
  { a with freed_sectors := a.freed_sectors ++ (List.range 8).map (sector + ·) }

/-- Byte pair (little endian) of a u16 value, as written by `to_bitmap`. -/
def leBytes (v : Nat) : List Nat := [v % 256, v / 256 % 256]

/-- `to_bitmap`: one 512-byte sector image
`[magic lo, magic hi, watermark lo, watermark hi]` followed by the freed
sectors as little-endian u16 pairs.  The Rust loop writes pair `i` at
offset `4 + 2i` into a zero buffer and stops when the offset would leave
the sector, i.e. it records the first 254 freed sectors and leaves the
rest of the buffer zero; appending the encoded pairs to the 4-byte header
and padding with zeros produces the identical byte image. -/
def to_bitmap (a : SectorAllocator) : List Nat :=
  leBytes MAGIC_SECTOR_NUMBER ++ leBytes (a.next_free % 65536)
    ++ (a.freed_sectors.take 254).flatMap leBytes
    ++ List.replicate (SECTOR_SIZE - 4 - 2 * min a.freed_sectors.length 254) 0

/-- Decode loop of `from_bitmap`: read consecutive little-endian u16
pairs, pushing each nonzero value. -/
def decodePairs : List Nat → List Nat
  | b0 :: b1 :: rest =>
    let sector := (b1 <<< 8) ||| b0
    if sector ≠ 0 then sector :: decodePairs rest else decodePairs rest
  | _ => []

/-- `from_bitmap`: reject the image unless the leading magic matches, then
restore the watermark and the nonzero freed sectors from offset 4 on. -/
def from_bitmap (buffer : List Nat) : Except FileSystemError SectorAllocator :=
  if (buffer.getD 1 0 <<< 8) ||| buffer.getD 0 0 ≠ MAGIC_SECTOR_NUMBER then
    .error InvalidSectorAllocator
  else
    .ok { next_free := (buffer.getD 3 0 <<< 8) ||| buffer.getD 2 0,
          freed_sectors := decodePairs (buffer.drop 4) }

end SectorAllocator

/-! ## Directory entries -/

def DIR_ENTRY_TYPE : Nat := 0x10
def FILE_ENTRY_TYPE : Nat := 0x05

/-- File names are byte lists (the Rust code stores raw `str` bytes). -/
abbrev Name := List Nat

def dotName : Name := [46]
def dotdotName : Name := [46, 46]

/-- Fixed-width directory entry: 13 name bytes, cluster/sector pointer,
entry type tag. -/
structure DirEntry where
  filename : List Nat
  first_cluster : Nat
  entry_type : Nat
  deriving DecidableEq, Repr

namespace DirEntry

/-- `DirEntry::new`: copy at most 13 name bytes into a zeroed buffer. -/
def new (name : Name) (first_cluster : Nat) (entry_type : Nat) : DirEntry :=
  { filename := name.take 13 ++ List.replicate (13 - name.length) 0,
    first_cluster := first_cluster,
    entry_type := entry_type }

def empty : DirEntry :=
  { filename := List.replicate 13 0, first_cluster := 0, entry_type := FILE_ENTRY_TYPE }

instance : Inhabited DirEntry := ⟨empty⟩

/-- `DirEntry::to_string`: the name bytes up to the first zero. -/
def to_string (e : DirEntry) : Name := e.filename.takeWhile (· ≠ 0)

/-- `DirEntry::is_empty`: every name byte is zero. -/
def isEmptySlot (e : DirEntry) : Bool := e.filename.all (· == 0)

end DirEntry

/-! ## Directory -/

def FIRST_DIRECTORY : Nat := 0
def ENTRY_COUNT : Nat := 32
def DIRECTORY_MAGIC : Nat := 0xdead

/-- Total entry slots: `ENTRY_COUNT * 8 - 3 = 253`. -/
def DIR_TOTAL_ENTRIES : Nat := ENTRY_COUNT * 8 - 3

/-- Directory record: magic header, owning allocation-table sector, and
the fixed-length entry array (modelled as a 253-element list). -/
structure Directory where
  magic : Nat
  fat_sector : Nat
  entries : List DirEntry
  deriving DecidableEq, Repr

namespace Directory

/-- `Directory::new`. -/
def new (fat_sector : Nat) : Directory :=
  { magic := DIRECTORY_MAGIC,
    entries := List.replicate DIR_TOTAL_ENTRIES DirEntry.empty,
    fat_sector := fat_sector }

/-- First empty slot index, the scan of `Directory::add_entry`. -/
def firstEmptyFrom : List DirEntry → Nat → Option Nat
  | [], _ => none
  | e :: rest, i => if e.isEmptySlot then some i else firstEmptyFrom rest (i + 1)

/-- `Directory::add_entry`: first-empty-slot linear scan, `OutOfSpace`
when the table is full. -/
def add_entry (d : Directory) (e : DirEntry) : Except FileSystemError Directory :=
  match firstEmptyFrom d.entries 0 with
  | some i => .ok { d with entries := d.entries.set i e }
  | none => .error OutOfSpace

/-- Scan of `Directory::get_entry`: skip empty slots, first exact name
match wins. -/
def findEntry : List DirEntry → Name → Option DirEntry
  | [], _ => none
  | e :: rest, name =>
    if e.isEmptySlot then findEntry rest name
    else if e.to_string = name then some e
    else findEntry rest name

/-- `Directory::get_entry`: `FileNotFound` when no non-empty slot has the
name. -/
def get_entry (d : Directory) (name : Name) : Except FileSystemError DirEntry :=
  match findEntry d.entries name with
  | some e => .ok e
  | none => .error FileNotFound

/-- `Directory::remove_entry`: zero every slot whose rendered name
matches (the Rust loop does not stop at the first match and does not
skip empty slots). -/
def remove_entry (d : Directory) (name : Name) : Directory :=
  { d with entries := d.entries.map (fun e => if e.to_string = name then DirEntry.empty else e) }

end Directory

/-! ## Disk and filesystem state

The block device is modelled as a map from base LBA to the structure
stored there.  The source writes each structure (one-sector FAT images,
8-sector directory records, one-sector data/allocator images) as raw
bytes at its base LBA; in the model the structure is stored at that base
LBA as a typed block.  The modelled device never fails (`read`/`write`
device errors are out of scope for the verified operations). -/

inductive Block where
  | fatB (f : FAT)
  | dirB (d : Directory)
  | dataB (bytes : List Nat)
  | allocB (bytes : List Nat)
  | uninit
  deriving DecidableEq, Repr

abbrev Disk := Nat → Block

def Disk.write (disk : Disk) (sector : Nat) (b : Block) : Disk :=
  fun x => if x = sector then b else disk x

/-- Raw reinterpretation of a non-FAT sector as a table yields unspecified
entries; modelled as an all-free table (never read by the verified
executions). -/
def garbageFAT : FAT := ⟨List.replicate (SECTOR_SIZE / 2) FATEntry.new_free⟩

/-- Raw reinterpretation of non-directory bytes as a `Directory`; its
magic does not match, so `Directory::load` rejects it. -/
def garbageDir : Directory := ⟨0, 0, List.replicate DIR_TOTAL_ENTRIES DirEntry.empty⟩

/-- `FAT::load`: `None` means the root table's fixed LBA
(`FIRST_USABLE_SECTOR - 1`). -/
def FAT.loadDisk (disk : Disk) (sector : Option Nat) : FAT :=
  match disk (sector.getD (FIRST_USABLE_SECTOR - 1)) with
  | .fatB f => f
  | _ => garbageFAT

/-- `FAT::save`. -/
def FAT.saveDisk (f : FAT) (disk : Disk) (sector : Option Nat) : Disk :=
  disk.write (sector.getD (FIRST_USABLE_SECTOR - 1)) (.fatB f)

/-- Little-endian u32 decoded from the first four bytes of a directory's
raw image — the `magic` field checked by `Directory::load`. -/
def decodeMagicLE (bytes : List Nat) : Nat :=
  bytes.getD 0 0 + 256 * bytes.getD 1 0 + 65536 * bytes.getD 2 0 + 16777216 * bytes.getD 3 0

/-- Validation step of `Directory::load`, abstracted over the outcome of
the device read (`read` is the decoded directory on success, or the
propagated device error): magic mismatch yields `InvalidDirectory`;
a root load (`sector.isNone`) overrides the in-memory `fat_sector` with
the fixed root-FAT LBA. -/
def Directory.loadRead (read : Except FileSystemError Directory) (sector : Option Nat) :
    Except FileSystemError Directory :=
  match read with
  | .error e => .error e
  | .ok d =>
    if d.magic ≠ DIRECTORY_MAGIC then .error InvalidDirectory
    else if sector.isNone then .ok { d with fat_sector := FIRST_USABLE_SECTOR - 1 }
    else .ok d

/-- `Directory::load` against the modelled (never-failing) device. -/
def Directory.loadDisk (disk : Disk) (sector : Option Nat) : Except FileSystemError Directory :=
  Directory.loadRead
    (.ok (match disk (sector.getD FIRST_DIRECTORY) with
          | .dirB d => d
          | _ => garbageDir))
    sector

/-- `Directory::save`. -/
def Directory.saveDisk (d : Directory) (disk : Disk) (sector : Option Nat) : Disk :=
  disk.write (sector.getD FIRST_DIRECTORY) (.dirB d)

/-- Mutable state of `FAtApi` relevant to the claims: the disk contents
and the global sector allocator.  (The cached root table/directory fields
of `FAtApi` are not read by the verified operations, which re-resolve the
working directory from disk.) -/
structure St where
  disk : Disk
  allocator : SectorAllocator

/-- `SectorAllocator::save`: serialize into the allocator's dedicated
sector `FIRST_USABLE_SECTOR - 2`. -/
def St.saveAllocator (st : St) : St :=
  { st with disk := st.disk.write (FIRST_USABLE_SECTOR - 2) (.allocB st.allocator.to_bitmap) }

/-! ## FAtApi operations

The working directory (`WORKING_DIR`, a global path string split on
`/`) is passed explicitly as the list `wd` of its nonempty segments.
Operations that mutate `&mut self` return the error (if any) together
with the state as left by the partial execution, matching the Rust
semantics where allocator/disk mutations persist across an early
`return Err(..)`. -/

/-- `FAtApi::get_directory_table_by_name`. -/
def getDirectoryTableByName (disk : Disk) (directory : Directory) (name : Name) :
    Except FileSystemError (Directory × Nat) := do
  let entry ← directory.get_entry name
  if entry.entry_type ≠ DIR_ENTRY_TYPE then throw DirectoryNotFound
  else do
    let d ← Directory.loadDisk disk (some entry.first_cluster)
    pure (d, entry.first_cluster)

/-- One step of the `get_current_directory` walk (the loop body keeps
the whole `(Directory, LBA)` pair). -/
def stepPair (disk : Disk) (last : Directory × Nat) (dir_name : Name) :
    Except FileSystemError (Directory × Nat) :=
  getDirectoryTableByName disk last.1 dir_name

/-- One step of the `get_parent_sector` walk (its loop body keeps only
the Directory, dropping the LBA). -/
def stepDir (disk : Disk) (d : Directory) (dir_name : Name) :
    Except FileSystemError Directory := do
  let p ← getDirectoryTableByName disk d dir_name
  pure p.1

/-- `FAtApi::get_current_directory`: walk `wd` from the root. -/
def getCurrentDirectory (disk : Disk) (wd : List Name) :
    Except FileSystemError (Directory × Nat) := do
  let root ← Directory.loadDisk disk none
  wd.foldlM (stepPair disk) (root, FIRST_DIRECTORY)

/-- `FAtApi::get_parent_sector`: root resolves to `FIRST_DIRECTORY`;
otherwise walk all but the last segment and look the last segment up in
its parent. -/
def getParentSector (disk : Disk) (wd : List Name) : Except FileSystemError Nat :=
  match wd.getLast? with
  | none => .ok FIRST_DIRECTORY
  | some current => do
    let root ← Directory.loadDisk disk none
    let last_dir ← wd.dropLast.foldlM (stepDir disk) root
    let e ← last_dir.get_entry current
    pure e.first_cluster

/-- `FAtApi::add_file`. -/
def addFile (st : St) (wd : List Name) (name : Name) :
    Except FileSystemError Unit × St :=
  match getCurrentDirectory st.disk wd with
  | .error e => (.error e, st)
  | .ok dir =>
    match dir.1.get_entry name with
    | .ok _ => (.error FileAlreadyExists, st)
    | .error _ =>
      let fat := FAT.loadDisk st.disk (some dir.1.fat_sector)
      match fat.first_free_entry with
      | .error e => (.error e, st)
      | .ok index =>
        let sa := st.allocator.get_free_sector
        let st1 := St.saveAllocator { st with allocator := sa.2 }
        let st2 : St := { st1 with disk := st1.disk.write sa.1 (.dataB (List.replicate SECTOR_SIZE 0)) }
        match FATEntry.new_used sa.1 with
        | .error e => (.error e, st2)
        | .ok fe =>
          match fat.add_entry fe with
          | .error e => (.error e, st2)
          | .ok fat1 =>
            match dir.1.add_entry (DirEntry.new name index FILE_ENTRY_TYPE) with
            | .error e => (.error e, st2)
            | .ok d1 =>
              let st3 : St := { st2 with disk := fat1.saveDisk st2.disk (some dir.1.fat_sector) }
              (.ok (), { st3 with disk := d1.saveDisk st3.disk (some dir.2) })

/-- `FAtApi::new_dir`. -/
def newDir (st : St) (wd : List Name) (name : Name) :
    Except FileSystemError Unit × St :=
  match getCurrentDirectory st.disk wd with
  | .error e => (.error e, st)
  | .ok cur =>
    match cur.1.get_entry name with
    | .ok _ => (.error DirAlreadyExists, st)
    | .error _ =>
      let fa := st.allocator.get_free_sectors 9
      let st1 := St.saveAllocator { st with allocator := fa.2 }
      let fat := FAT.new
      let dir_sector := fa.1 + 1
      let dir0 := { Directory.new fa.1 with fat_sector := fa.1 }
      match dir0.add_entry (DirEntry.new dotName dir_sector DIR_ENTRY_TYPE) with
      | .error e => (.error e, st1)
      | .ok dir1 =>
        match getParentSector st1.disk wd with
        | .error e => (.error e, st1)
        | .ok psec =>
          match dir1.add_entry (DirEntry.new dotdotName psec DIR_ENTRY_TYPE) with
          | .error e => (.error e, st1)
          | .ok dir2 =>
            let st2 : St := { st1 with disk := fat.saveDisk st1.disk (some fa.1) }
            let st3 : St := { st2 with disk := dir2.saveDisk st2.disk (some dir_sector) }
            match getCurrentDirectory st3.disk wd with
            | .error e => (.error e, st3)
            | .ok parent =>
              match parent.1.add_entry (DirEntry.new name dir_sector DIR_ENTRY_TYPE) with
              | .error e => (.error e, st3)
              | .ok p1 =>
                (.ok (), { st3 with disk := p1.saveDisk st3.disk (some parent.2) })

/-- `FAtApi::remove_file_by_name`. -/
def removeFileByName (st : St) (name : Name) (directory : Directory × Nat) :
    Except FileSystemError Unit × St × (Directory × Nat) :=
  match directory.1.get_entry name with
  | .error e => (.error e, st, directory)
  | .ok entry =>
    if entry.entry_type = FILE_ENTRY_TYPE then
      let fat := FAT.loadDisk st.disk (some directory.1.fat_sector)
      let fat_entry := fat.entries.getD entry.first_cluster default
      match fat_entry.get_sector with
      | .error e => (.error e, st, directory)
      | .ok s =>
        let alloc1 := st.allocator.free s
        let fat1 := fat.remove_entry entry.first_cluster
        let disk1 := fat1.saveDisk st.disk (some directory.1.fat_sector)
        let d1 := directory.1.remove_entry name
        let disk2 := d1.saveDisk disk1 (some directory.2)
        (.ok (), ⟨disk2, alloc1⟩, (d1, directory.2))
    else (.error NotAFile, st, directory)

/-- Loop of `remove_dir_by_name` that frees every Used table sector and
clears those slots, threading the allocator through in entry order.  The
`get_sector` error branch mirrors the `?` in the Rust loop; it is
unreachable because Used entries always expose a sector. -/
def freeUsedLoop (alloc : SectorAllocator) :
    List FATEntry → Except FileSystemError Unit × SectorAllocator × List FATEntry
  | [] => (.ok (), alloc, [])
  | e :: rest =>
    if e.is_used then
      match e.get_sector with
      | .error er => (.error er, alloc, e :: rest)
      | .ok s =>
        let r := freeUsedLoop (alloc.free s) rest
        (r.1, r.2.1, FATEntry.new_free :: r.2.2)
    else
      let r := freeUsedLoop alloc rest
      (r.1, r.2.1, e :: r.2.2)

/-- Child-recursion loop of `remove_dir_by_name`: iterate the snapshot of
the target directory's entries, recursing (via `recFn`) into every
Directory-typed entry whose name is neither `.` nor `..`, threading the
state and the in-memory target directory. -/
def removeChildrenAux
    (recFn : St → Name → (Directory × Nat) → Except FileSystemError Unit × St × (Directory × Nat)) :
    List DirEntry → St → (Directory × Nat) → Except FileSystemError Unit × St × (Directory × Nat)
  | [], st, dir => (.ok (), st, dir)
  | entry :: rest, st, dir =>
    if entry.entry_type = DIR_ENTRY_TYPE ∧ entry.to_string ≠ dotName ∧ entry.to_string ≠ dotdotName then
      match recFn st entry.to_string dir with
      | (.ok _, st1, dir1) => removeChildrenAux recFn rest st1 dir1
      | (.error e, st1, dir1) => (.error e, st1, dir1)
    else removeChildrenAux recFn rest st dir

/-- `FAtApi::remove_dir_by_name`, recursion depth bounded by `fuel`.
The guard `!entry.entry_type == DIR_ENTRY_TYPE` from the source
bitwise-complements the u8 tag before comparing, transcribed as
`255 - entry_type = DIR_ENTRY_TYPE`. -/
def removeDirByName :
    Nat → St → Name → (Directory × Nat) → Except FileSystemError Unit × St × (Directory × Nat)
  | 0, st, _, directory => (.error outOfFuel, st, directory)
  | fuel + 1, st, name, directory =>
    let entry_index := (directory.1.entries.findIdx? (fun e => e.to_string == name)).getD 0
    let e0 := directory.1.entries.getD entry_index default
    if 255 - e0.entry_type = DIR_ENTRY_TYPE then (.error NotADirectory, st, directory)
    else
      match getDirectoryTableByName st.disk directory.1 name with
      | .error e => (.error e, st, directory)
      | .ok dir =>
        let fat := FAT.loadDisk st.disk (some dir.1.fat_sector)
        match freeUsedLoop st.allocator fat.entries with
        | (.error e, a, _) => (.error e, { st with allocator := a }, directory)
        | (.ok _, alloc1, fatEntries1) =>
          let st1 : St := { st with allocator := alloc1 }
          match removeChildrenAux (removeDirByName fuel) dir.1.entries st1 dir with
          | (.error e, st2, _) => (.error e, st2, directory)
          | (.ok _, st2, dir2) =>
            let fat2 : FAT := ⟨fatEntries1.set 0 FATEntry.new_free⟩
            let st3 : St := { st2 with disk := fat2.saveDisk st2.disk (some dir2.1.fat_sector) }
            let st4 : St := { st3 with allocator := st3.allocator.free dir2.1.fat_sector }
            let dir3 := { dir2.1 with magic := 0 }
            let st5 : St := { st4 with disk := dir3.saveDisk st4.disk (some dir2.2) }
            let pd1 := { directory.1 with entries := directory.1.entries.set entry_index DirEntry.empty }
            let st6 : St := { st5 with disk := pd1.saveDisk st5.disk (some directory.2) }
            let st7 : St := { st6 with allocator := st6.allocator.free_directory dir2.2 }
            (.ok (), st7, (pd1, directory.2))

/-- `FAtApi::remove_entry`: try file removal, fall back to recursive
directory removal on `NotAFile`. -/
def removeEntry (fuel : Nat) (st : St) (wd : List Name) (name : Name) :
    Except FileSystemError Unit × St :=
  match getCurrentDirectory st.disk wd with
  | .error e => (.error e, st)
  | .ok curr_dir =>
    match removeFileByName st name curr_dir with
    | (.ok _, st1, _) => (.ok (), st1)
    | (.error NotAFile, st1, cd1) =>
      match removeDirByName fuel st1 name cd1 with
      | (r, st2, _) => (r, st2)
    | (.error e, st1, _) => (.error e, st1)

/-! ## Initial filesystem state and tree building

`initSt` is the state right after `FAtApi::new` formats an empty disk:
fresh root directory at LBA 0, fresh allocator image at LBA 19, fresh
root allocation table at LBA 20, watermark at `FIRST_USABLE_SECTOR`. -/

def initDisk : Disk := fun s =>
  if s = FIRST_DIRECTORY then .dirB (Directory.new FIRST_DIRECTORY)
  else if s = FIRST_USABLE_SECTOR - 2 then .allocB SectorAllocator.new.to_bitmap
  else if s = FIRST_USABLE_SECTOR - 1 then .fatB FAT.new
  else .uninit

def initSt : St := ⟨initDisk, SectorAllocator.new⟩

/-- Shape of a directory tree to be created through `new_dir` and
`add_file`: a directory holds a list of file names and a list of named
subtrees. -/
inductive FsTree where
  | node (files : List Name) (children : List (Name × FsTree))

mutual

/-- Total number of sectors a tree consumes: 9 per directory (1 table +
8 directory record) plus one data sector per file. -/
def tsize : FsTree → Nat
  | .node files children => 9 + files.length + tsizeList children

def tsizeList : List (Name × FsTree) → Nat
  | [] => 0
  | c :: rest => tsize c.2 + tsizeList rest

end

mutual

/-- Nesting depth of a tree (a single directory has depth 1). -/
def depth : FsTree → Nat
  | .node _ children => 1 + depthList children

def depthList : List (Name × FsTree) → Nat
  | [] => 0
  | c :: rest => max (depth c.2) (depthList rest)

end

/-- A usable entry name: nonempty, at most 13 bytes, no zero byte (so the
stored name round-trips), and neither `.` nor `..`. -/
def validName (n : Name) : Bool :=
  !n.isEmpty && decide (n.length ≤ 13) && n.all (fun b => b != 0)
    && !(n == dotName) && !(n == dotdotName)

mutual

/-- Well-formed tree: valid, mutually distinct names at every directory,
and room in the fixed entry table for `.`/`..` plus all files and
children. -/
def wfTree : FsTree → Bool
  | .node files children =>
    files.all validName && children.all (fun c => validName c.1)
      && decide ((files ++ children.map Prod.fst).Nodup)
      && decide (2 + files.length + children.length ≤ DIR_TOTAL_ENTRIES)
      && wfList children

def wfList : List (Name × FsTree) → Bool
  | [] => true
  | c :: rest => wfTree c.2 && wfList rest

end

mutual

/-- Every directory of the tree contains at least one file. -/
def filesEverywhere : FsTree → Bool
  | .node files children => !files.isEmpty && filesEverywhereList children

def filesEverywhereList : List (Name × FsTree) → Bool
  | [] => true
  | c :: rest => filesEverywhere c.2 && filesEverywhereList rest

end

/-- Create the files of one directory through `add_file`, in order. -/
def buildFiles (wd : List Name) : List Name → St → Except FileSystemError St
  | [], st => .ok st
  | f :: rest, st =>
    match addFile st wd f with
    | (.ok _, st1) => buildFiles wd rest st1
    | (.error e, _) => .error e

mutual

/-- Create directory `name` with contents `t` inside the working
directory `wd`, through `new_dir` and `add_file` only: make the
directory, then its files, then its subtrees (depth first). -/
def buildTree (st : St) (wd : List Name) (name : Name) : FsTree → Except FileSystemError St
  | .node files children =>
    match newDir st wd name with
    | (.error e, _) => .error e
    | (.ok _, st1) =>
      match buildFiles (wd ++ [name]) files st1 with
      | .error e => .error e
      | .ok st2 => buildChildren (wd ++ [name]) children st2

def buildChildren (wd : List Name) : List (Name × FsTree) → St → Except FileSystemError St
  | [], st => .ok st
  | c :: rest, st =>
    match buildTree st wd c.1 c.2 with
    | .error e => .error e
    | .ok st1 => buildChildren wd rest st1

end

/-- Allocated-sector count of the allocator: watermark minus free-list
length. -/
def allocCount (a : SectorAllocator) : Nat := a.next_free - a.freed_sectors.length

/-! ## Expected on-disk layout of a built tree

`buildTree` from a state with an empty free-list allocates depth-first
from the watermark, so a subtree built at watermark `b` occupies exactly
the sectors `[b, b + tsize t)`: table at `b`, directory record at
`b + 1 .. b + 8`, the data sector of file `j` at `b + 9 + j`, and the
children consecutively after the files. -/

/-- The Used entry `new_used` produces for an in-range sector. -/
def usedE (s : Nat) : FATEntry := ⟨FATEntry.TYPE_USED ||| (s &&& FATEntry.SECTOR_MASK)⟩

/-- Allocation table of a directory at base `b` holding `k` files. -/
def buildFat (b k : Nat) : FAT :=
  ⟨⟨FAT.MAGIC_NUMBER⟩ :: ((List.range k).map (fun j => usedE (b + 9 + j))
    ++ List.replicate (255 - k) FATEntry.new_free)⟩

/-- Entry layout of a (possibly partially built) directory record at
base `b`: `.`, `..`, the listed entries, then empty padding up to the
fixed 253 slots. -/
def mkDirEntries (b psec : Nat) (es : List DirEntry) : List DirEntry :=
  DirEntry.new dotName (b + 1) DIR_ENTRY_TYPE
    :: DirEntry.new dotdotName psec DIR_ENTRY_TYPE
    :: (es ++ List.replicate (251 - es.length) DirEntry.empty)

/-- File entries as added by `add_file`: the `j`-th file of the
directory lands in allocation-table slot `j + 1`. -/
def fileEntriesFrom (k : Nat) : List Name → List DirEntry
  | [] => []
  | f :: rest => DirEntry.new f (k + 1) FILE_ENTRY_TYPE :: fileEntriesFrom (k + 1) rest

/-- Children annotated with the watermark base each one is built at. -/
def childrenWithBases (cb : Nat) : List (Name × FsTree) → List (Name × FsTree × Nat)
  | [] => []
  | c :: rest => (c.1, c.2, cb) :: childrenWithBases (cb + tsize c.2) rest

/-- Directory entries of the children as linked into their parent. -/
def childEntries (cwb : List (Name × FsTree × Nat)) : List DirEntry :=
  cwb.map (fun c => DirEntry.new c.1 (c.2.2 + 1) DIR_ENTRY_TYPE)

/-- The finished directory record of a tree node built at base `b` with
parent LBA `psec`. -/
def builtDir (b psec : Nat) (files : List Name) (children : List (Name × FsTree)) : Directory :=
  ⟨DIRECTORY_MAGIC, b,
    mkDirEntries b psec (fileEntriesFrom 0 files
      ++ childEntries (childrenWithBases (b + 9 + files.length) children))⟩

mutual

/-- The disk holds exactly the blocks `buildTree` wrote for tree `t` at
base `b` under parent LBA `psec`. -/
def DiskRep (disk : Disk) (psec b : Nat) : FsTree → Prop
  | .node files children =>
    disk b = .fatB (buildFat b files.length) ∧
    disk (b + 1) = .dirB (builtDir b psec files children) ∧
    DiskRepList disk (b + 1) (b + 9 + files.length) children

def DiskRepList (disk : Disk) (psec : Nat) : Nat → List (Name × FsTree) → Prop
  | _, [] => True
  | cb, c :: rest => DiskRep disk psec cb c.2 ∧ DiskRepList disk psec (cb + tsize c.2) rest

end

mutual

/-- Exact order in which `remove_dir_by_name` pushes the sectors of a
tree at base `b` back onto the free-list: the node's file data sectors
(in table order), the children's traces (in entry order), the node's
table sector, then its 8 directory sectors. -/
def freeTrace (b : Nat) : FsTree → List Nat
  | .node files children =>
    (List.range files.length).map (fun j => b + 9 + j)
      ++ freeTraceList (b + 9 + files.length) children
      ++ [b] ++ (List.range 8).map (fun o => b + 1 + o)

def freeTraceList (cb : Nat) : List (Name × FsTree) → List Nat
  | [] => []
  | c :: rest => freeTrace cb c.2 ++ freeTraceList (cb + tsize c.2) rest

end

/-! ## Path chains

A `Chain` certifies that the working-directory walk of
`get_current_directory` succeeds, recording the directory sector visited
at each step (`secs`) and the final directory and LBA. -/

def ChainFrom (disk : Disk) : Nat → Directory → List Name → List Nat → Nat → Directory → Prop
  | s, d, [], secs, sfin, dfin => secs = [] ∧ sfin = s ∧ dfin = d
  | s, d, seg :: rest, secs, sfin, dfin =>
    ∃ e dn secs2, d.get_entry seg = .ok e ∧ e.entry_type = DIR_ENTRY_TYPE ∧
      disk e.first_cluster = .dirB dn ∧ dn.magic = DIRECTORY_MAGIC ∧
      secs = e.first_cluster :: secs2 ∧
      ChainFrom disk e.first_cluster dn rest secs2 sfin dfin

def Chain (disk : Disk) (wd : List Name) (secs : List Nat) (sfin : Nat) (dfin : Directory) :
    Prop :=
  ∃ draw, disk FIRST_DIRECTORY = .dirB draw ∧ draw.magic = DIRECTORY_MAGIC ∧
    ChainFrom disk FIRST_DIRECTORY { draw with fat_sector := FIRST_USABLE_SECTOR - 1 }
      wd secs sfin dfin

/-- Side conditions carried along a chain during a build at watermark
`nf`: every visited sector is already allocated, none is the allocator
sector, and no sector repeats. -/
def ChainOk (secs : List Nat) (nf : Nat) : Prop :=
  (∀ x ∈ FIRST_DIRECTORY :: secs, x < nf ∧ x ≠ FIRST_USABLE_SECTOR - 2) ∧
  (FIRST_DIRECTORY :: secs).Nodup

/-- State used to exercise `add_file` at an exhausted 12-bit sector
space: a freshly formatted disk whose allocator watermark has reached
4096. -/
def c2State : St := ⟨initDisk, ⟨4096, []⟩⟩

/-- Root directory holding one File-typed entry named `f` (byte 102), to
exercise `remove_dir_by_name` on a file. -/
def c7Root : Directory :=
  { magic := DIRECTORY_MAGIC, fat_sector := FIRST_USABLE_SECTOR - 1,
    entries := (List.replicate DIR_TOTAL_ENTRIES DirEntry.empty).set 0
      (DirEntry.new [102] 1 FILE_ENTRY_TYPE) }

/-- Freshly formatted disk whose root holds the single file `f`. -/
def c7State : St := ⟨Disk.write initDisk FIRST_DIRECTORY (.dirB c7Root), SectorAllocator.new⟩

/-- The directory record `new_dir` builds before saving it: fresh table
sector `w`, `.` at its own LBA `w + 1`, `..` at the parent LBA. -/
def newDirRecord (w psec : Nat) : Directory :=
  { magic := DIRECTORY_MAGIC, fat_sector := w,
    entries := ((List.replicate DIR_TOTAL_ENTRIES DirEntry.empty).set 0
        (DirEntry.new dotName (w + 1) DIR_ENTRY_TYPE)).set 1
        (DirEntry.new dotdotName psec DIR_ENTRY_TYPE) }

/-! # Theorems -/

/-! ## Bit-level helper lemmas for the packed `FATEntry` fields -/

lemma testBit_12288 (i : Nat) : Nat.testBit 12288 i = (decide (i = 12) || decide (i = 13)) := by
  rcases Nat.lt_or_ge i 14 with h | h
  · interval_cases i <;> decide
  · have h2 : (12288 : Nat) < 2 ^ i := by
      calc (12288 : Nat) < 2 ^ 14 := by norm_num
      _ ≤ 2 ^ i := Nat.pow_le_pow_right (by norm_num) h
    rw [Nat.testBit_eq_false_of_lt h2]
    have h3 : ¬ (i = 12) := by omega
    have h4 : ¬ (i = 13) := by omega
    simp [h3, h4]

lemma testBit_4095 (i : Nat) : Nat.testBit 4095 i = decide (i < 12) := by
  rcases Nat.lt_or_ge i 12 with h | h
  · interval_cases i <;> decide
  · have h2 : (4095 : Nat) < 2 ^ i := by
      calc (4095 : Nat) < 2 ^ 12 := by norm_num
      _ ≤ 2 ^ i := Nat.pow_le_pow_right (by norm_num) h
    rw [Nat.testBit_eq_false_of_lt h2]
    simp
    omega

lemma testBit_61440 (i : Nat) : Nat.testBit 61440 i = (decide (12 ≤ i) && decide (i < 16)) := by
  rcases Nat.lt_or_ge i 16 with h | h
  · interval_cases i <;> decide
  · have h2 : (61440 : Nat) < 2 ^ i := by
      calc (61440 : Nat) < 2 ^ 16 := by norm_num
      _ ≤ 2 ^ i := Nat.pow_le_pow_right (by norm_num) h
    rw [Nat.testBit_eq_false_of_lt h2]
    simp
    omega

lemma testBit_small (s i : Nat) (hs : s < 4096) (hi : 12 ≤ i) : Nat.testBit s i = false := by
  apply Nat.testBit_eq_false_of_lt
  calc s < 4096 := hs
  _ = 2 ^ 12 := by norm_num
  _ ≤ 2 ^ i := Nat.pow_le_pow_right (by norm_num) hi

lemma used_val_low (s : Nat) (h : s < 4096) : (12288 ||| s) &&& 4095 = s := by
  apply Nat.eq_of_testBit_eq
  intro i
  rw [Nat.testBit_land, Nat.testBit_lor, testBit_12288, testBit_4095]
  rcases Nat.lt_or_ge i 12 with hi | hi
  · have h3 : ¬ (i = 12) := by omega
    have h4 : ¬ (i = 13) := by omega
    simp [h3, h4, hi]
  · rw [testBit_small s i h hi]
    have h5 : ¬ (i < 12) := by omega
    simp [h5]

lemma used_val_high (s : Nat) (h : s < 4096) : (12288 ||| s) &&& 61440 = 12288 := by
  apply Nat.eq_of_testBit_eq
  intro i
  rw [Nat.testBit_land, Nat.testBit_lor, testBit_61440, testBit_12288]
  rcases Nat.lt_or_ge i 12 with hi | hi
  · have h3 : ¬ (i = 12) := by omega
    have h4 : ¬ (i = 13) := by omega
    have h5 : ¬ (12 ≤ i) := by omega
    simp [h3, h4, h5]
  · rw [testBit_small s i h hi]
    by_cases h6 : i = 12
    · simp [h6]
    · by_cases h7 : i = 13
      · simp [h7]
      · simp [h6, h7]

lemma land_self_of_lt (s : Nat) (h : s < 4096) : s &&& 4095 = s := by
  have h2 := Nat.and_pow_two_sub_one_eq_mod s 12
  norm_num at h2
  rw [h2]
  exact Nat.mod_eq_of_lt h

/-- Behaviour of `new_used` on an in-range sector. -/
lemma new_used_ok (s : Nat) (h : s ≤ 4095) :
    FATEntry.new_used s = .ok ⟨12288 ||| s⟩ := by
  unfold FATEntry.new_used
  rw [if_neg (by unfold FATEntry.SECTOR_MASK; omega)]
  rw [show FATEntry.SECTOR_MASK = 4095 from rfl, land_self_of_lt s (by omega)]
  rfl

lemma used_entry_is_used (s : Nat) (h : s ≤ 4095) :
    FATEntry.is_used ⟨12288 ||| s⟩ = true := by
  unfold FATEntry.is_used FATEntry.get_type FATEntry.TYPE_MASK FATEntry.TYPE_USED
  simp only
  rw [show (0xF000 : Nat) = 61440 from rfl, used_val_high s (by omega)]
  rfl

lemma used_entry_sector (s : Nat) (h : s ≤ 4095) :
    FATEntry.get_sector ⟨12288 ||| s⟩ = .ok s := by
  unfold FATEntry.get_sector
  rw [used_entry_is_used s h]
  simp only [if_true]
  rw [show FATEntry.SECTOR_MASK = 4095 from rfl, used_val_low s (by omega)]

/-! ## C5 -/

/-- C5: for every sector value fitting in 12 bits, building a Used entry
succeeds and reading its sector round-trips; values beyond 12 bits are
rejected with `BadSector`; the sector of a Free or EndOfChain entry reads
as `UnusedSector`. -/
theorem C5_allocation_entry_contract :
    (∀ s : Nat, s ≤ FATEntry.SECTOR_MASK →
      ∃ e, FATEntry.new_used s = .ok e ∧ e.get_sector = .ok s) ∧
    (∀ s : Nat, FATEntry.SECTOR_MASK < s →
      FATEntry.new_used s = .error FileSystemError.BadSector) ∧
    (∀ e : FATEntry, e.is_free = true ∨ e.is_eof = true →
      e.get_sector = .error FileSystemError.UnusedSector) := by
  refine ⟨?_, ?_, ?_⟩
  · intro s hs
    have hs4 : s ≤ 4095 := hs
    exact ⟨⟨12288 ||| s⟩, new_used_ok s hs4, used_entry_sector s hs4⟩
  · intro s hs
    unfold FATEntry.new_used
    rw [if_pos hs]
  · intro e he
    have hused : e.is_used = false := by
      unfold FATEntry.is_used
      unfold FATEntry.is_free FATEntry.is_eof at he
      rcases he with h | h <;>
      · have := of_decide_eq_true h
        simp only [FATEntry.TYPE_FREE, FATEntry.TYPE_EOF] at this
        simp only [this, FATEntry.TYPE_USED]
        decide
    unfold FATEntry.get_sector
    rw [hused]
    simp

/-- Witness for C5 at concrete inputs. -/
theorem C5_allocation_entry_contract_witness :
    (∃ e, FATEntry.new_used 5 = .ok e ∧ e.get_sector = .ok 5) ∧
    FATEntry.new_used 4096 = .error FileSystemError.BadSector ∧
    FATEntry.get_sector FATEntry.new_free = .error FileSystemError.UnusedSector ∧
    FATEntry.get_sector FATEntry.new_eof = .error FileSystemError.UnusedSector :=
  ⟨C5_allocation_entry_contract.1 5 (by decide),
   C5_allocation_entry_contract.2.1 4096 (by decide),
   C5_allocation_entry_contract.2.2 FATEntry.new_free (Or.inl (by decide)),
   C5_allocation_entry_contract.2.2 FATEntry.new_eof (Or.inr (by decide))⟩

/-! ## C4 -/

/-- Poping from a nonempty free-list takes the most recently freed
sector. -/
lemma get_free_sector_concat (a : SectorAllocator) (l : List Nat) (s : Nat)
    (h : a.freed_sectors = l ++ [s]) :
    a.get_free_sector = (s, { a with freed_sectors := l }) := by
  unfold SectorAllocator.get_free_sector
  rw [h, List.getLast?_concat, List.dropLast_concat]

/-- Fresh allocation bumps the watermark by one and returns its previous
value. -/
lemma get_free_sector_fresh (a : SectorAllocator)
    (h : a.freed_sectors = []) (hb : a.next_free + 1 < 65536) :
    a.get_free_sector = (a.next_free, { a with next_free := a.next_free + 1 }) := by
  unfold SectorAllocator.get_free_sector SectorAllocator.get_free_sectors
  rw [h]
  simp only [List.getLast?_nil]
  have h1 : (a.next_free + 1) % 65536 = a.next_free + 1 := Nat.mod_eq_of_lt hb
  rw [h1]
  have h2 : (a.next_free + 1 + 65536 - 1) % 65536 = a.next_free := by omega
  rw [h2]

/-- C4: `get_free_sector` pops the most-recently-freed sector when the
free-list is non-empty and otherwise returns and bumps the watermark; in
particular after `free(5); free(9)` two successive calls yield 9 then
5. -/
theorem C4_allocator_lifo :
    (∀ a : SectorAllocator, ∀ l s, a.freed_sectors = l ++ [s] →
      a.get_free_sector = (s, { a with freed_sectors := l })) ∧
    (∀ a : SectorAllocator, a.freed_sectors = [] → a.next_free + 1 < 65536 →
      a.get_free_sector = (a.next_free, { a with next_free := a.next_free + 1 })) ∧
    (∀ a : SectorAllocator,
      ((a.free 5).free 9).get_free_sector.1 = 9 ∧
      ((a.free 5).free 9).get_free_sector.2.get_free_sector.1 = 5) := by
  refine ⟨get_free_sector_concat, get_free_sector_fresh, ?_⟩
  intro a
  have h1 := get_free_sector_concat ((a.free 5).free 9) (a.freed_sectors ++ [5]) 9 rfl
  rw [h1]
  have h2 := get_free_sector_concat
    { (a.free 5).free 9 with freed_sectors := a.freed_sectors ++ [5] }
    a.freed_sectors 5 rfl
  rw [h2]
  exact ⟨rfl, rfl⟩

/-! ## C6 -/

lemma shl8_lor_low (x y : Nat) (h : y < 256) : (x <<< 8) ||| y = 256 * x + y := by
  apply Nat.eq_of_testBit_eq
  intro i
  rw [Nat.testBit_lor, Nat.testBit_shiftLeft]
  have h2 : (256 : Nat) * x + y = 2 ^ 8 * x + y := by norm_num
  have hy : y < 2 ^ 8 := by norm_num; omega
  rw [h2, Nat.testBit_mul_pow_two_add x hy]
  rcases Nat.lt_or_ge i 8 with hi | hi
  · have h3 : ¬ (i ≥ 8) := by omega
    simp [h3, hi]
  · have h4 : ¬ (i < 8) := by omega
    have h5 : Nat.testBit y i = false := by
      apply Nat.testBit_eq_false_of_lt
      calc y < 256 := h
      _ = 2 ^ 8 := by norm_num
      _ ≤ 2 ^ i := Nat.pow_le_pow_right (by norm_num) hi
    simp [hi, h4, h5]

lemma decodePairs_replicate_zero (m : Nat) :
    SectorAllocator.decodePairs (List.replicate m 0) = [] := by
  induction m using Nat.strong_induction_on with
  | _ m ih =>
    match m with
    | 0 => rfl
    | 1 => rfl
    | m + 2 =>
      show SectorAllocator.decodePairs (0 :: 0 :: List.replicate m 0) = []
      rw [show SectorAllocator.decodePairs (0 :: 0 :: List.replicate m 0)
            = SectorAllocator.decodePairs (List.replicate m 0) from rfl]
      exact ih m (by omega)

lemma decodePairs_encode (l : List Nat) (m : Nat)
    (h : ∀ s ∈ l, s ≠ 0 ∧ s < 65536) :
    SectorAllocator.decodePairs (l.flatMap SectorAllocator.leBytes ++ List.replicate m 0) = l := by
  induction l with
  | nil => simpa using decodePairs_replicate_zero m
  | cons s rest ih =>
    have hs := h s (by simp)
    have hrest : ∀ x ∈ rest, x ≠ 0 ∧ x < 65536 := fun x hx => h x (by simp [hx])
    have hsec : (s / 256 % 256) <<< 8 ||| s % 256 = s := by
      rw [shl8_lor_low (s / 256 % 256) (s % 256) (Nat.mod_lt _ (by norm_num))]
      omega
    show (if ((s / 256 % 256) <<< 8 ||| s % 256) ≠ 0 then
        ((s / 256 % 256) <<< 8 ||| s % 256)
          :: SectorAllocator.decodePairs (rest.flatMap SectorAllocator.leBytes ++ List.replicate m 0)
      else SectorAllocator.decodePairs (rest.flatMap SectorAllocator.leBytes ++ List.replicate m 0))
      = s :: rest
    rw [hsec, if_pos hs.1, ih hrest]

/-- Amended C6: serialization round-trips exactly for allocator states
whose free-list has at most 254 entries, none of them the sector number
0, with every stored u16 in range; and decoding any image fails with
`InvalidSectorAllocator` exactly when its leading magic mismatches. -/
theorem C6_allocator_bitmap_roundtrip :
    (∀ a : SectorAllocator, a.next_free < 65536 → a.freed_sectors.length ≤ 254 →
      (∀ s ∈ a.freed_sectors, s ≠ 0 ∧ s < 65536) →
      SectorAllocator.from_bitmap a.to_bitmap = .ok a) ∧
    (∀ buffer : List Nat,
      SectorAllocator.from_bitmap buffer = .error FileSystemError.InvalidSectorAllocator ↔
        (buffer.getD 1 0 <<< 8) ||| buffer.getD 0 0 ≠ SectorAllocator.MAGIC_SECTOR_NUMBER) := by
  constructor
  · intro a hn hl hs
    obtain ⟨nf, freed⟩ := a
    simp only at hn hl hs
    unfold SectorAllocator.to_bitmap SectorAllocator.from_bitmap
    rw [List.take_of_length_le hl]
    have hmin : min freed.length 254 = freed.length := by omega
    have hnf : nf % 65536 = nf := Nat.mod_eq_of_lt hn
    rw [hmin, hnf]
    rw [show SectorAllocator.leBytes SectorAllocator.MAGIC_SECTOR_NUMBER = [34, 0] from rfl]
    rw [show SectorAllocator.leBytes nf = [nf % 256, nf / 256 % 256] from rfl]
    simp only [List.cons_append, List.nil_append, List.getD_cons_zero, List.getD_cons_succ,
      List.drop_succ_cons, List.drop_zero]
    rw [if_neg (by decide)]
    have hlo : (nf / 256 % 256) <<< 8 ||| nf % 256 = nf := by
      rw [shl8_lor_low (nf / 256 % 256) (nf % 256) (Nat.mod_lt _ (by norm_num))]
      omega
    rw [hlo, decodePairs_encode freed _ hs]
  · intro buffer
    unfold SectorAllocator.from_bitmap
    by_cases h : (buffer.getD 1 0 <<< 8) ||| buffer.getD 0 0 ≠ SectorAllocator.MAGIC_SECTOR_NUMBER
    · rw [if_pos h]
      exact iff_of_true rfl h
    · rw [if_neg h]
      exact iff_of_false (by simp) h

set_option maxRecDepth 4000 in
/-- Counterexample to C6 as stated: an allocator whose free-list holds
sector 0 does not round-trip — the decoder drops the zero entry. -/
theorem C6_roundtrip_counterexample :
    SectorAllocator.from_bitmap (SectorAllocator.to_bitmap ⟨21, [0]⟩)
        = .ok (⟨21, []⟩ : SectorAllocator) ∧
    SectorAllocator.from_bitmap (SectorAllocator.to_bitmap ⟨21, [0]⟩)
        ≠ .ok (⟨21, [0]⟩ : SectorAllocator) := by
  have h1 : SectorAllocator.from_bitmap (SectorAllocator.to_bitmap ⟨21, [0]⟩)
      = .ok (⟨21, []⟩ : SectorAllocator) := by rfl
  refine ⟨h1, ?_⟩
  rw [h1]
  intro h
  exact absurd (congrArg SectorAllocator.freed_sectors (Except.ok.inj h)) (by decide)

/-- Witness for C6 at a concrete allocator state and a concrete corrupt
image. -/
theorem C6_allocator_bitmap_roundtrip_witness :
    SectorAllocator.from_bitmap (SectorAllocator.to_bitmap ⟨21, [5, 9]⟩)
        = .ok (⟨21, [5, 9]⟩ : SectorAllocator) ∧
    SectorAllocator.from_bitmap (List.replicate 512 0)
        = .error FileSystemError.InvalidSectorAllocator :=
  ⟨C6_allocator_bitmap_roundtrip.1 ⟨21, [5, 9]⟩ (by decide) (by decide)
      (by decide),
   (C6_allocator_bitmap_roundtrip.2 (List.replicate 512 0)).mpr (by decide)⟩

/-- Witness for C4 at a concrete allocator. -/
theorem C4_allocator_lifo_witness :
    SectorAllocator.get_free_sector ⟨21, [7, 9]⟩ = (9, ⟨21, [7]⟩) ∧
    SectorAllocator.get_free_sector ⟨21, []⟩ = (21, ⟨22, []⟩) ∧
    (SectorAllocator.free (SectorAllocator.free ⟨21, []⟩ 5) 9).get_free_sector.1 = 9 :=
  ⟨C4_allocator_lifo.1 ⟨21, [7, 9]⟩ [7] 9 rfl,
   C4_allocator_lifo.2.1 ⟨21, []⟩ rfl (by decide),
   (C4_allocator_lifo.2.2 ⟨21, []⟩).1⟩

/-! ## C8 -/

lemma firstEmptyFrom_none_iff (l : List DirEntry) (k : Nat) :
    Directory.firstEmptyFrom l k = none ↔ ∀ x ∈ l, x.isEmptySlot = false := by
  induction l generalizing k with
  | nil => simp [Directory.firstEmptyFrom]
  | cons e rest ih =>
    unfold Directory.firstEmptyFrom
    by_cases he : e.isEmptySlot = true
    · rw [if_pos he]
      constructor
      · intro h
        exact absurd h (by simp)
      · intro h
        exact absurd (h e (by simp)) (by simp [he])
    · rw [if_neg he]
      rw [ih (k + 1)]
      constructor
      · intro hall x hx
        rcases List.mem_cons.mp hx with h | h
        · subst h
          exact Bool.eq_false_iff.mpr he
        · exact hall x h
      · intro hall x hx
        exact hall x (List.mem_cons.mpr (Or.inr hx))

lemma firstEmptyFrom_some : ∀ (l : List DirEntry) (k i : Nat) (ei : DirEntry),
    l[i]? = some ei → ei.isEmptySlot = true →
    (∀ j x, j < i → l[j]? = some x → x.isEmptySlot = false) →
    Directory.firstEmptyFrom l k = some (k + i) := by
  intro l
  induction l with
  | nil =>
    intro k i ei hget
    simp at hget
  | cons e rest ih =>
    intro k i ei hget hemp hbefore
    unfold Directory.firstEmptyFrom
    match i with
    | 0 =>
      have he : e = ei := by simpa using hget
      subst he
      rw [if_pos hemp]
      simp
    | i + 1 =>
      have he : e.isEmptySlot = false := hbefore 0 e (by omega) (by simp)
      rw [if_neg (by simp [he])]
      have h2 := ih (k + 1) i ei (by simpa using hget) hemp
        (fun j x hj hx => hbefore (j + 1) x (by omega) (by simpa using hx))
      rw [h2]
      congr 1
      omega

/-- C8: `Directory::add_entry` stores into the first empty slot and
returns `OutOfSpace` exactly when no slot is empty; after
`remove_entry` clears the (first-occurring) slot named `name` in a full
table, a subsequent `add_entry` succeeds and occupies that slot. -/
theorem C8_directory_capacity_and_reuse :
    (∀ (d : Directory) (e : DirEntry),
      d.add_entry e = .error FileSystemError.OutOfSpace ↔
        ∀ x ∈ d.entries, x.isEmptySlot = false) ∧
    (∀ (d : Directory) (e : DirEntry) (i : Nat) (ei : DirEntry),
      d.entries[i]? = some ei → ei.isEmptySlot = true →
      (∀ j x, j < i → d.entries[j]? = some x → x.isEmptySlot = false) →
      d.add_entry e = .ok { d with entries := d.entries.set i e }) ∧
    (∀ (d : Directory) (name : Name) (e : DirEntry) (i : Nat) (ei : DirEntry),
      (∀ x ∈ d.entries, x.isEmptySlot = false) →
      d.entries[i]? = some ei → ei.to_string = name →
      (∀ j x, j < i → d.entries[j]? = some x → x.to_string ≠ name) →
      (d.remove_entry name).add_entry e
        = .ok { d.remove_entry name with entries := (d.remove_entry name).entries.set i e }) := by
  have hadd_of : ∀ (d : Directory) (e : DirEntry) (i : Nat) (ei : DirEntry),
      d.entries[i]? = some ei → ei.isEmptySlot = true →
      (∀ j x, j < i → d.entries[j]? = some x → x.isEmptySlot = false) →
      d.add_entry e = .ok { d with entries := d.entries.set i e } := by
    intro d e i ei hget hemp hbefore
    unfold Directory.add_entry
    rw [firstEmptyFrom_some d.entries 0 i ei hget hemp hbefore]
    simp
  refine ⟨?_, hadd_of, ?_⟩
  · intro d e
    unfold Directory.add_entry
    constructor
    · intro h
      rw [← firstEmptyFrom_none_iff d.entries 0]
      match hfe : Directory.firstEmptyFrom d.entries 0 with
      | none => rfl
      | some v =>
        rw [hfe] at h
        simp at h
    · intro h
      rw [(firstEmptyFrom_none_iff d.entries 0).mpr h]
  · intro d name e i ei hfull hget hname hbefore
    apply hadd_of (d.remove_entry name) e i DirEntry.empty
    · show (d.entries.map _)[i]? = _
      rw [List.getElem?_map, hget]
      show some (if ei.to_string = name then DirEntry.empty else ei) = some DirEntry.empty
      rw [if_pos hname]
    · decide
    · intro j x hj hx
      rw [show (d.remove_entry name).entries = d.entries.map
          (fun y => if y.to_string = name then DirEntry.empty else y) from rfl] at hx
      rw [List.getElem?_map] at hx
      match hx2 : d.entries[j]? with
      | none =>
        rw [hx2] at hx
        simp at hx
      | some y =>
        rw [hx2] at hx
        have hx3 : (if y.to_string = name then DirEntry.empty else y) = x := by
          simpa using hx
        rw [if_neg (hbefore j y hj hx2)] at hx3
        subst hx3
        exact hfull y (List.getElem?_mem hx2)

/-- Witness for C8 at a concrete two-slot table. -/
theorem C8_directory_capacity_and_reuse_witness :
    (Directory.add_entry ⟨0xdead, 0, [DirEntry.new [97] 1 5, DirEntry.new [98] 2 5]⟩
        (DirEntry.new [99] 3 5) = .error FileSystemError.OutOfSpace) ∧
    ((Directory.remove_entry ⟨0xdead, 0, [DirEntry.new [97] 1 5, DirEntry.new [98] 2 5]⟩ [97]).add_entry
        (DirEntry.new [99] 3 5)
      = .ok { Directory.remove_entry ⟨0xdead, 0, [DirEntry.new [97] 1 5, DirEntry.new [98] 2 5]⟩ [97] with
          entries := (Directory.remove_entry ⟨0xdead, 0,
            [DirEntry.new [97] 1 5, DirEntry.new [98] 2 5]⟩ [97]).entries.set 0 (DirEntry.new [99] 3 5) }) :=
  ⟨(C8_directory_capacity_and_reuse.1 _ _).mpr (by decide),
   C8_directory_capacity_and_reuse.2.2 ⟨0xdead, 0, [DirEntry.new [97] 1 5, DirEntry.new [98] 2 5]⟩
     [97] (DirEntry.new [99] 3 5) 0 (DirEntry.new [97] 1 5) (by decide) (by decide) (by decide)
     (by intro j x hj hx; omega)⟩

/-! ## C9 and C10 -/

/-- C9: `Directory::load` fails with `InvalidDirectory` exactly when the
magic decoded from the loaded bytes differs from `DIRECTORY_MAGIC`
(zeroed leading bytes decode to magic 0), while device errors propagate
unchanged and are distinct from `InvalidDirectory`. -/
theorem C9_directory_magic_validation :
    (∀ (d : Directory) (sector : Option Nat),
      Directory.loadRead (.ok d) sector = .error FileSystemError.InvalidDirectory ↔
        d.magic ≠ DIRECTORY_MAGIC) ∧
    (∀ (e : FileSystemError) (sector : Option Nat),
      Directory.loadRead (.error e) sector = .error e) ∧
    (∀ rest : List Nat, decodeMagicLE (0 :: 0 :: 0 :: 0 :: rest) = 0) ∧
    (0 : Nat) ≠ DIRECTORY_MAGIC ∧
    FileSystemError.InvalidDirectory ≠ FileSystemError.DiskNotAvailable := by
  refine ⟨?_, ?_, ?_, by decide, by decide⟩
  · intro d sector
    dsimp only [Directory.loadRead]
    by_cases h : d.magic ≠ DIRECTORY_MAGIC
    · rw [if_pos h]
      exact iff_of_true rfl h
    · rw [if_neg h]
      refine iff_of_false ?_ h
      by_cases hs : sector.isNone
      · rw [if_pos hs]
        simp
      · rw [if_neg hs]
        simp
  · intro e sector
    rfl
  · intro rest
    rfl

/-- C10: a root load (no explicit sector) overrides the stored
`fat_sector` with the fixed root-table LBA 20; a non-root load keeps the
stored value. -/
theorem C10_root_fat_sector_override :
    (∀ d : Directory, d.magic = DIRECTORY_MAGIC →
      Directory.loadRead (.ok d) none
        = .ok { d with fat_sector := FIRST_USABLE_SECTOR - 1 }) ∧
    (∀ (d : Directory) (s : Nat), d.magic = DIRECTORY_MAGIC →
      Directory.loadRead (.ok d) (some s) = .ok d) ∧
    FIRST_USABLE_SECTOR - 1 = 20 := by
  refine ⟨?_, ?_, by decide⟩
  · intro d h
    dsimp only [Directory.loadRead]
    rw [if_neg (by simp [h])]
    rfl
  · intro d s h
    dsimp only [Directory.loadRead]
    rw [if_neg (by simp [h])]
    rfl

/-- Witness for C10: a stored `fat_sector` of 999 is overridden to 20 on
a root load and kept on a non-root load. -/
theorem C10_root_fat_sector_override_witness :
    Directory.loadRead (.ok ⟨DIRECTORY_MAGIC, 999, []⟩) none
        = .ok (⟨DIRECTORY_MAGIC, 20, []⟩ : Directory) ∧
    Directory.loadRead (.ok ⟨DIRECTORY_MAGIC, 999, []⟩) (some 5)
        = .ok (⟨DIRECTORY_MAGIC, 999, []⟩ : Directory) :=
  ⟨C10_root_fat_sector_override.1 ⟨DIRECTORY_MAGIC, 999, []⟩ rfl,
   C10_root_fat_sector_override.2.1 ⟨DIRECTORY_MAGIC, 999, []⟩ 5 rfl⟩

/-! ## Step equations for `addFile` -/

/-- Big-step equation for a successful `add_file`. -/
lemma addFile_ok_eq (st : St) (wd : List Name) (name : Name)
    (dir : Directory × Nat) (err0 : FileSystemError) (index : Nat) (s : Nat)
    (a1 : SectorAllocator) (fe : FATEntry) (fat1 : FAT) (d1 : Directory)
    (hcur : getCurrentDirectory st.disk wd = .ok dir)
    (hmiss : dir.1.get_entry name = .error err0)
    (hidx : (FAT.loadDisk st.disk (some dir.1.fat_sector)).first_free_entry = .ok index)
    (halloc : st.allocator.get_free_sector = (s, a1))
    (hused : FATEntry.new_used s = .ok fe)
    (hfat1 : (FAT.loadDisk st.disk (some dir.1.fat_sector)).add_entry fe = .ok fat1)
    (hd1 : dir.1.add_entry (DirEntry.new name index FILE_ENTRY_TYPE) = .ok d1) :
    addFile st wd name =
      (.ok (),
        { disk :=
            Disk.write
              (Disk.write
                (Disk.write
                  (Disk.write st.disk (FIRST_USABLE_SECTOR - 2) (.allocB a1.to_bitmap))
                  s (.dataB (List.replicate SECTOR_SIZE 0)))
                dir.1.fat_sector (.fatB fat1))
              dir.2 (.dirB d1),
          allocator := a1 }) := by
  unfold addFile
  rw [hcur]
  dsimp only
  rw [hmiss]
  dsimp only
  rw [hidx]
  dsimp only
  rw [halloc]
  dsimp only
  rw [hused]
  dsimp only
  rw [hfat1]
  dsimp only
  rw [hd1]
  rfl

/-- When the directory's allocation table has no free entry, `add_file`
fails with `OutOfSpace` before any mutation. -/
lemma addFile_fatFull_eq (st : St) (wd : List Name) (name : Name)
    (dir : Directory × Nat) (err0 : FileSystemError)
    (hcur : getCurrentDirectory st.disk wd = .ok dir)
    (hmiss : dir.1.get_entry name = .error err0)
    (hfull : (FAT.loadDisk st.disk (some dir.1.fat_sector)).first_free_entry
        = .error FileSystemError.OutOfSpace) :
    addFile st wd name = (.error FileSystemError.OutOfSpace, st) := by
  unfold addFile
  rw [hcur]
  dsimp only
  rw [hmiss]
  dsimp only
  rw [hfull]

/-- When the freshly allocated sector does not fit in 12 bits, `add_file`
fails with `BadSector`, but only after advancing and saving the
allocator and zeroing the new sector. -/
lemma addFile_badSector_eq (st : St) (wd : List Name) (name : Name)
    (dir : Directory × Nat) (err0 : FileSystemError) (index : Nat) (s : Nat)
    (a1 : SectorAllocator)
    (hcur : getCurrentDirectory st.disk wd = .ok dir)
    (hmiss : dir.1.get_entry name = .error err0)
    (hidx : (FAT.loadDisk st.disk (some dir.1.fat_sector)).first_free_entry = .ok index)
    (halloc : st.allocator.get_free_sector = (s, a1))
    (hbad : FATEntry.new_used s = .error FileSystemError.BadSector) :
    addFile st wd name =
      (.error FileSystemError.BadSector,
        { disk := (st.disk.write (FIRST_USABLE_SECTOR - 2) (.allocB a1.to_bitmap)).write
            s (.dataB (List.replicate SECTOR_SIZE 0)),
          allocator := a1 }) := by
  unfold addFile
  rw [hcur]
  dsimp only
  rw [hmiss]
  dsimp only
  rw [hidx]
  dsimp only
  rw [halloc]
  dsimp only
  rw [hbad]
  rfl

/-- When the directory's entry table is full, `add_file` fails with
`OutOfSpace` after the allocator was advanced and saved and the fresh
sector zeroed. -/
lemma addFile_dirFull_eq (st : St) (wd : List Name) (name : Name)
    (dir : Directory × Nat) (err0 : FileSystemError) (index : Nat) (s : Nat)
    (a1 : SectorAllocator) (fe : FATEntry) (fat1 : FAT)
    (hcur : getCurrentDirectory st.disk wd = .ok dir)
    (hmiss : dir.1.get_entry name = .error err0)
    (hidx : (FAT.loadDisk st.disk (some dir.1.fat_sector)).first_free_entry = .ok index)
    (halloc : st.allocator.get_free_sector = (s, a1))
    (hused : FATEntry.new_used s = .ok fe)
    (hfat1 : (FAT.loadDisk st.disk (some dir.1.fat_sector)).add_entry fe = .ok fat1)
    (hd1 : dir.1.add_entry (DirEntry.new name index FILE_ENTRY_TYPE)
        = .error FileSystemError.OutOfSpace) :
    addFile st wd name =
      (.error FileSystemError.OutOfSpace,
        { disk := (st.disk.write (FIRST_USABLE_SECTOR - 2) (.allocB a1.to_bitmap)).write
            s (.dataB (List.replicate SECTOR_SIZE 0)),
          allocator := a1 }) := by
  unfold addFile
  rw [hcur]
  dsimp only
  rw [hmiss]
  dsimp only
  rw [hidx]
  dsimp only
  rw [halloc]
  dsimp only
  rw [hused]
  dsimp only
  rw [hfat1]
  dsimp only
  rw [hd1]
  rfl

/-! ## C2 -/

set_option maxRecDepth 8000 in
/-- Counterexample to C2 as stated: on a fresh disk whose watermark has
reached 4096, `add_file` returns `BadSector` yet the allocator has been
advanced (and saved) and the disk sector 4096 zeroed. -/
theorem C2_atomicity_counterexample :
    (addFile c2State [] [97]).1 = .error FileSystemError.BadSector ∧
    (addFile c2State [] [97]).2.allocator ≠ c2State.allocator ∧
    (addFile c2State [] [97]).2.disk 4096 ≠ c2State.disk 4096 := by
  have h1 : (addFile c2State [] [97]).1 = .error FileSystemError.BadSector := by rfl
  have h2 : (addFile c2State [] [97]).2.allocator = ⟨4097, []⟩ := by rfl
  have h3 : (addFile c2State [] [97]).2.disk 4096
      = .dataB (List.replicate SECTOR_SIZE 0) := by rfl
  have h4 : c2State.disk 4096 = .uninit := by rfl
  refine ⟨h1, ?_, ?_⟩
  · rw [h2]
    intro h
    exact absurd (congrArg SectorAllocator.next_free h) (by decide)
  · rw [h3, h4]
    intro h
    exact Block.noConfusion h

/-- Amended C2: an `OutOfSpace` failure coming from the allocation-table
scan happens before any mutation and leaves the state untouched, whereas
a `BadSector` failure (and an `OutOfSpace` failure from a full directory
entry table) occurs only after the allocator has been advanced and
saved and the fresh sector zeroed on disk. -/
theorem C2_capacity_error_atomicity :
    (∀ (st : St) (wd : List Name) (name : Name) (dir : Directory × Nat)
        (err0 : FileSystemError),
      getCurrentDirectory st.disk wd = .ok dir →
      dir.1.get_entry name = .error err0 →
      (FAT.loadDisk st.disk (some dir.1.fat_sector)).first_free_entry
          = .error FileSystemError.OutOfSpace →
      addFile st wd name = (.error FileSystemError.OutOfSpace, st)) ∧
    (∀ (st : St) (wd : List Name) (name : Name) (dir : Directory × Nat)
        (err0 : FileSystemError) (index : Nat) (s : Nat) (a1 : SectorAllocator),
      getCurrentDirectory st.disk wd = .ok dir →
      dir.1.get_entry name = .error err0 →
      (FAT.loadDisk st.disk (some dir.1.fat_sector)).first_free_entry = .ok index →
      st.allocator.get_free_sector = (s, a1) →
      FATEntry.new_used s = .error FileSystemError.BadSector →
      addFile st wd name =
        (.error FileSystemError.BadSector,
          { disk := (st.disk.write (FIRST_USABLE_SECTOR - 2) (.allocB a1.to_bitmap)).write
              s (.dataB (List.replicate SECTOR_SIZE 0)),
            allocator := a1 })) := by
  exact ⟨fun st wd name dir err0 => addFile_fatFull_eq st wd name dir err0,
    fun st wd name dir err0 index s a1 => addFile_badSector_eq st wd name dir err0 index s a1⟩

set_option maxRecDepth 8000 in
/-- Witness for the amended C2 at the concrete exhausted-watermark
state. -/
theorem C2_capacity_error_atomicity_witness :
    addFile c2State [] [97] =
      (.error FileSystemError.BadSector,
        { disk := (c2State.disk.write (FIRST_USABLE_SECTOR - 2)
              (.allocB (SectorAllocator.to_bitmap ⟨4097, []⟩))).write 4096
              (.dataB (List.replicate SECTOR_SIZE 0)),
          allocator := ⟨4097, []⟩ }) :=
  C2_capacity_error_atomicity.2 c2State [] [97]
    ({ Directory.new 0 with fat_sector := 20 }, 0) FileSystemError.FileNotFound 1 4096
    ⟨4097, []⟩ (by rfl) (by rfl) (by rfl) (by rfl) (by rfl)

/-! ## C7 -/

set_option maxRecDepth 8000 in
/-- C7 failing input: `remove_dir_by_name` applied to a File-typed entry
returns `DirectoryNotFound` (from `get_directory_table_by_name`), not
`NotADirectory`, because the guard `!entry.entry_type == DIR_ENTRY_TYPE`
compares the bitwise complement of the tag (`255 - 0x05 = 0xFA`) against
`0x10` and never fires; no mutation occurs. -/
theorem C7_not_a_directory_guard_bug :
    removeDirByName 1 c7State [102] (c7Root, FIRST_DIRECTORY)
      = (.error FileSystemError.DirectoryNotFound, c7State, (c7Root, FIRST_DIRECTORY)) ∧
    255 - FILE_ENTRY_TYPE ≠ DIR_ENTRY_TYPE ∧
    FileSystemError.DirectoryNotFound ≠ FileSystemError.NotADirectory := by
  refine ⟨by rfl, by decide, by decide⟩

/-! ## Except reduction helpers and path-walk lemmas -/

lemma except_bind_ok {α β : Type} (a : α) (f : α → Except FileSystemError β) :
    (Except.ok a >>= f) = f a := rfl

lemma except_bind_error {α β : Type} (e : FileSystemError) (f : α → Except FileSystemError β) :
    ((Except.error e : Except FileSystemError α) >>= f) = .error e := rfl

lemma except_map_ok {α β : Type} (f : α → β) (a : α) :
    Except.map f (Except.ok a : Except FileSystemError α) = .ok (f a) := rfl

lemma except_map_error {α β : Type} (f : α → β) (e : FileSystemError) :
    Except.map f (Except.error e : Except FileSystemError α) = .error e := rfl

/-- The Directory-only walk step is the pair step with the LBA
projected away. -/
lemma stepDir_eq (disk : Disk) (d : Directory) (n : Name) :
    stepDir disk d n = Except.map Prod.fst (getDirectoryTableByName disk d n) := by
  unfold stepDir
  match h : getDirectoryTableByName disk d n with
  | .error e =>
    rw [except_bind_error, except_map_error]
  | .ok q =>
    rw [except_bind_ok, except_map_ok]
    rfl

/-- The `get_parent_sector` walk computes the first projection of the
`get_current_directory` walk. -/
lemma foldPair (disk : Disk) : ∀ (parts : List Name) (p : Directory × Nat),
    List.foldlM (stepDir disk) p.1 parts
      = Except.map Prod.fst (List.foldlM (stepPair disk) p parts) := by
  intro parts
  induction parts with
  | nil =>
    intro p
    rfl
  | cons n rest ih =>
    intro p
    simp only [List.foldlM_cons]
    rw [stepDir_eq]
    match hq : getDirectoryTableByName disk p.1 n with
    | .error e =>
      rw [show stepPair disk p n = .error e from hq]
      rfl
    | .ok q =>
      rw [show stepPair disk p n = .ok q from hq]
      rw [except_map_ok, except_bind_ok, except_bind_ok]
      exact ih q

/-- If the current directory resolves, `get_parent_sector` resolves to
exactly the current directory's LBA. -/
lemma getParentSector_of_current (disk : Disk) (wd : List Name) (cur : Directory × Nat)
    (h : getCurrentDirectory disk wd = .ok cur) :
    getParentSector disk wd = .ok cur.2 := by
  rcases List.eq_nil_or_concat wd with hnil | ⟨parts, last, hconcat⟩
  · subst hnil
    unfold getCurrentDirectory at h
    unfold getParentSector
    match hr : Directory.loadDisk disk none with
    | .error e =>
      rw [hr, except_bind_error] at h
      exact absurd h (by simp)
    | .ok root =>
      rw [hr, except_bind_ok] at h
      simp only [List.foldlM_nil] at h
      have hcur : cur = (root, FIRST_DIRECTORY) := by
        have := h
        simp only [pure, Except.pure] at this
        exact (Except.ok.inj this).symm
      rw [hcur]
      rfl
  · subst hconcat
    rw [List.concat_eq_append] at h ⊢
    unfold getCurrentDirectory at h
    unfold getParentSector
    rw [List.getLast?_concat, List.dropLast_concat]
    dsimp only
    match hr : Directory.loadDisk disk none with
    | .error e =>
      rw [hr, except_bind_error] at h
      exact absurd h (by simp)
    | .ok root =>
      rw [hr, except_bind_ok] at h
      rw [except_bind_ok]
      rw [List.foldlM_append] at h
      match hp : List.foldlM (stepPair disk) (root, FIRST_DIRECTORY) parts with
      | .error e =>
        rw [hp, except_bind_error] at h
        exact absurd h (by simp)
      | .ok p =>
        rw [hp, except_bind_ok] at h
        simp only [List.foldlM_cons, List.foldlM_nil] at h
        have hg := foldPair disk parts (root, FIRST_DIRECTORY)
        rw [hp, except_map_ok] at hg
        rw [hg, except_bind_ok]
        have hstep : stepPair disk p last >>= (fun b => pure b) = stepPair disk p last := by
          match hs : stepPair disk p last with
          | .error e => rfl
          | .ok q => rfl
        rw [hstep] at h
        unfold stepPair getDirectoryTableByName at h
        match he : p.1.get_entry last with
        | .error e =>
          rw [he, except_bind_error] at h
          exact absurd h (by simp)
        | .ok e =>
          rw [he, except_bind_ok] at h
          rw [except_bind_ok]
          by_cases ht : e.entry_type ≠ DIR_ENTRY_TYPE
          · rw [if_pos ht] at h
            exact absurd h (by simp [throw, throwThe, MonadExceptOf.throw])
          · rw [if_neg ht] at h
            match hl : Directory.loadDisk disk (some e.first_cluster) with
            | .error er =>
              rw [hl, except_bind_error] at h
              exact absurd h (by simp)
            | .ok d2 =>
              rw [hl, except_bind_ok] at h
              have hc : cur = (d2, e.first_cluster) := by
                have h2 := h
                simp only [pure, Except.pure] at h2
                exact (Except.ok.inj h2).symm
              rw [hc]
              rfl

/-! ## Step equations for `newDir` -/

/-- When an entry with the name already exists, `new_dir` fails with
`DirAlreadyExists` and nothing is mutated. -/
lemma newDir_exists_eq (st : St) (wd : List Name) (name : Name)
    (cur : Directory × Nat) (e : DirEntry)
    (hcur : getCurrentDirectory st.disk wd = .ok cur)
    (hhit : cur.1.get_entry name = .ok e) :
    newDir st wd name = (.error FileSystemError.DirAlreadyExists, st) := by
  unfold newDir
  rw [hcur]
  dsimp only
  rw [hhit]

/-- Big-step equation for a successful `new_dir`: 9 fresh sectors are
reserved at the watermark `w`, a fresh table is written at `w`, the new
directory record (`.` ↦ `w + 1`, `..` ↦ parent LBA) at `w + 1`, and the
parent gains an entry `name ↦ w + 1`. -/
lemma newDir_ok_eq (st : St) (wd : List Name) (name : Name)
    (cur par : Directory × Nat) (err0 : FileSystemError) (w psec : Nat)
    (a1 : SectorAllocator) (p1 : Directory)
    (hcur : getCurrentDirectory st.disk wd = .ok cur)
    (hmiss : cur.1.get_entry name = .error err0)
    (halloc : st.allocator.get_free_sectors 9 = (w, a1))
    (hpar : getParentSector (st.disk.write (FIRST_USABLE_SECTOR - 2) (.allocB a1.to_bitmap)) wd
        = .ok psec)
    (hcur2 : getCurrentDirectory
        (((st.disk.write (FIRST_USABLE_SECTOR - 2) (.allocB a1.to_bitmap)).write w
          (.fatB FAT.new)).write (w + 1) (.dirB (newDirRecord w psec))) wd = .ok par)
    (hpadd : par.1.add_entry (DirEntry.new name (w + 1) DIR_ENTRY_TYPE) = .ok p1) :
    newDir st wd name =
      (.ok (),
        { disk := ((((st.disk.write (FIRST_USABLE_SECTOR - 2) (.allocB a1.to_bitmap)).write w
            (.fatB FAT.new)).write (w + 1) (.dirB (newDirRecord w psec))).write par.2
            (.dirB p1)),
          allocator := a1 }) := by
  unfold newDir
  rw [hcur]
  dsimp only
  rw [hmiss]
  dsimp only
  rw [halloc]
  dsimp only
  have e1 : ({ Directory.new w with fat_sector := w }).add_entry
        (DirEntry.new dotName (w + 1) DIR_ENTRY_TYPE)
      = (Except.ok (⟨DIRECTORY_MAGIC, w, (List.replicate DIR_TOTAL_ENTRIES DirEntry.empty).set 0
          (DirEntry.new dotName (w + 1) DIR_ENTRY_TYPE)⟩ : Directory)
        : Except FileSystemError Directory) := rfl
  rw [e1]
  dsimp only
  have e2 : St.saveAllocator { st with allocator := a1 }
      = (⟨st.disk.write (FIRST_USABLE_SECTOR - 2) (.allocB a1.to_bitmap), a1⟩ : St) := rfl
  rw [e2]
  dsimp only
  rw [hpar]
  dsimp only
  have e3 : Directory.add_entry (⟨DIRECTORY_MAGIC, w,
        (List.replicate DIR_TOTAL_ENTRIES DirEntry.empty).set 0
          (DirEntry.new dotName (w + 1) DIR_ENTRY_TYPE)⟩ : Directory)
        (DirEntry.new dotdotName psec DIR_ENTRY_TYPE)
      = (Except.ok (newDirRecord w psec) : Except FileSystemError Directory) := rfl
  rw [e3]
  dsimp only [Directory.saveDisk, FAT.saveDisk, Option.getD]
  rw [hcur2]
  dsimp only
  rw [hpadd]

/-- Watermark reservation below the u16 wrap point. -/
lemma get_free_sectors_eq (a : SectorAllocator) (count : Nat)
    (hb : a.next_free + count < 65536) :
    a.get_free_sectors count = (a.next_free, { a with next_free := a.next_free + count }) := by
  unfold SectorAllocator.get_free_sectors
  have h1 : (a.next_free + count) % 65536 = a.next_free + count := Nat.mod_eq_of_lt hb
  rw [h1]
  have h2 : (a.next_free + count + 65536 - count) % 65536 = a.next_free := by omega
  rw [h2]

/-! ## C3 -/

/-- C3: `new_dir` fails with `DirAlreadyExists` when the name is taken;
otherwise it reserves 9 contiguous fresh sectors at the watermark `w`
(1 for the new table, 8 for the directory record at `w + 1`), creates a
directory whose `.` entry targets its own LBA `w + 1` and whose `..`
entry targets the current directory's LBA, and links `name ↦ w + 1` into
the parent.  The stability hypotheses say that re-resolving the working
directory after the allocator save and after the two fresh-sector writes
gives the same parent — true whenever the path does not run through the
allocator sector or unallocated sectors. -/
theorem C3_new_dir_contract :
    (∀ (st : St) (wd : List Name) (name : Name) (cur : Directory × Nat) (e : DirEntry),
      getCurrentDirectory st.disk wd = .ok cur →
      cur.1.get_entry name = .ok e →
      newDir st wd name = (.error FileSystemError.DirAlreadyExists, st)) ∧
    (∀ (st : St) (wd : List Name) (name : Name) (cur par : Directory × Nat)
        (err0 : FileSystemError) (w : Nat) (a1 : SectorAllocator) (p1 : Directory),
      getCurrentDirectory st.disk wd = .ok cur →
      cur.1.get_entry name = .error err0 →
      st.allocator.next_free + 9 < 65536 →
      w = st.allocator.next_free →
      a1 = { st.allocator with next_free := st.allocator.next_free + 9 } →
      getCurrentDirectory (st.disk.write (FIRST_USABLE_SECTOR - 2) (.allocB a1.to_bitmap)) wd
          = .ok cur →
      getCurrentDirectory
          (((st.disk.write (FIRST_USABLE_SECTOR - 2) (.allocB a1.to_bitmap)).write w
            (.fatB FAT.new)).write (w + 1) (.dirB (newDirRecord w cur.2))) wd = .ok par →
      par.1.add_entry (DirEntry.new name (w + 1) DIR_ENTRY_TYPE) = .ok p1 →
      (newDir st wd name =
        (.ok (),
          { disk := ((((st.disk.write (FIRST_USABLE_SECTOR - 2) (.allocB a1.to_bitmap)).write w
              (.fatB FAT.new)).write (w + 1) (.dirB (newDirRecord w cur.2))).write par.2
              (.dirB p1)),
            allocator := a1 }) ∧
        (newDirRecord w cur.2).entries.getD 0 default
          = DirEntry.new dotName (w + 1) DIR_ENTRY_TYPE ∧
        (newDirRecord w cur.2).entries.getD 1 default
          = DirEntry.new dotdotName cur.2 DIR_ENTRY_TYPE)) := by
  refine ⟨newDir_exists_eq, ?_⟩
  intro st wd name cur par err0 w a1 p1 hcur hmiss hb hw ha1 hcur1 hcur2 hpadd
  have halloc : st.allocator.get_free_sectors 9 = (w, a1) := by
    rw [hw, ha1]
    exact get_free_sectors_eq st.allocator 9 hb
  have hpar : getParentSector (st.disk.write (FIRST_USABLE_SECTOR - 2) (.allocB a1.to_bitmap)) wd
      = .ok cur.2 :=
    getParentSector_of_current _ wd cur hcur1
  refine ⟨newDir_ok_eq st wd name cur par err0 w cur.2 a1 p1 hcur hmiss halloc hpar hcur2 hpadd,
    ?_, ?_⟩
  · rfl
  · rfl

set_option maxRecDepth 8000 in
/-- Witness for C3: `new_dir("d")` on a fresh filesystem reserves sectors
21–29, writes the table at 21 and the record at 22 with `.` ↦ 22 and
`..` ↦ 0 (the root), and links `d ↦ 22` into the root. -/
theorem C3_new_dir_contract_witness :
    newDir initSt [] [100] =
      (.ok (),
        { disk := ((((initSt.disk.write (FIRST_USABLE_SECTOR - 2)
            (.allocB (SectorAllocator.to_bitmap ⟨30, []⟩))).write 21
            (.fatB FAT.new)).write 22 (.dirB (newDirRecord 21 0))).write 0
            (.dirB ⟨DIRECTORY_MAGIC, 20, (List.replicate DIR_TOTAL_ENTRIES DirEntry.empty).set 0
              (DirEntry.new [100] 22 DIR_ENTRY_TYPE)⟩)),
          allocator := ⟨30, []⟩ }) ∧
    (newDirRecord 21 0).entries.getD 0 default = DirEntry.new dotName 22 DIR_ENTRY_TYPE ∧
    (newDirRecord 21 0).entries.getD 1 default = DirEntry.new dotdotName 0 DIR_ENTRY_TYPE :=
  C3_new_dir_contract.2 initSt [] [100]
    (⟨DIRECTORY_MAGIC, 20, List.replicate DIR_TOTAL_ENTRIES DirEntry.empty⟩, 0)
    (⟨DIRECTORY_MAGIC, 20, List.replicate DIR_TOTAL_ENTRIES DirEntry.empty⟩, 0)
    FileSystemError.FileNotFound 21 ⟨30, []⟩
    ⟨DIRECTORY_MAGIC, 20, (List.replicate DIR_TOTAL_ENTRIES DirEntry.empty).set 0
      (DirEntry.new [100] 22 DIR_ENTRY_TYPE)⟩
    (by rfl) (by rfl) (by decide) (by rfl) (by rfl) (by rfl) (by rfl) (by rfl)

/-! ## Name and entry-layout lemmas -/


lemma validName_spec (n : Name) (h : validName n = true) :
    n ≠ [] ∧ n.length ≤ 13 ∧ (∀ b ∈ n, b ≠ 0) ∧ n ≠ dotName ∧ n ≠ dotdotName := by
  unfold validName at h
  simp only [Bool.and_eq_true, decide_eq_true_eq, List.all_eq_true, bne_iff_ne,
    Bool.not_eq_true', List.isEmpty_iff, beq_iff_eq] at h
  obtain ⟨⟨⟨⟨h1, h2⟩, h3⟩, h4⟩, h5⟩ := h
  exact ⟨by simpa using h1, h2, h3, by simpa using h4, by simpa using h5⟩

lemma takeWhile_replicate_zero (m : Nat) :
    List.takeWhile (fun x => decide (x ≠ 0)) (List.replicate m (0 : Nat)) = [] := by
  match m with
  | 0 => rfl
  | m + 1 => rfl

lemma to_string_new (n : Name) (c ty : Nat) (h : validName n = true) :
    (DirEntry.new n c ty).to_string = n := by
  obtain ⟨hne, hlen, hz, _, _⟩ := validName_spec n h
  unfold DirEntry.new DirEntry.to_string
  simp only
  rw [List.take_of_length_le hlen]
  rw [List.takeWhile_append_of_pos (by
    intro x hx
    simpa using hz x hx)]
  rw [takeWhile_replicate_zero]
  simp

lemma isEmptySlot_new_false (n : Name) (c ty : Nat) (h : validName n = true) :
    (DirEntry.new n c ty).isEmptySlot = false := by
  obtain ⟨hne, hlen, hz, _, _⟩ := validName_spec n h
  unfold DirEntry.new DirEntry.isEmptySlot
  simp only [List.all_append, Bool.and_eq_false_iff]
  left
  rw [List.take_of_length_le hlen]
  match n, hne with
  | b :: rest, _ =>
    have hb := hz b (by simp)
    simp [hb]

/-! entry constants -/

lemma dotEntry_to_string (c ty : Nat) : (DirEntry.new dotName c ty).to_string = dotName := rfl

lemma dotdotEntry_to_string (c ty : Nat) :
    (DirEntry.new dotdotName c ty).to_string = dotdotName := rfl

lemma dotEntry_nonempty (c ty : Nat) : (DirEntry.new dotName c ty).isEmptySlot = false := rfl

lemma dotdotEntry_nonempty (c ty : Nat) :
    (DirEntry.new dotdotName c ty).isEmptySlot = false := rfl

lemma empty_isEmptySlot : DirEntry.empty.isEmptySlot = true := rfl

/-! findEntry and get_entry over explicit layouts -/

lemma findEntry_cons_empty (e : DirEntry) (rest : List DirEntry) (name : Name)
    (h : e.isEmptySlot = true) :
    Directory.findEntry (e :: rest) name = Directory.findEntry rest name := by
  show (if e.isEmptySlot = true then Directory.findEntry rest name
    else if e.to_string = name then some e else Directory.findEntry rest name)
    = Directory.findEntry rest name
  rw [if_pos h]

lemma findEntry_cons_miss (e : DirEntry) (rest : List DirEntry) (name : Name)
    (h : e.to_string ≠ name) :
    Directory.findEntry (e :: rest) name = Directory.findEntry rest name := by
  show (if e.isEmptySlot = true then Directory.findEntry rest name
    else if e.to_string = name then some e else Directory.findEntry rest name)
    = Directory.findEntry rest name
  by_cases he : e.isEmptySlot = true
  · rw [if_pos he]
  · rw [if_neg he, if_neg h]

lemma findEntry_cons_hit (e : DirEntry) (rest : List DirEntry) (name : Name)
    (hne : e.isEmptySlot = false) (h : e.to_string = name) :
    Directory.findEntry (e :: rest) name = some e := by
  show (if e.isEmptySlot = true then Directory.findEntry rest name
    else if e.to_string = name then some e else Directory.findEntry rest name) = some e
  rw [if_neg (by simp [hne]), if_pos h]

lemma findEntry_append_miss (l1 l2 : List DirEntry) (name : Name)
    (h : ∀ e ∈ l1, e.to_string ≠ name) :
    Directory.findEntry (l1 ++ l2) name = Directory.findEntry l2 name := by
  induction l1 with
  | nil => rfl
  | cons e rest ih =>
    rw [List.cons_append, findEntry_cons_miss e _ name (h e (by simp))]
    exact ih (fun x hx => h x (by simp [hx]))

lemma findEntry_replicate_empty (m : Nat) (name : Name) :
    Directory.findEntry (List.replicate m DirEntry.empty) name = none := by
  induction m with
  | zero => rfl
  | succ k ih =>
    rw [List.replicate_succ, findEntry_cons_empty _ _ _ empty_isEmptySlot]
    exact ih

/-- Missing name in a partially built directory record. -/
lemma get_entry_mk_miss (m fs b psec : Nat) (es : List DirEntry) (name : Name)
    (hdot : name ≠ dotName) (hdotdot : name ≠ dotdotName)
    (hes : ∀ e ∈ es, e.to_string ≠ name) :
    Directory.get_entry ⟨m, fs, mkDirEntries b psec es⟩ name
      = .error FileSystemError.FileNotFound := by
  unfold Directory.get_entry
  show (match Directory.findEntry (mkDirEntries b psec es) name with
    | some e => Except.ok e
    | none => Except.error FileSystemError.FileNotFound) = _
  unfold mkDirEntries
  rw [findEntry_cons_miss _ _ _ (by rw [dotEntry_to_string]; exact fun hc => hdot hc.symm)]
  rw [findEntry_cons_miss _ _ _ (by rw [dotdotEntry_to_string]; exact fun hc => hdotdot hc.symm)]
  rw [findEntry_append_miss _ _ _ hes, findEntry_replicate_empty]

/-- Present name in a partially built directory record. -/
lemma get_entry_mk_hit (m fs b psec : Nat) (es1 es2 : List DirEntry) (e : DirEntry)
    (name : Name)
    (hdot : name ≠ dotName) (hdotdot : name ≠ dotdotName)
    (hes1 : ∀ x ∈ es1, x.to_string ≠ name)
    (hne : e.isEmptySlot = false) (hename : e.to_string = name) :
    Directory.get_entry ⟨m, fs, mkDirEntries b psec (es1 ++ e :: es2)⟩ name = .ok e := by
  unfold Directory.get_entry
  show (match Directory.findEntry (mkDirEntries b psec (es1 ++ e :: es2)) name with
    | some x => Except.ok x
    | none => Except.error FileSystemError.FileNotFound) = _
  unfold mkDirEntries
  rw [findEntry_cons_miss _ _ _ (by rw [dotEntry_to_string]; exact fun hc => hdot hc.symm)]
  rw [findEntry_cons_miss _ _ _ (by rw [dotdotEntry_to_string]; exact fun hc => hdotdot hc.symm)]
  rw [List.append_assoc, List.cons_append, findEntry_append_miss _ _ _ hes1]
  rw [findEntry_cons_hit _ _ _ hne hename]

/-- The `.` lookup in a built record resolves to the record itself. -/
lemma get_entry_mk_dot (m fs b psec : Nat) (es : List DirEntry) :
    Directory.get_entry ⟨m, fs, mkDirEntries b psec es⟩ dotName
      = .ok (DirEntry.new dotName (b + 1) DIR_ENTRY_TYPE) := by
  unfold Directory.get_entry
  show (match Directory.findEntry (mkDirEntries b psec es) dotName with
    | some x => Except.ok x
    | none => Except.error FileSystemError.FileNotFound) = _
  unfold mkDirEntries
  rw [findEntry_cons_hit _ _ _ (dotEntry_nonempty _ _) (dotEntry_to_string _ _)]

/-! add_entry over partially built records -/

lemma set_append_length_cons (l1 : List DirEntry) (x y : DirEntry) (l2 : List DirEntry) :
    (l1 ++ x :: l2).set l1.length y = l1 ++ y :: l2 := by
  induction l1 with
  | nil => rfl
  | cons a rest ih => simp [List.set, ih]

lemma firstEmptyFrom_append_nonempty (l1 l2 : List DirEntry) (k : Nat)
    (h : ∀ e ∈ l1, e.isEmptySlot = false) :
    Directory.firstEmptyFrom (l1 ++ l2) k = Directory.firstEmptyFrom l2 (k + l1.length) := by
  induction l1 generalizing k with
  | nil => simp
  | cons e rest ih =>
    rw [List.cons_append]
    show (if e.isEmptySlot = true then some k
      else Directory.firstEmptyFrom (rest ++ l2) (k + 1))
      = Directory.firstEmptyFrom l2 (k + (e :: rest).length)
    rw [if_neg (by simp [h e (by simp)])]
    have harith : k + (e :: rest).length = (k + 1) + rest.length := by
      simp only [List.length_cons]
      omega
    rw [harith]
    exact ih (k + 1) (fun x hx => h x (by simp [hx]))

lemma mk_assoc (b psec : Nat) (es : List DirEntry) :
    mkDirEntries b psec es
      = (DirEntry.new dotName (b + 1) DIR_ENTRY_TYPE
          :: DirEntry.new dotdotName psec DIR_ENTRY_TYPE :: es)
        ++ List.replicate (251 - es.length) DirEntry.empty := by
  simp [mkDirEntries]

lemma add_entry_mk (m fs b psec : Nat) (es : List DirEntry) (enew : DirEntry)
    (he : ∀ e ∈ es, e.isEmptySlot = false) (hlen : es.length ≤ 250) :
    Directory.add_entry ⟨m, fs, mkDirEntries b psec es⟩ enew
      = .ok ⟨m, fs, mkDirEntries b psec (es ++ [enew])⟩ := by
  have hfront : ∀ e ∈ DirEntry.new dotName (b + 1) DIR_ENTRY_TYPE
      :: DirEntry.new dotdotName psec DIR_ENTRY_TYPE :: es, e.isEmptySlot = false := by
    intro e hmem
    simp only [List.mem_cons] at hmem
    rcases hmem with h | h | h
    · rw [h]
      exact dotEntry_nonempty _ _
    · rw [h]
      exact dotdotEntry_nonempty _ _
    · exact he _ h
  have hrep : List.replicate (251 - es.length) DirEntry.empty
      = DirEntry.empty :: List.replicate (250 - es.length) DirEntry.empty := by
    have h2 : 251 - es.length = (250 - es.length) + 1 := by omega
    rw [h2, List.replicate_succ]
  have hidx : Directory.firstEmptyFrom (mkDirEntries b psec es) 0 = some (2 + es.length) := by
    rw [mk_assoc, firstEmptyFrom_append_nonempty _ _ 0 hfront, hrep]
    show (if DirEntry.empty.isEmptySlot = true
        then some (0 + (DirEntry.new dotName (b + 1) DIR_ENTRY_TYPE
          :: DirEntry.new dotdotName psec DIR_ENTRY_TYPE :: es).length)
        else _) = _
    rw [if_pos empty_isEmptySlot]
    simp only [List.length_cons]
    congr 1
    omega
  have hset : (mkDirEntries b psec es).set (2 + es.length) enew
      = mkDirEntries b psec (es ++ [enew]) := by
    rw [mk_assoc, hrep, mk_assoc]
    have hl : 2 + es.length = (DirEntry.new dotName (b + 1) DIR_ENTRY_TYPE
        :: DirEntry.new dotdotName psec DIR_ENTRY_TYPE :: es).length := by
      simp only [List.length_cons]
      omega
    rw [hl, set_append_length_cons]
    have h3 : 251 - (es ++ [enew]).length = 250 - es.length := by
      simp only [List.length_append, List.length_cons, List.length_nil]
      omega
    rw [h3]
    simp [List.append_assoc]
  unfold Directory.add_entry
  show (match Directory.firstEmptyFrom (mkDirEntries b psec es) 0 with
    | some i => Except.ok (Directory.mk m fs ((mkDirEntries b psec es).set i enew))
    | none => Except.error FileSystemError.OutOfSpace)
    = Except.ok (Directory.mk m fs (mkDirEntries b psec (es ++ [enew])))
  rw [hidx]
  show Except.ok (Directory.mk m fs ((mkDirEntries b psec es).set (2 + es.length) enew)) = _
  rw [hset]

/-! FAT layout lemmas -/

lemma land_4095_le (s : Nat) : s &&& 4095 ≤ 4095 := Nat.and_le_right

lemma usedE_is_used (s : Nat) : (usedE s).is_used = true := by
  unfold usedE FATEntry.is_used FATEntry.get_type
  have h := used_val_high (s &&& 4095) (by have := land_4095_le s; omega)
  show ((FATEntry.TYPE_USED ||| (s &&& FATEntry.SECTOR_MASK)) &&& FATEntry.TYPE_MASK
      == FATEntry.TYPE_USED) = true
  rw [show FATEntry.TYPE_USED = 12288 from rfl, show FATEntry.SECTOR_MASK = 4095 from rfl,
    show FATEntry.TYPE_MASK = 61440 from rfl, h]
  rfl

lemma usedE_is_free_false (s : Nat) : (usedE s).is_free = false := by
  unfold usedE FATEntry.is_free FATEntry.get_type
  have h := used_val_high (s &&& 4095) (by have := land_4095_le s; omega)
  show ((FATEntry.TYPE_USED ||| (s &&& FATEntry.SECTOR_MASK)) &&& FATEntry.TYPE_MASK
      == FATEntry.TYPE_FREE) = false
  rw [show FATEntry.TYPE_USED = 12288 from rfl, show FATEntry.SECTOR_MASK = 4095 from rfl,
    show FATEntry.TYPE_MASK = 61440 from rfl, h]
  rfl

lemma usedE_get_sector (s : Nat) (h : s ≤ 4095) : (usedE s).get_sector = .ok s := by
  unfold usedE
  rw [show s &&& FATEntry.SECTOR_MASK = s from land_self_of_lt s (by omega)]
  show FATEntry.get_sector ⟨FATEntry.TYPE_USED ||| s⟩ = .ok s
  exact used_entry_sector s h

lemma magicE_is_free_false : (⟨FAT.MAGIC_NUMBER⟩ : FATEntry).is_free = false := by decide

lemma magicE_is_used_false : (⟨FAT.MAGIC_NUMBER⟩ : FATEntry).is_used = false := by decide

lemma newfree_is_free : FATEntry.new_free.is_free = true := by decide

lemma newfree_is_used_false : FATEntry.new_free.is_used = false := by decide

lemma firstFreeFrom_append_nonfree (l1 l2 : List FATEntry) (k : Nat)
    (h : ∀ e ∈ l1, e.is_free = false) :
    FAT.firstFreeFrom (l1 ++ l2) k = FAT.firstFreeFrom l2 (k + l1.length) := by
  induction l1 generalizing k with
  | nil => simp
  | cons e rest ih =>
    rw [List.cons_append]
    show (if e.is_free = true then some k
      else FAT.firstFreeFrom (rest ++ l2) (k + 1))
      = FAT.firstFreeFrom l2 (k + (e :: rest).length)
    rw [if_neg (by simp [h e (by simp)])]
    have harith : k + (e :: rest).length = (k + 1) + rest.length := by
      simp only [List.length_cons]
      omega
    rw [harith]
    exact ih (k + 1) (fun x hx => h x (by simp [hx]))

lemma firstFreeFrom_replicate (m k : Nat) (hm : 0 < m) :
    FAT.firstFreeFrom (List.replicate m FATEntry.new_free) k = some k := by
  match m, hm with
  | m + 1, _ =>
    rw [List.replicate_succ]
    show (if FATEntry.new_free.is_free = true then some k
      else FAT.firstFreeFrom (List.replicate m FATEntry.new_free) (k + 1)) = some k
    rw [if_pos newfree_is_free]

lemma buildFat_drop_one (b k : Nat) :
    (buildFat b k).entries.drop 1
      = (List.range k).map (fun j => usedE (b + 9 + j))
        ++ List.replicate (255 - k) FATEntry.new_free := rfl

lemma buildFat_first_free (b k : Nat) (hk : k ≤ 254) :
    (buildFat b k).first_free_entry = .ok (k + 1) := by
  unfold FAT.first_free_entry
  rw [buildFat_drop_one]
  rw [firstFreeFrom_append_nonfree _ _ 1 (by
    intro e he
    obtain ⟨j, hj, hje⟩ := List.mem_map.mp he
    rw [← hje]
    exact usedE_is_free_false _)]
  rw [List.length_map, List.length_range]
  rw [firstFreeFrom_replicate _ _ (by omega)]
  show Except.ok (1 + k) = Except.ok (k + 1)
  rw [Nat.add_comm]

lemma set_append_length_cons_fat (l1 : List FATEntry) (x y : FATEntry) (l2 : List FATEntry) :
    (l1 ++ x :: l2).set l1.length y = l1 ++ y :: l2 := by
  induction l1 with
  | nil => rfl
  | cons a rest ih => simp [List.set, ih]

lemma buildFat_add_entry (b k : Nat) (hk : k ≤ 254) :
    (buildFat b k).add_entry (usedE (b + 9 + k)) = .ok (buildFat b (k + 1)) := by
  unfold FAT.add_entry
  rw [buildFat_first_free b k hk]
  show Except.ok (FAT.mk ((buildFat b k).entries.set (k + 1) (usedE (b + 9 + k))))
    = Except.ok (buildFat b (k + 1))
  have hrep : List.replicate (255 - k) FATEntry.new_free
      = FATEntry.new_free :: List.replicate (254 - k) FATEntry.new_free := by
    have h2 : 255 - k = (254 - k) + 1 := by omega
    rw [h2, List.replicate_succ]
  have hstep : ((List.range k).map (fun j => usedE (b + 9 + j))
        ++ FATEntry.new_free :: List.replicate (254 - k) FATEntry.new_free).set k
        (usedE (b + 9 + k))
      = (List.range k).map (fun j => usedE (b + 9 + j))
        ++ usedE (b + 9 + k) :: List.replicate (254 - k) FATEntry.new_free := by
    have h0 := set_append_length_cons_fat ((List.range k).map (fun j => usedE (b + 9 + j)))
      FATEntry.new_free (usedE (b + 9 + k)) (List.replicate (254 - k) FATEntry.new_free)
    rw [List.length_map, List.length_range] at h0
    exact h0
  have hset : (buildFat b k).entries.set (k + 1) (usedE (b + 9 + k))
      = (buildFat b (k + 1)).entries := by
    show ((⟨FAT.MAGIC_NUMBER⟩ : FATEntry) :: ((List.range k).map (fun j => usedE (b + 9 + j))
        ++ List.replicate (255 - k) FATEntry.new_free)).set (k + 1) (usedE (b + 9 + k))
      = (buildFat b (k + 1)).entries
    rw [List.set_cons_succ, hrep, hstep]
    show _ = (⟨FAT.MAGIC_NUMBER⟩ : FATEntry) :: ((List.range (k + 1)).map
        (fun j => usedE (b + 9 + j)) ++ List.replicate (255 - (k + 1)) FATEntry.new_free)
    rw [List.range_succ, List.map_append]
    have h3 : 255 - (k + 1) = 254 - k := by omega
    rw [h3]
    simp
  rw [hset]

/-! freeUsedLoop lemmas -/

lemma freeUsedLoop_magic (alloc : SectorAllocator) (rest : List FATEntry) :
    freeUsedLoop alloc ((⟨FAT.MAGIC_NUMBER⟩ : FATEntry) :: rest)
      = ((freeUsedLoop alloc rest).1, (freeUsedLoop alloc rest).2.1,
        (⟨FAT.MAGIC_NUMBER⟩ : FATEntry) :: (freeUsedLoop alloc rest).2.2) := by
  show (if (⟨FAT.MAGIC_NUMBER⟩ : FATEntry).is_used = true then _ else _) = _
  rw [if_neg (by simp [magicE_is_used_false])]

lemma freeUsedLoop_replicate_free (alloc : SectorAllocator) (m : Nat) :
    freeUsedLoop alloc (List.replicate m FATEntry.new_free)
      = (.ok (), alloc, List.replicate m FATEntry.new_free) := by
  induction m with
  | zero => rfl
  | succ n ih =>
    rw [List.replicate_succ]
    show (if FATEntry.new_free.is_used = true then _ else _) = _
    rw [if_neg (by simp [newfree_is_used_false])]
    show ((freeUsedLoop alloc (List.replicate n FATEntry.new_free)).1,
      (freeUsedLoop alloc (List.replicate n FATEntry.new_free)).2.1,
      FATEntry.new_free :: (freeUsedLoop alloc (List.replicate n FATEntry.new_free)).2.2) = _
    rw [ih]

lemma freeUsedLoop_used_append (alloc : SectorAllocator) (l : List Nat)
    (rest : List FATEntry) (h : ∀ s ∈ l, s ≤ 4095) :
    freeUsedLoop alloc (l.map usedE ++ rest)
      = ((freeUsedLoop { alloc with freed_sectors := alloc.freed_sectors ++ l } rest).1,
        (freeUsedLoop { alloc with freed_sectors := alloc.freed_sectors ++ l } rest).2.1,
        List.replicate l.length FATEntry.new_free
          ++ (freeUsedLoop { alloc with freed_sectors := alloc.freed_sectors ++ l } rest).2.2) := by
  induction l generalizing alloc with
  | nil => simp
  | cons s tl ih =>
    rw [List.map_cons, List.cons_append]
    show (if (usedE s).is_used = true then _ else _) = _
    rw [if_pos (usedE_is_used s)]
    show (match (usedE s).get_sector with
      | .error er => (Except.error er, alloc, usedE s :: (tl.map usedE ++ rest))
      | .ok sv =>
        ((freeUsedLoop (alloc.free sv) (tl.map usedE ++ rest)).1,
          (freeUsedLoop (alloc.free sv) (tl.map usedE ++ rest)).2.1,
          FATEntry.new_free :: (freeUsedLoop (alloc.free sv) (tl.map usedE ++ rest)).2.2)) = _
    rw [usedE_get_sector s (h s (by simp))]
    dsimp only
    rw [ih (alloc.free s) (fun x hx => h x (by simp [hx]))]
    unfold SectorAllocator.free
    simp [List.replicate_succ, List.append_assoc]

lemma freeUsedLoop_buildFat (alloc : SectorAllocator) (b k : Nat)
    (hb : b + 9 + k ≤ 4096) (hk : k ≤ 255) :
    freeUsedLoop alloc (buildFat b k).entries
      = (.ok (),
        { alloc with freed_sectors := alloc.freed_sectors
            ++ (List.range k).map (fun j => b + 9 + j) },
        (⟨FAT.MAGIC_NUMBER⟩ : FATEntry) :: List.replicate 255 FATEntry.new_free) := by
  unfold buildFat
  rw [freeUsedLoop_magic]
  have hmm : (List.range k).map (fun j => usedE (b + 9 + j))
      = ((List.range k).map (fun j => b + 9 + j)).map usedE := by
    rw [List.map_map]
    rfl
  rw [hmm]
  rw [freeUsedLoop_used_append _ _ _ (by
    intro s hs
    obtain ⟨j, hj, hje⟩ := List.mem_map.mp hs
    have := List.mem_range.mp hj
    omega)]
  rw [freeUsedLoop_replicate_free]
  simp only [List.length_map, List.length_range]
  rw [← List.replicate_add]
  have h3 : k + (255 - k) = 255 := by omega
  rw [h3]

/-! file and child entry facts -/

lemma fileEntriesFrom_nonempty (k : Nat) (fs : List Name)
    (h : ∀ n ∈ fs, validName n = true) :
    ∀ e ∈ fileEntriesFrom k fs, e.isEmptySlot = false := by
  induction fs generalizing k with
  | nil => intro e he; simp [fileEntriesFrom] at he
  | cons f tl ih =>
    intro e he
    unfold fileEntriesFrom at he
    rcases List.mem_cons.mp he with h1 | h1
    · rw [h1]
      exact isEmptySlot_new_false f _ _ (h f (by simp))
    · exact ih (k + 1) (fun n hn => h n (by simp [hn])) e h1

lemma fileEntriesFrom_to_string (k : Nat) (fs : List Name)
    (h : ∀ n ∈ fs, validName n = true) :
    ∀ e ∈ fileEntriesFrom k fs, e.to_string ∈ fs := by
  induction fs generalizing k with
  | nil => intro e he; simp [fileEntriesFrom] at he
  | cons f tl ih =>
    intro e he
    unfold fileEntriesFrom at he
    rcases List.mem_cons.mp he with h1 | h1
    · rw [h1, to_string_new f _ _ (h f (by simp))]
      simp
    · exact List.mem_cons.mpr (Or.inr (ih (k + 1) (fun n hn => h n (by simp [hn])) e h1))

lemma fileEntriesFrom_type (k : Nat) (fs : List Name) :
    ∀ e ∈ fileEntriesFrom k fs, e.entry_type = FILE_ENTRY_TYPE := by
  induction fs generalizing k with
  | nil => intro e he; simp [fileEntriesFrom] at he
  | cons f tl ih =>
    intro e he
    unfold fileEntriesFrom at he
    rcases List.mem_cons.mp he with h1 | h1
    · rw [h1]
      rfl
    · exact ih (k + 1) e h1

lemma fileEntriesFrom_append (k : Nat) (fs1 fs2 : List Name) :
    fileEntriesFrom k (fs1 ++ fs2)
      = fileEntriesFrom k fs1 ++ fileEntriesFrom (k + fs1.length) fs2 := by
  induction fs1 generalizing k with
  | nil => simp [fileEntriesFrom]
  | cons f tl ih =>
    show DirEntry.new f (k + 1) FILE_ENTRY_TYPE :: fileEntriesFrom (k + 1) (tl ++ fs2)
      = (DirEntry.new f (k + 1) FILE_ENTRY_TYPE :: fileEntriesFrom (k + 1) tl)
        ++ fileEntriesFrom (k + (tl.length + 1)) fs2
    rw [List.cons_append, ih (k + 1)]
    have h2 : k + 1 + tl.length = k + (tl.length + 1) := by omega
    rw [h2]

lemma fileEntriesFrom_length (k : Nat) (fs : List Name) :
    (fileEntriesFrom k fs).length = fs.length := by
  induction fs generalizing k with
  | nil => rfl
  | cons f tl ih =>
    unfold fileEntriesFrom
    simp [ih (k + 1)]

/-! tsize and childrenWithBases -/

lemma tsize_node (files : List Name) (children : List (Name × FsTree)) :
    tsize (.node files children) = 9 + files.length + tsizeList children := by
  unfold tsize
  rfl

lemma tsize_ge (t : FsTree) : 9 ≤ tsize t := by
  match t with
  | .node files children =>
    rw [tsize_node]
    omega

lemma tsizeList_cons (c : Name × FsTree) (rest : List (Name × FsTree)) :
    tsizeList (c :: rest) = tsize c.2 + tsizeList rest := by
  cases rest <;> rfl

lemma childrenWithBases_cons (cb : Nat) (c : Name × FsTree) (rest : List (Name × FsTree)) :
    childrenWithBases cb (c :: rest)
      = (c.1, c.2, cb) :: childrenWithBases (cb + tsize c.2) rest := rfl

lemma childrenWithBases_append (cb : Nat) (l1 l2 : List (Name × FsTree)) :
    childrenWithBases cb (l1 ++ l2)
      = childrenWithBases cb l1 ++ childrenWithBases (cb + tsizeList l1) l2 := by
  induction l1 generalizing cb with
  | nil =>
    show childrenWithBases cb l2 = childrenWithBases (cb + tsizeList []) l2
    have h : cb + tsizeList [] = cb := by
      unfold tsizeList
      omega
    rw [h]
  | cons c tl ih =>
    rw [List.cons_append, childrenWithBases_cons, childrenWithBases_cons, ih]
    rw [tsizeList_cons]
    have h : cb + tsize c.2 + tsizeList tl = cb + (tsize c.2 + tsizeList tl) := by omega
    rw [h]
    simp

lemma childEntries_nonempty (cwb : List (Name × FsTree × Nat))
    (h : ∀ c ∈ cwb, validName c.1 = true) :
    ∀ e ∈ childEntries cwb, e.isEmptySlot = false := by
  intro e he
  obtain ⟨c, hc, hce⟩ := List.mem_map.mp he
  rw [← hce]
  exact isEmptySlot_new_false c.1 _ _ (h c hc)

lemma childEntries_to_string (cwb : List (Name × FsTree × Nat))
    (h : ∀ c ∈ cwb, validName c.1 = true) :
    ∀ e ∈ childEntries cwb, ∃ c ∈ cwb, e.to_string = c.1 := by
  intro e he
  obtain ⟨c, hc, hce⟩ := List.mem_map.mp he
  exact ⟨c, hc, by rw [← hce]; exact to_string_new c.1 _ _ (h c hc)⟩




/-! ## Chain lemmas -/

lemma loadDisk_some_ok (disk : Disk) (fc : Nat) (dn : Directory)
    (hdisk : disk fc = .dirB dn) (hmag : dn.magic = DIRECTORY_MAGIC) :
    Directory.loadDisk disk (some fc) = .ok dn := by
  unfold Directory.loadDisk
  rw [show (some fc).getD FIRST_DIRECTORY = fc from rfl, hdisk]
  unfold Directory.loadRead
  dsimp only
  rw [if_neg (by simp [hmag])]
  rfl

lemma loadDisk_none_ok (disk : Disk) (draw : Directory)
    (hdisk : disk FIRST_DIRECTORY = .dirB draw) (hmag : draw.magic = DIRECTORY_MAGIC) :
    Directory.loadDisk disk none
      = .ok { draw with fat_sector := FIRST_USABLE_SECTOR - 1 } := by
  unfold Directory.loadDisk
  rw [show (none : Option Nat).getD FIRST_DIRECTORY = FIRST_DIRECTORY from rfl, hdisk]
  unfold Directory.loadRead
  dsimp only
  rw [if_neg (by simp [hmag])]
  rfl

lemma gdtbn_ok (disk : Disk) (d : Directory) (seg : Name) (e : DirEntry) (dn : Directory)
    (hge : d.get_entry seg = .ok e) (hty : e.entry_type = DIR_ENTRY_TYPE)
    (hdisk : disk e.first_cluster = .dirB dn) (hmag : dn.magic = DIRECTORY_MAGIC) :
    getDirectoryTableByName disk d seg = .ok (dn, e.first_cluster) := by
  unfold getDirectoryTableByName
  rw [hge, except_bind_ok]
  rw [if_neg (by simp [hty])]
  rw [loadDisk_some_ok disk e.first_cluster dn hdisk hmag, except_bind_ok]
  rfl

lemma chainFrom_fold (disk : Disk) :
    ∀ (wd : List Name) (s : Nat) (d : Directory) (secs : List Nat) (sfin : Nat)
      (dfin : Directory),
    ChainFrom disk s d wd secs sfin dfin →
    List.foldlM (stepPair disk) (d, s) wd = .ok (dfin, sfin) := by
  intro wd
  induction wd with
  | nil =>
    intro s d secs sfin dfin h
    obtain ⟨h1, h2, h3⟩ := h
    rw [List.foldlM_nil, h2, h3]
    rfl
  | cons seg rest ih =>
    intro s d secs sfin dfin h
    obtain ⟨e, dn, secs2, hge, hty, hdisk, hmag, hsecs, hrec⟩ := h
    rw [List.foldlM_cons]
    rw [show stepPair disk (d, s) seg = getDirectoryTableByName disk d seg from rfl]
    rw [gdtbn_ok disk d seg e dn hge hty hdisk hmag, except_bind_ok]
    exact ih e.first_cluster dn secs2 sfin dfin hrec

lemma chain_resolves (disk : Disk) (wd : List Name) (secs : List Nat) (sfin : Nat)
    (dfin : Directory) (h : Chain disk wd secs sfin dfin) :
    getCurrentDirectory disk wd = .ok (dfin, sfin) := by
  obtain ⟨draw, hdisk, hmag, hchain⟩ := h
  unfold getCurrentDirectory
  rw [loadDisk_none_ok disk draw hdisk hmag, except_bind_ok]
  exact chainFrom_fold disk wd FIRST_DIRECTORY _ secs sfin dfin hchain

lemma chainFrom_length (disk : Disk) :
    ∀ (wd : List Name) (s : Nat) (d : Directory) (secs : List Nat) (sfin : Nat)
      (dfin : Directory),
    ChainFrom disk s d wd secs sfin dfin → secs.length = wd.length := by
  intro wd
  induction wd with
  | nil =>
    intro s d secs sfin dfin h
    rw [h.1]
    rfl
  | cons seg rest ih =>
    intro s d secs sfin dfin h
    obtain ⟨e, dn, secs2, _, _, _, _, hsecs, hrec⟩ := h
    rw [hsecs]
    simp only [List.length_cons]
    rw [ih e.first_cluster dn secs2 sfin dfin hrec]

lemma chainFrom_agree (disk disk2 : Disk) :
    ∀ (wd : List Name) (s : Nat) (d : Directory) (secs : List Nat) (sfin : Nat)
      (dfin : Directory),
    (∀ x ∈ secs, disk2 x = disk x) →
    ChainFrom disk s d wd secs sfin dfin →
    ChainFrom disk2 s d wd secs sfin dfin := by
  intro wd
  induction wd with
  | nil =>
    intro s d secs sfin dfin _ h
    exact h
  | cons seg rest ih =>
    intro s d secs sfin dfin hagree h
    obtain ⟨e, dn, secs2, hge, hty, hdisk, hmag, hsecs, hrec⟩ := h
    subst hsecs
    refine ⟨e, dn, secs2, hge, hty, ?_, hmag, rfl, ?_⟩
    · rw [hagree e.first_cluster (by simp), hdisk]
    · exact ih e.first_cluster dn secs2 sfin dfin (fun x hx => hagree x (by simp [hx])) hrec

lemma chain_agree (disk disk2 : Disk) (wd : List Name) (secs : List Nat) (sfin : Nat)
    (dfin : Directory)
    (hagree : ∀ x ∈ FIRST_DIRECTORY :: secs, disk2 x = disk x)
    (h : Chain disk wd secs sfin dfin) :
    Chain disk2 wd secs sfin dfin := by
  obtain ⟨draw, hdisk, hmag, hchain⟩ := h
  refine ⟨draw, ?_, hmag, ?_⟩
  · rw [hagree FIRST_DIRECTORY (by simp), hdisk]
  · exact chainFrom_agree disk disk2 wd FIRST_DIRECTORY _ secs sfin dfin
      (fun x hx => hagree x (by simp [hx])) hchain

lemma chainFrom_trans (disk : Disk) :
    ∀ (wd1 : List Name) (s : Nat) (d : Directory) (secs1 : List Nat) (smid : Nat)
      (dmid : Directory) (wd2 : List Name) (secs2 : List Nat) (sfin : Nat) (dfin : Directory),
    ChainFrom disk s d wd1 secs1 smid dmid →
    ChainFrom disk smid dmid wd2 secs2 sfin dfin →
    ChainFrom disk s d (wd1 ++ wd2) (secs1 ++ secs2) sfin dfin := by
  intro wd1
  induction wd1 with
  | nil =>
    intro s d secs1 smid dmid wd2 secs2 sfin dfin h1 h2
    obtain ⟨ha, hb, hc⟩ := h1
    subst ha
    subst hb
    subst hc
    simpa using h2
  | cons seg rest ih =>
    intro s d secs1 smid dmid wd2 secs2 sfin dfin h1 h2
    obtain ⟨e, dn, secsr, hge, hty, hdisk, hmag, hsecs, hrec⟩ := h1
    subst hsecs
    exact ⟨e, dn, secsr ++ secs2, hge, hty, hdisk, hmag, by simp,
      ih e.first_cluster dn secsr smid dmid wd2 secs2 sfin dfin hrec h2⟩

lemma chain_extend (disk : Disk) (wd : List Name) (secs : List Nat) (sfin : Nat)
    (dfin : Directory) (name : Name) (e : DirEntry) (dn : Directory)
    (h : Chain disk wd secs sfin dfin)
    (hge : dfin.get_entry name = .ok e) (hty : e.entry_type = DIR_ENTRY_TYPE)
    (hdisk : disk e.first_cluster = .dirB dn) (hmag : dn.magic = DIRECTORY_MAGIC) :
    Chain disk (wd ++ [name]) (secs ++ [e.first_cluster]) e.first_cluster dn := by
  obtain ⟨draw, hd, hm, hchain⟩ := h
  refine ⟨draw, hd, hm, ?_⟩
  exact chainFrom_trans disk wd FIRST_DIRECTORY _ secs sfin dfin [name] [e.first_cluster]
    e.first_cluster dn hchain ⟨e, dn, [], hge, hty, hdisk, hmag, rfl, rfl, rfl, rfl⟩

lemma chainFrom_update (disk : Disk) (dnew : Directory) (sfin : Nat) :
    ∀ (wd : List Name) (s : Nat) (d : Directory) (secs : List Nat) (dfin : Directory),
    ChainFrom disk s d wd secs sfin dfin →
    wd ≠ [] →
    sfin ∉ secs.dropLast →
    dnew.magic = DIRECTORY_MAGIC →
    ChainFrom (disk.write sfin (.dirB dnew)) s d wd secs sfin dnew := by
  intro wd
  induction wd with
  | nil =>
    intro s d secs dfin h hne
    exact absurd rfl hne
  | cons seg rest ih =>
    intro s d secs dfin h hne hdl hmag2
    obtain ⟨e, dn, secs2, hge, hty, hdisk, hmag, hsecs, hrec⟩ := h
    subst hsecs
    match rest, hrec with
    | [], hrec =>
      obtain ⟨h1, h2, h3⟩ := hrec
      subst h1
      subst h2
      refine ⟨e, dnew, [], hge, hty, ?_, hmag2, rfl, rfl, rfl, rfl⟩
      unfold Disk.write
      rw [if_pos rfl]
    | seg2 :: rest2, hrec =>
      have hs2 : secs2 ≠ [] := by
        intro hc
        obtain ⟨e2, dn2, secs3, _, _, _, _, hsecs2, _⟩ := hrec
        rw [hc] at hsecs2
        exact List.noConfusion hsecs2
      have hfc : e.first_cluster ≠ sfin := by
        intro hc
        apply hdl
        rw [List.dropLast_cons_of_ne_nil hs2]
        rw [← hc]
        simp
      refine ⟨e, dn, secs2, hge, hty, ?_, hmag, rfl, ?_⟩
      · unfold Disk.write
        rw [if_neg hfc, hdisk]
      · refine ih e.first_cluster dn secs2 dfin hrec (by simp) ?_ hmag2
        intro hc
        apply hdl
        rw [List.dropLast_cons_of_ne_nil hs2]
        simp [hc]

lemma chain_update (disk : Disk) (wd : List Name) (secs : List Nat) (sfin : Nat)
    (dfin dnew : Directory)
    (h : Chain disk wd secs sfin dfin)
    (hne : wd ≠ [])
    (h0 : sfin ≠ FIRST_DIRECTORY)
    (hdl : sfin ∉ secs.dropLast)
    (hmag2 : dnew.magic = DIRECTORY_MAGIC) :
    Chain (disk.write sfin (.dirB dnew)) wd secs sfin dnew := by
  obtain ⟨draw, hd, hm, hchain⟩ := h
  refine ⟨draw, ?_, hm, ?_⟩
  · unfold Disk.write
    rw [if_neg (fun hc => h0 hc.symm), hd]
  · exact chainFrom_update disk dnew sfin wd FIRST_DIRECTORY _ secs dfin hchain hne hdl hmag2

lemma chain_update_root (disk : Disk) (secs : List Nat) (sfin : Nat) (dfin dnew : Directory)
    (h : Chain disk [] secs sfin dfin)
    (hmag2 : dnew.magic = DIRECTORY_MAGIC) :
    Chain (disk.write FIRST_DIRECTORY (.dirB dnew)) [] [] FIRST_DIRECTORY
      { dnew with fat_sector := FIRST_USABLE_SECTOR - 1 } := by
  refine ⟨dnew, ?_, hmag2, rfl, rfl, rfl⟩
  unfold Disk.write
  rw [if_pos rfl]

lemma chainFrom_last (disk : Disk) :
    ∀ (wd : List Name) (s : Nat) (d : Directory) (secs : List Nat) (sfin : Nat)
      (dfin : Directory),
    ChainFrom disk s d wd secs sfin dfin →
    (wd = [] ∧ secs = [] ∧ sfin = s) ∨ sfin ∈ secs := by
  intro wd
  induction wd with
  | nil =>
    intro s d secs sfin dfin h
    exact Or.inl ⟨rfl, h.1, h.2.1⟩
  | cons seg rest ih =>
    intro s d secs sfin dfin h
    obtain ⟨e, dn, secs2, _, _, _, _, hsecs, hrec⟩ := h
    subst hsecs
    rcases ih e.first_cluster dn secs2 sfin dfin hrec with ⟨_, h2, h3⟩ | h2
    · subst h2
      subst h3
      exact Or.inr (by simp)
    · exact Or.inr (by simp [h2])

/-- The chain of a freshly formatted disk. -/
lemma chain_init :
    Chain initDisk [] [] FIRST_DIRECTORY
      ⟨DIRECTORY_MAGIC, FIRST_USABLE_SECTOR - 1,
        List.replicate DIR_TOTAL_ENTRIES DirEntry.empty⟩ := by
  refine ⟨Directory.new FIRST_DIRECTORY, rfl, rfl, rfl, rfl, rfl⟩


/-! ## Helpers for the build induction -/

lemma loadFat_some (disk : Disk) (s : Nat) (f : FAT) (h : disk s = .fatB f) :
    FAT.loadDisk disk (some s) = f := by
  unfold FAT.loadDisk
  rw [show (some s).getD (FIRST_USABLE_SECTOR - 1) = s from rfl, h]

lemma new_used_usedE (s : Nat) (h : s ≤ 4095) :
    FATEntry.new_used s = .ok (usedE s) := by
  unfold FATEntry.new_used usedE
  rw [if_neg (by unfold FATEntry.SECTOR_MASK; omega)]

lemma nodup_last_not_dropLast (l : List Nat) (x : Nat)
    (h : l.getLast? = some x) (hnd : l.Nodup) : x ∉ l.dropLast := by
  have hne : l ≠ [] := by
    intro hc
    rw [hc] at h
    exact Option.noConfusion h
  have hdecomp : l.dropLast ++ [x] = l := by
    have h2 := List.dropLast_concat_getLast hne
    rw [List.getLast?_eq_getLast l hne] at h
    have hx := Option.some.inj h
    rw [hx] at h2
    exact h2
  rw [← hdecomp] at hnd
  intro hc
  rcases List.nodup_append.mp hnd with ⟨_, _, hdisj⟩
  exact hdisj hc (by simp)

/-- Adding the files of one directory, one `add_file` at a time. -/
lemma buildFiles_spec :
    ∀ (files fdone : List Name) (st : St) (wd2 : List Name) (secs2 : List Nat) (b psec : Nat),
    st.allocator = ⟨b + 9 + fdone.length, []⟩ →
    st.disk b = .fatB (buildFat b fdone.length) →
    Chain st.disk wd2 secs2 (b + 1)
      ⟨DIRECTORY_MAGIC, b, mkDirEntries b psec (fileEntriesFrom 0 fdone)⟩ →
    (∀ x ∈ FIRST_DIRECTORY :: secs2, (x = b + 1 ∨ x < b) ∧ x ≠ FIRST_USABLE_SECTOR - 2) →
    (FIRST_DIRECTORY :: secs2).Nodup →
    wd2 ≠ [] →
    secs2.getLast? = some (b + 1) →
    (∀ n ∈ fdone ++ files, validName n = true) →
    (fdone ++ files).Nodup →
    fdone.length + files.length ≤ 251 →
    21 ≤ b →
    b + 9 + fdone.length + files.length ≤ 4096 →
    ∃ disk2,
      buildFiles wd2 files st = .ok ⟨disk2, ⟨b + 9 + fdone.length + files.length, []⟩⟩ ∧
      disk2 b = .fatB (buildFat b (fdone.length + files.length)) ∧
      Chain disk2 wd2 secs2 (b + 1)
        ⟨DIRECTORY_MAGIC, b, mkDirEntries b psec (fileEntriesFrom 0 (fdone ++ files))⟩ ∧
      (∀ x, x ≠ FIRST_USABLE_SECTOR - 2 → x ≠ b → x ≠ b + 1 →
        (x < b + 9 + fdone.length ∨ b + 9 + fdone.length + files.length ≤ x) →
        disk2 x = st.disk x) := by
  intro files
  induction files with
  | nil =>
    intro fdone st wd2 secs2 b psec halloc hfat hchain hcond hnd hwne hlast hnames hnnd hcap hb hbound
    refine ⟨st.disk, ?_, ?_, ?_, ?_⟩
    · show Except.ok st = _
      rw [show (⟨st.disk, ⟨b + 9 + fdone.length + [].length, []⟩⟩ : St) = st from ?_]
      obtain ⟨d, a⟩ := st
      simp only [List.length_nil, Nat.add_zero] at halloc ⊢
      rw [halloc]
    · simpa using hfat
    · simpa using hchain
    · intro x _ _ _ _
      rfl
  | cons f rest ih =>
    intro fdone st wd2 secs2 b psec halloc hfat hchain hcond hnd hwne hlast hnames hnnd hcap hb hbound
    have hk : fdone.length ≤ 250 := by
      simp only [List.length_cons] at hcap
      omega
    have hfval : validName f = true := hnames f (by simp)
    obtain ⟨hfne, _, _, hfdot, hfdotdot⟩ := validName_spec f hfval
    have hfnotin : f ∉ fdone := by
      intro hc
      exact (List.nodup_append.mp hnnd).2.2 hc (by simp)
    have hfdone_val : ∀ n ∈ fdone, validName n = true := by
      intro n hn
      exact hnames n (by simp [hn])
    set P : Directory :=
      ⟨DIRECTORY_MAGIC, b, mkDirEntries b psec (fileEntriesFrom 0 fdone)⟩ with hP
    set k := fdone.length with hkdef
    have hcur : getCurrentDirectory st.disk wd2 = .ok (P, b + 1) :=
      chain_resolves st.disk wd2 secs2 (b + 1) P hchain
    have hmiss : P.get_entry f = .error FileSystemError.FileNotFound := by
      rw [hP]
      apply get_entry_mk_miss DIRECTORY_MAGIC b b psec (fileEntriesFrom 0 fdone) f hfdot hfdotdot
      intro e he
      have hmem := fileEntriesFrom_to_string 0 fdone hfdone_val e he
      intro hc
      rw [hc] at hmem
      exact hfnotin hmem
    have hfatload : FAT.loadDisk st.disk (some ((P, b + 1)).1.fat_sector) = buildFat b k := by
      show FAT.loadDisk st.disk (some b) = buildFat b k
      exact loadFat_some st.disk b _ hfat
    have hidx : (FAT.loadDisk st.disk (some ((P, b + 1)).1.fat_sector)).first_free_entry
        = .ok (k + 1) := by
      rw [hfatload]
      exact buildFat_first_free b k (by omega)
    have halloc2 : st.allocator.get_free_sector
        = (b + 9 + k, ⟨b + 9 + k + 1, []⟩) := by
      rw [halloc]
      have h2 := get_free_sector_fresh ⟨b + 9 + k, []⟩ rfl (by
        show b + 9 + k + 1 < 65536
        simp only [List.length_cons] at hbound
        omega)
      simpa using h2
    have hsle : b + 9 + k ≤ 4095 := by
      simp only [List.length_cons] at hbound
      omega
    have hused : FATEntry.new_used (b + 9 + k) = .ok (usedE (b + 9 + k)) :=
      new_used_usedE _ hsle
    have hfat1 : (FAT.loadDisk st.disk (some ((P, b + 1)).1.fat_sector)).add_entry
        (usedE (b + 9 + k)) = .ok (buildFat b (k + 1)) := by
      rw [hfatload]
      exact buildFat_add_entry b k (by omega)
    set P2 : Directory :=
      ⟨DIRECTORY_MAGIC, b, mkDirEntries b psec (fileEntriesFrom 0 (fdone ++ [f]))⟩ with hP2
    have hfe_app : fileEntriesFrom 0 (fdone ++ [f])
        = fileEntriesFrom 0 fdone ++ [DirEntry.new f (k + 1) FILE_ENTRY_TYPE] := by
      rw [fileEntriesFrom_append 0 fdone [f]]
      rw [show (0 + fdone.length) = k from by omega]
      rfl
    have hd1 : ((P, b + 1)).1.add_entry (DirEntry.new f (k + 1) FILE_ENTRY_TYPE)
        = .ok P2 := by
      show P.add_entry _ = _
      rw [hP, hP2, hfe_app]
      exact add_entry_mk DIRECTORY_MAGIC b b psec (fileEntriesFrom 0 fdone)
        (DirEntry.new f (k + 1) FILE_ENTRY_TYPE)
        (fileEntriesFrom_nonempty 0 fdone hfdone_val)
        (by rw [fileEntriesFrom_length]; omega)
    have happ := addFile_ok_eq st wd2 f (P, b + 1) FileSystemError.FileNotFound (k + 1)
      (b + 9 + k) ⟨b + 9 + k + 1, []⟩ (usedE (b + 9 + k)) (buildFat b (k + 1)) P2
      hcur hmiss hidx halloc2 hused hfat1 hd1
    set disk1 : Disk :=
      Disk.write
        (Disk.write
          (Disk.write
            (Disk.write st.disk (FIRST_USABLE_SECTOR - 2)
              (.allocB (SectorAllocator.to_bitmap ⟨b + 9 + k + 1, []⟩)))
            (b + 9 + k) (.dataB (List.replicate SECTOR_SIZE 0)))
          b (.fatB (buildFat b (k + 1))))
        (b + 1) (.dirB P2) with hdisk1
    have happ2 : addFile st wd2 f = (.ok (), ⟨disk1, ⟨b + 9 + k + 1, []⟩⟩) := by
      rw [happ]
    have hw_other : ∀ x, x ≠ FIRST_USABLE_SECTOR - 2 → x ≠ b + 9 + k → x ≠ b → x ≠ b + 1 →
        disk1 x = st.disk x := by
      intro x h1 h2 h3 h4
      rw [hdisk1]
      unfold Disk.write
      rw [if_neg h4, if_neg h3, if_neg h2, if_neg h1]
    have hchain1 : Chain disk1 wd2 secs2 (b + 1) P2 := by
      have hag : Chain (Disk.write
          (Disk.write
            (Disk.write st.disk (FIRST_USABLE_SECTOR - 2)
              (.allocB (SectorAllocator.to_bitmap ⟨b + 9 + k + 1, []⟩)))
            (b + 9 + k) (.dataB (List.replicate SECTOR_SIZE 0)))
          b (.fatB (buildFat b (k + 1)))) wd2 secs2 (b + 1) P := by
        apply chain_agree st.disk _ wd2 secs2 (b + 1) P _ hchain
        intro x hx
        obtain ⟨hx1, hx2⟩ := hcond x hx
        unfold Disk.write
        rw [if_neg (by omega), if_neg (by omega), if_neg hx2]
      rw [hdisk1]
      apply chain_update _ wd2 secs2 (b + 1) P P2 hag hwne (by
        show b + 1 ≠ 0
        omega)
      · exact nodup_last_not_dropLast secs2 (b + 1) hlast (List.Nodup.of_cons hnd)
      · rw [hP2]
    have hih := ih (fdone ++ [f]) ⟨disk1, ⟨b + 9 + k + 1, []⟩⟩ wd2 secs2 b psec
      (by simp [hkdef] <;> omega)
      (by
        show disk1 b = _
        rw [hdisk1]
        unfold Disk.write
        rw [if_neg (by omega), if_pos rfl]
        simp [hkdef])
      (by
        show Chain disk1 wd2 secs2 (b + 1) _
        rw [show (⟨DIRECTORY_MAGIC, b,
          mkDirEntries b psec (fileEntriesFrom 0 (fdone ++ [f]))⟩ : Directory) = P2 from rfl]
        exact hchain1)
      hcond hnd hwne hlast
      (by
        intro n hn
        apply hnames
        simp only [List.append_assoc, List.singleton_append] at hn ⊢
        exact hn)
      (by
        rw [List.append_assoc]
        simpa using hnnd)
      (by
        simp only [List.length_append, List.length_cons, List.length_nil,
          List.length_cons] at hcap ⊢
        omega)
      hb
      (by
        simp only [List.length_append, List.length_cons, List.length_nil] at hbound ⊢
        omega)
    obtain ⟨disk2, hrun, hfat2, hchain2, hframe2⟩ := hih
    refine ⟨disk2, ?_, ?_, ?_, ?_⟩
    · show (match addFile st wd2 f with
        | (.ok _, st1) => buildFiles wd2 rest st1
        | (.error e, _) => .error e) = _
      rw [happ2]
      show buildFiles wd2 rest ⟨disk1, ⟨b + 9 + k + 1, []⟩⟩ = _
      rw [hrun]
      have harith : b + 9 + (fdone ++ [f]).length + rest.length
          = b + 9 + fdone.length + (f :: rest).length := by
        simp only [List.length_append, List.length_cons, List.length_nil]
        omega
      rw [harith]
    · rw [hfat2]
      have harith : (fdone ++ [f]).length + rest.length
          = fdone.length + (f :: rest).length := by
        simp only [List.length_append, List.length_cons, List.length_nil]
        omega
      rw [harith]
    · have harith : fdone ++ [f] ++ rest = fdone ++ f :: rest := by
        simp
      rw [harith] at hchain2
      exact hchain2
    · intro x h1 h2 h3 h4
      have hx9 : x ≠ b + 9 + k := by
        simp only [List.length_cons] at h4
        omega
      rw [hframe2 x h1 h2 h3 (by
        simp only [List.length_append, List.length_cons, List.length_nil] at h4 ⊢
        omega)]
      exact hw_other x h1 hx9 h2 h3


/-! ## Unfolding equations for the mutual tree definitions -/

lemma buildTree_eq (st : St) (wd : List Name) (name : Name)
    (files : List Name) (children : List (Name × FsTree)) :
    buildTree st wd name (.node files children)
      = match newDir st wd name with
        | (.error e, _) => .error e
        | (.ok _, st1) =>
          match buildFiles (wd ++ [name]) files st1 with
          | .error e => .error e
          | .ok st2 => buildChildren (wd ++ [name]) children st2 := by
  rfl

lemma buildChildren_nil (wd : List Name) (st : St) :
    buildChildren wd [] st = .ok st := by
  rfl

lemma buildChildren_cons (wd : List Name) (c : Name × FsTree)
    (rest : List (Name × FsTree)) (st : St) :
    buildChildren wd (c :: rest) st
      = match buildTree st wd c.1 c.2 with
        | .error e => .error e
        | .ok st1 => buildChildren wd rest st1 := by
  rfl

lemma diskRep_node (disk : Disk) (psec b : Nat) (files : List Name)
    (children : List (Name × FsTree)) :
    DiskRep disk psec b (.node files children)
      = (disk b = .fatB (buildFat b files.length) ∧
         disk (b + 1) = .dirB (builtDir b psec files children) ∧
         DiskRepList disk (b + 1) (b + 9 + files.length) children) := by
  rfl

lemma diskRepList_nil (disk : Disk) (psec cb : Nat) :
    DiskRepList disk psec cb [] = True := by
  rfl

lemma diskRepList_cons (disk : Disk) (psec cb : Nat) (c : Name × FsTree)
    (rest : List (Name × FsTree)) :
    DiskRepList disk psec cb (c :: rest)
      = (DiskRep disk psec cb c.2 ∧ DiskRepList disk psec (cb + tsize c.2) rest) := by
  rfl

/-! ## Small structural helpers -/

lemma tsizeList_nil : tsizeList [] = 0 := rfl

lemma tsizeList_append : ∀ (l1 l2 : List (Name × FsTree)),
    tsizeList (l1 ++ l2) = tsizeList l1 + tsizeList l2 := by
  intro l1 l2
  induction l1 with
  | nil =>
    rw [List.nil_append, tsizeList_nil]
    omega
  | cons c rest ih =>
    rw [List.cons_append, tsizeList_cons, tsizeList_cons, ih]
    omega

lemma childEntries_append (l1 l2 : List (Name × FsTree × Nat)) :
    childEntries (l1 ++ l2) = childEntries l1 ++ childEntries l2 := by
  unfold childEntries
  exact List.map_append _ _ _

lemma childEntries_length (cwb : List (Name × FsTree × Nat)) :
    (childEntries cwb).length = cwb.length := List.length_map _ _

lemma childrenWithBases_length : ∀ (l : List (Name × FsTree)) (cb : Nat),
    (childrenWithBases cb l).length = l.length := by
  intro l
  induction l with
  | nil => intro cb; rfl
  | cons c rest ih =>
    intro cb
    rw [childrenWithBases_cons]
    simp [ih]

lemma childrenWithBases_fst : ∀ (l : List (Name × FsTree)) (cb : Nat),
    ∀ cd ∈ childrenWithBases cb l, ∃ c ∈ l, cd.1 = c.1 := by
  intro l
  induction l with
  | nil =>
    intro cb cd hcd
    exact absurd hcd (by simp [childrenWithBases])
  | cons c rest ih =>
    intro cb cd hcd
    rw [childrenWithBases_cons] at hcd
    rcases List.mem_cons.mp hcd with h | h
    · exact ⟨c, by simp, by rw [h]⟩
    · obtain ⟨c2, hc2, he⟩ := ih (cb + tsize c.2) cd h
      exact ⟨c2, by simp [hc2], he⟩

lemma add_entry_preserves (d : Directory) (e : DirEntry) (d1 : Directory)
    (h : d.add_entry e = .ok d1) : d1.magic = d.magic ∧ d1.fat_sector = d.fat_sector := by
  unfold Directory.add_entry at h
  match h2 : Directory.firstEmptyFrom d.entries 0 with
  | some i =>
    rw [h2] at h
    have h3 := Except.ok.inj h
    rw [← h3]
    exact ⟨rfl, rfl⟩
  | none =>
    rw [h2] at h
    exact absurd h (by simp)

set_option maxRecDepth 2000 in
lemma buildFat_zero (b : Nat) : buildFat b 0 = FAT.new := by
  rfl

set_option maxRecDepth 2000 in
lemma newDirRecord_mk (w psec : Nat) :
    newDirRecord w psec
      = ⟨DIRECTORY_MAGIC, w, mkDirEntries w psec (fileEntriesFrom 0 [])⟩ := by
  rfl

/-! ## More chain lemmas -/

lemma chainFrom_final_magic (disk : Disk) :
    ∀ (wd : List Name) (s : Nat) (d : Directory) (secs : List Nat) (sfin : Nat)
      (dfin : Directory),
    ChainFrom disk s d wd secs sfin dfin → d.magic = DIRECTORY_MAGIC →
    dfin.magic = DIRECTORY_MAGIC := by
  intro wd
  induction wd with
  | nil =>
    intro s d secs sfin dfin h hm
    rw [h.2.2]
    exact hm
  | cons seg rest ih =>
    intro s d secs sfin dfin h hm
    obtain ⟨e, dn, secs2, _, _, _, hmag, _, hrec⟩ := h
    exact ih e.first_cluster dn secs2 sfin dfin hrec hmag

lemma chain_final_magic (disk : Disk) (wd : List Name) (secs : List Nat) (sfin : Nat)
    (dfin : Directory) (h : Chain disk wd secs sfin dfin) :
    dfin.magic = DIRECTORY_MAGIC := by
  obtain ⟨draw, hd, hm, hchain⟩ := h
  exact chainFrom_final_magic disk wd FIRST_DIRECTORY _ secs sfin dfin hchain hm

lemma chainFrom_final_disk (disk : Disk) :
    ∀ (wd : List Name) (s : Nat) (d : Directory) (secs : List Nat) (sfin : Nat)
      (dfin : Directory),
    ChainFrom disk s d wd secs sfin dfin → wd ≠ [] → disk sfin = .dirB dfin := by
  intro wd
  induction wd with
  | nil =>
    intro s d secs sfin dfin h hne
    exact absurd rfl hne
  | cons seg rest ih =>
    intro s d secs sfin dfin h _
    obtain ⟨e, dn, secs2, hge, hty, hdisk, hmag, hsecs, hrec⟩ := h
    cases rest with
    | nil =>
      obtain ⟨h1, h2, h3⟩ := hrec
      subst h2
      subst h3
      exact hdisk
    | cons seg2 rest2 =>
      exact ih e.first_cluster dn secs2 sfin dfin hrec (by simp)

lemma chain_final_disk (disk : Disk) (wd : List Name) (secs : List Nat) (sfin : Nat)
    (dfin : Directory) (h : Chain disk wd secs sfin dfin) (hne : wd ≠ []) :
    disk sfin = .dirB dfin := by
  obtain ⟨draw, hd, hm, hchain⟩ := h
  exact chainFrom_final_disk disk wd FIRST_DIRECTORY _ secs sfin dfin hchain hne

lemma chainFrom_getLast (disk : Disk) :
    ∀ (wd : List Name) (s : Nat) (d : Directory) (secs : List Nat) (sfin : Nat)
      (dfin : Directory),
    ChainFrom disk s d wd secs sfin dfin →
    (wd = [] ∧ secs = [] ∧ sfin = s) ∨ secs.getLast? = some sfin := by
  intro wd
  induction wd with
  | nil =>
    intro s d secs sfin dfin h
    exact Or.inl ⟨rfl, h.1, h.2.1⟩
  | cons seg rest ih =>
    intro s d secs sfin dfin h
    obtain ⟨e, dn, secs2, _, _, _, _, hsecs, hrec⟩ := h
    subst hsecs
    rcases ih e.first_cluster dn secs2 sfin dfin hrec with ⟨_, h2, h3⟩ | h2
    · subst h2
      subst h3
      exact Or.inr rfl
    · cases secs2 with
      | nil => exact absurd h2 (by simp)
      | cons y ys =>
        rw [List.getLast?_cons_cons]
        exact Or.inr h2

lemma chain_getLast (disk : Disk) (wd : List Name) (secs : List Nat) (sfin : Nat)
    (dfin : Directory) (h : Chain disk wd secs sfin dfin) :
    (wd = [] ∧ secs = [] ∧ sfin = FIRST_DIRECTORY) ∨ secs.getLast? = some sfin := by
  obtain ⟨draw, hd, hm, hchain⟩ := h
  exact chainFrom_getLast disk wd FIRST_DIRECTORY _ secs sfin dfin hchain

lemma chain_last_mem (disk : Disk) (wd : List Name) (secs : List Nat) (sfin : Nat)
    (dfin : Directory) (h : Chain disk wd secs sfin dfin) :
    sfin ∈ FIRST_DIRECTORY :: secs := by
  rcases chain_getLast disk wd secs sfin dfin h with ⟨_, _, h3⟩ | h2
  · rw [h3]
    simp
  · have hne : secs ≠ [] := by
      intro hc
      rw [hc] at h2
      exact Option.noConfusion h2
    rw [List.getLast?_eq_getLast secs hne] at h2
    have h3 := Option.some.inj h2
    rw [← h3]
    exact List.mem_cons.mpr (Or.inr (List.getLast_mem hne))

lemma chain_update_both (disk : Disk) (wd : List Name) (secs : List Nat) (sfin : Nat)
    (dfin dnew : Directory)
    (h : Chain disk wd secs sfin dfin)
    (hmag2 : dnew.magic = DIRECTORY_MAGIC)
    (hfs : dnew.fat_sector = dfin.fat_sector)
    (hnd : (FIRST_DIRECTORY :: secs).Nodup) :
    Chain (disk.write sfin (.dirB dnew)) wd secs sfin dnew := by
  cases wd with
  | nil =>
    obtain ⟨draw, hd, hm, h1, h2, h3⟩ := h
    subst h1
    subst h2
    have h4 := chain_update_root disk [] FIRST_DIRECTORY dfin dnew
      ⟨draw, hd, hm, rfl, rfl, h3⟩ hmag2
    have h6 : dfin.fat_sector = FIRST_USABLE_SECTOR - 1 := by
      rw [h3]
    have h7 : dnew.fat_sector = FIRST_USABLE_SECTOR - 1 := hfs.trans h6
    have h5 : ({ dnew with fat_sector := FIRST_USABLE_SECTOR - 1 } : Directory) = dnew := by
      rw [← h7]
    rw [h5] at h4
    exact h4
  | cons seg rest =>
    have hmem : sfin ∈ secs := by
      rcases chain_getLast disk (seg :: rest) secs sfin dfin h with ⟨hc, _, _⟩ | h2
      · exact absurd hc (by simp)
      · have hne : secs ≠ [] := by
          intro hc
          rw [hc] at h2
          exact Option.noConfusion h2
        rw [List.getLast?_eq_getLast secs hne] at h2
        rw [← Option.some.inj h2]
        exact List.getLast_mem hne
    have h0 : sfin ≠ FIRST_DIRECTORY := by
      intro hc
      have h1 : FIRST_DIRECTORY ∉ secs := (List.nodup_cons.mp hnd).1
      rw [hc] at hmem
      exact h1 hmem
    have hlast : secs.getLast? = some sfin := by
      rcases chain_getLast disk (seg :: rest) secs sfin dfin h with ⟨hc, _, _⟩ | h2
      · exact absurd hc (by simp)
      · exact h2
    exact chain_update disk (seg :: rest) secs sfin dfin dnew h (by simp) h0
      (nodup_last_not_dropLast secs sfin hlast (List.Nodup.of_cons hnd)) hmag2

/-! ## Layout stability under disk agreement -/

lemma diskRep_agree_strong : ∀ n : Nat,
    (∀ t : FsTree, tsize t ≤ n → ∀ (disk disk2 : Disk) (psec b : Nat),
      (∀ x, b ≤ x → x < b + tsize t → disk2 x = disk x) →
      DiskRep disk psec b t → DiskRep disk2 psec b t) ∧
    (∀ cs : List (Name × FsTree), tsizeList cs ≤ n → ∀ (disk disk2 : Disk) (psec cb : Nat),
      (∀ x, cb ≤ x → x < cb + tsizeList cs → disk2 x = disk x) →
      DiskRepList disk psec cb cs → DiskRepList disk2 psec cb cs) := by
  intro n
  induction n using Nat.strong_induction_on with
  | _ n ih =>
  have treePart : ∀ t : FsTree, tsize t ≤ n → ∀ (disk disk2 : Disk) (psec b : Nat),
      (∀ x, b ≤ x → x < b + tsize t → disk2 x = disk x) →
      DiskRep disk psec b t → DiskRep disk2 psec b t := by
    intro t ht disk disk2 psec b hag hrep
    cases t with
    | node files children =>
      rw [tsize_node] at ht hag
      rw [diskRep_node] at hrep ⊢
      obtain ⟨h1, h2, h3⟩ := hrep
      refine ⟨?_, ?_, ?_⟩
      · rw [hag b (Nat.le_refl b) (by omega)]
        exact h1
      · rw [hag (b + 1) (by omega) (by omega)]
        exact h2
      · exact (ih (n - 1) (by omega)).2 children (by omega) disk disk2 (b + 1)
          (b + 9 + files.length) (fun x hx1 hx2 => hag x (by omega) (by omega)) h3
  refine ⟨treePart, ?_⟩
  intro cs
  induction cs with
  | nil =>
    intro _ disk disk2 psec cb _ _
    rw [diskRepList_nil]
    trivial
  | cons c rest ihr =>
    intro hsz disk disk2 psec cb hag hrep
    rw [tsizeList_cons] at hsz hag
    rw [diskRepList_cons] at hrep ⊢
    obtain ⟨h1, h2⟩ := hrep
    refine ⟨?_, ?_⟩
    · exact treePart c.2 (by omega) disk disk2 psec cb
        (fun x hx1 hx2 => hag x hx1 (by omega)) h1
    · exact ihr (by omega) disk disk2 psec (cb + tsize c.2)
        (fun x hx1 hx2 => hag x (by omega) (by omega)) h2

lemma diskRep_agree (t : FsTree) (disk disk2 : Disk) (psec b : Nat)
    (hag : ∀ x, b ≤ x → x < b + tsize t → disk2 x = disk x)
    (h : DiskRep disk psec b t) : DiskRep disk2 psec b t :=
  (diskRep_agree_strong (tsize t)).1 t (Nat.le_refl _) disk disk2 psec b hag h

lemma diskRepList_agree (cs : List (Name × FsTree)) (disk disk2 : Disk) (psec cb : Nat)
    (hag : ∀ x, cb ≤ x → x < cb + tsizeList cs → disk2 x = disk x)
    (h : DiskRepList disk psec cb cs) : DiskRepList disk2 psec cb cs :=
  (diskRep_agree_strong (tsizeList cs)).2 cs (Nat.le_refl _) disk disk2 psec cb hag h


/-! ## The generalized build theorem -/

lemma wfTree_node (files : List Name) (children : List (Name × FsTree)) :
    wfTree (.node files children)
      = (files.all validName && children.all (fun c => validName c.1)
        && decide ((files ++ children.map Prod.fst).Nodup)
        && decide (2 + files.length + children.length ≤ DIR_TOTAL_ENTRIES)
        && wfList children) := rfl

lemma wfList_nil : wfList [] = true := rfl

lemma wfList_cons (c : Name × FsTree) (rest : List (Name × FsTree)) :
    wfList (c :: rest) = (wfTree c.2 && wfList rest) := by
  cases rest <;> rfl

lemma childrenWithBases_nil (cb : Nat) : childrenWithBases cb [] = [] := rfl

lemma childEntries_nil : childEntries [] = [] := rfl

lemma childEntries_pair (nm : Name) (t : FsTree) (cb : Nat) :
    childEntries [(nm, t, cb)] = [DirEntry.new nm (cb + 1) DIR_ENTRY_TYPE] := rfl

/-- Combined strong induction for `buildTree`/`buildChildren`: building a
well-formed tree from the watermark `b` with an empty free-list succeeds,
advances the watermark by exactly `tsize`, lays the tree out at
`[b, b + tsize)`, links it into the parent, and touches nothing else
(except the allocator image sector and the parent record). -/
lemma build_spec_strong : ∀ n : Nat,
    (∀ t : FsTree, tsize t ≤ n →
      ∀ (name : Name) (st : St) (wd : List Name) (secs : List Nat) (sfin : Nat)
        (dfin d1 : Directory) (err0 : FileSystemError) (b : Nat),
      wfTree t = true →
      st.allocator = ⟨b, []⟩ →
      Chain st.disk wd secs sfin dfin →
      dfin.get_entry name = .error err0 →
      dfin.add_entry (DirEntry.new name (b + 1) DIR_ENTRY_TYPE) = .ok d1 →
      d1.get_entry name = .ok (DirEntry.new name (b + 1) DIR_ENTRY_TYPE) →
      (∀ x ∈ FIRST_DIRECTORY :: secs, x < b ∧ x ≠ FIRST_USABLE_SECTOR - 2) →
      (FIRST_DIRECTORY :: secs).Nodup →
      21 ≤ b →
      b + tsize t ≤ 4096 →
      ∃ disk2,
        buildTree st wd name t = .ok ⟨disk2, ⟨b + tsize t, []⟩⟩ ∧
        Chain disk2 wd secs sfin d1 ∧
        DiskRep disk2 sfin b t ∧
        (∀ x, x ≠ FIRST_USABLE_SECTOR - 2 → x ≠ sfin → (x < b ∨ b + tsize t ≤ x) →
          disk2 x = st.disk x)) ∧
    (∀ cs : List (Name × FsTree), tsizeList cs ≤ n →
      ∀ (done : List (Name × FsTree)) (files0 : List Name) (st : St) (wd2 : List Name)
        (secs2 : List Nat) (b psec : Nat),
      st.allocator = ⟨b + 9 + files0.length + tsizeList done, []⟩ →
      Chain st.disk wd2 secs2 (b + 1)
        ⟨DIRECTORY_MAGIC, b, mkDirEntries b psec
          (fileEntriesFrom 0 files0
            ++ childEntries (childrenWithBases (b + 9 + files0.length) done))⟩ →
      (∀ x ∈ FIRST_DIRECTORY :: secs2, (x = b + 1 ∨ x < b) ∧ x ≠ FIRST_USABLE_SECTOR - 2) →
      (FIRST_DIRECTORY :: secs2).Nodup →
      wd2 ≠ [] →
      secs2.getLast? = some (b + 1) →
      (∀ nm ∈ files0, validName nm = true) →
      (∀ c ∈ done ++ cs, validName c.1 = true) →
      (files0 ++ (done ++ cs).map Prod.fst).Nodup →
      files0.length + done.length + cs.length ≤ 251 →
      wfList cs = true →
      21 ≤ b →
      b + 9 + files0.length + tsizeList done + tsizeList cs ≤ 4096 →
      ∃ disk2,
        buildChildren wd2 cs st
          = .ok ⟨disk2, ⟨b + 9 + files0.length + tsizeList done + tsizeList cs, []⟩⟩ ∧
        Chain disk2 wd2 secs2 (b + 1)
          ⟨DIRECTORY_MAGIC, b, mkDirEntries b psec
            (fileEntriesFrom 0 files0
              ++ childEntries (childrenWithBases (b + 9 + files0.length) (done ++ cs)))⟩ ∧
        DiskRepList disk2 (b + 1) (b + 9 + files0.length + tsizeList done) cs ∧
        (∀ x, x ≠ FIRST_USABLE_SECTOR - 2 → x ≠ b + 1 →
          (x < b + 9 + files0.length + tsizeList done ∨
            b + 9 + files0.length + tsizeList done + tsizeList cs ≤ x) →
          disk2 x = st.disk x)) := by
  intro n
  induction n using Nat.strong_induction_on with
  | _ n ih =>
  have treePart : ∀ t : FsTree, tsize t ≤ n →
      ∀ (name : Name) (st : St) (wd : List Name) (secs : List Nat) (sfin : Nat)
        (dfin d1 : Directory) (err0 : FileSystemError) (b : Nat),
      wfTree t = true →
      st.allocator = ⟨b, []⟩ →
      Chain st.disk wd secs sfin dfin →
      dfin.get_entry name = .error err0 →
      dfin.add_entry (DirEntry.new name (b + 1) DIR_ENTRY_TYPE) = .ok d1 →
      d1.get_entry name = .ok (DirEntry.new name (b + 1) DIR_ENTRY_TYPE) →
      (∀ x ∈ FIRST_DIRECTORY :: secs, x < b ∧ x ≠ FIRST_USABLE_SECTOR - 2) →
      (FIRST_DIRECTORY :: secs).Nodup →
      21 ≤ b →
      b + tsize t ≤ 4096 →
      ∃ disk2,
        buildTree st wd name t = .ok ⟨disk2, ⟨b + tsize t, []⟩⟩ ∧
        Chain disk2 wd secs sfin d1 ∧
        DiskRep disk2 sfin b t ∧
        (∀ x, x ≠ FIRST_USABLE_SECTOR - 2 → x ≠ sfin → (x < b ∨ b + tsize t ≤ x) →
          disk2 x = st.disk x) := by
    intro t ht name st wd secs sfin dfin d1 err0 b hwf halloc hchain hmiss hadd hd1get
      hcond hnd hb hbound
    cases t with
    | node files children =>
    rw [tsize_node] at ht hbound ⊢
    rw [wfTree_node] at hwf
    simp only [Bool.and_eq_true, List.all_eq_true, decide_eq_true_eq] at hwf
    obtain ⟨⟨⟨⟨hfval, hcval⟩, hnodup⟩, hcap⟩, hwfchil⟩ := hwf
    have hcap' : 2 + files.length + children.length ≤ 253 := hcap
    have hcur : getCurrentDirectory st.disk wd = .ok (dfin, sfin) :=
      chain_resolves st.disk wd secs sfin dfin hchain
    have halloc9 : st.allocator.get_free_sectors 9 = (b, ⟨b + 9, []⟩) := by
      rw [halloc]
      have h2 := get_free_sectors_eq ⟨b, []⟩ 9 (by
        show b + 9 < 65536
        omega)
      simpa using h2
    have hsfin := hcond sfin (chain_last_mem st.disk wd secs sfin dfin hchain)
    have hchainA : Chain (st.disk.write (FIRST_USABLE_SECTOR - 2)
        (.allocB (SectorAllocator.to_bitmap ⟨b + 9, []⟩))) wd secs sfin dfin := by
      apply chain_agree st.disk _ wd secs sfin dfin _ hchain
      intro x hx
      unfold Disk.write
      rw [if_neg (hcond x hx).2]
    have hpar : getParentSector (st.disk.write (FIRST_USABLE_SECTOR - 2)
        (.allocB (SectorAllocator.to_bitmap ⟨b + 9, []⟩))) wd = .ok sfin :=
      getParentSector_of_current _ wd (dfin, sfin)
        (chain_resolves _ wd secs sfin dfin hchainA)
    have hchainB : Chain (((st.disk.write (FIRST_USABLE_SECTOR - 2)
        (.allocB (SectorAllocator.to_bitmap ⟨b + 9, []⟩))).write b
        (.fatB FAT.new)).write (b + 1) (.dirB (newDirRecord b sfin))) wd secs sfin dfin := by
      apply chain_agree _ _ wd secs sfin dfin _ hchainA
      intro x hx
      have hxb := (hcond x hx).1
      unfold Disk.write
      rw [if_neg (by omega), if_neg (by omega)]
    have hcurB := chain_resolves _ wd secs sfin dfin hchainB
    have hnewdir := newDir_ok_eq st wd name (dfin, sfin) (dfin, sfin) err0 b sfin
      ⟨b + 9, []⟩ d1 hcur hmiss halloc9 hpar hcurB hadd
    obtain ⟨hd1mag', hd1fat⟩ := add_entry_preserves dfin _ d1 hadd
    have hd1mag : d1.magic = DIRECTORY_MAGIC := by
      rw [hd1mag']
      exact chain_final_magic st.disk wd secs sfin dfin hchain
    set diskC : Disk := (((st.disk.write (FIRST_USABLE_SECTOR - 2)
        (.allocB (SectorAllocator.to_bitmap ⟨b + 9, []⟩))).write b
        (.fatB FAT.new)).write (b + 1) (.dirB (newDirRecord b sfin))).write sfin
        (.dirB d1) with hdiskC
    have hchainC : Chain diskC wd secs sfin d1 := by
      rw [hdiskC]
      exact chain_update_both _ wd secs sfin dfin d1 hchainB hd1mag hd1fat hnd
    have hdiskC_b1 : diskC (b + 1) = .dirB (newDirRecord b sfin) := by
      rw [hdiskC]
      unfold Disk.write
      rw [if_neg (by omega), if_pos rfl]
    have hchainD : Chain diskC (wd ++ [name]) (secs ++ [b + 1]) (b + 1)
        ⟨DIRECTORY_MAGIC, b, mkDirEntries b sfin (fileEntriesFrom 0 [])⟩ := by
      rw [← newDirRecord_mk b sfin]
      exact chain_extend diskC wd secs sfin d1 name
        (DirEntry.new name (b + 1) DIR_ENTRY_TYPE) (newDirRecord b sfin)
        hchainC hd1get rfl hdiskC_b1 rfl
    have hcond2 : ∀ x ∈ FIRST_DIRECTORY :: (secs ++ [b + 1]),
        (x = b + 1 ∨ x < b) ∧ x ≠ FIRST_USABLE_SECTOR - 2 := by
      intro x hx
      simp only [List.mem_cons, List.mem_append, List.mem_singleton, List.not_mem_nil,
        or_false] at hx
      rcases hx with h | h | h
      · have h2 := hcond x (by simp [h])
        exact ⟨Or.inr h2.1, h2.2⟩
      · have h2 := hcond x (by simp [h])
        exact ⟨Or.inr h2.1, h2.2⟩
      · refine ⟨Or.inl h, ?_⟩
        rw [h]
        show b + 1 ≠ 19
        omega
    have hnd2 : (FIRST_DIRECTORY :: (secs ++ [b + 1])).Nodup := by
      obtain ⟨h01, hsnd⟩ := List.nodup_cons.mp hnd
      rw [List.nodup_cons]
      refine ⟨?_, ?_⟩
      · intro hc
        rcases List.mem_append.mp hc with h | h
        · exact h01 h
        · have h2 : FIRST_DIRECTORY = b + 1 := by simpa using h
          have h3 : (0 : Nat) = b + 1 := h2
          omega
      · rw [List.nodup_append]
        refine ⟨hsnd, List.nodup_singleton _, ?_⟩
        intro x hx hx2
        have hxb : x < b := (hcond x (by simp [hx])).1
        have h2 : x = b + 1 := by simpa using hx2
        omega
    have hbf := buildFiles_spec files [] ⟨diskC, ⟨b + 9, []⟩⟩ (wd ++ [name])
      (secs ++ [b + 1]) b sfin
      rfl
      (by
        show diskC b = _
        have hfatC : diskC b = .fatB FAT.new := by
          rw [hdiskC]
          unfold Disk.write
          rw [if_neg (by omega), if_neg (by omega), if_pos rfl]
        have h0 : (List.length ([] : List Name)) = 0 := rfl
        rw [h0, buildFat_zero]
        exact hfatC)
      hchainD hcond2 hnd2 (by simp) (by rw [List.getLast?_concat])
      (by
        intro nm hnm
        exact hfval nm (by simpa using hnm))
      (by
        simp only [List.nil_append]
        exact (List.nodup_append.mp hnodup).1)
      (by
        simp only [List.length_nil]
        omega)
      hb
      (by
        simp only [List.length_nil]
        omega)
    obtain ⟨diskF, hrunF, hfatF, hchainF, hframeF⟩ := hbf
    simp only [List.length_nil, List.nil_append, Nat.add_zero, Nat.zero_add]
      at hrunF hfatF hchainF hframeF
    have hbc := (ih (n - 1) (by omega)).2 children (by omega) [] files
      ⟨diskF, ⟨b + 9 + files.length, []⟩⟩ (wd ++ [name]) (secs ++ [b + 1]) b sfin
      rfl
      (by
        show Chain diskF _ _ _ _
        rw [childrenWithBases_nil, childEntries_nil, List.append_nil]
        exact hchainF)
      hcond2 hnd2 (by simp) (by rw [List.getLast?_concat])
      hfval
      (by
        intro c hc
        exact hcval c (by simpa using hc))
      (by
        simpa using hnodup)
      (by
        simp only [List.length_nil]
        omega)
      hwfchil hb
      (by
        rw [tsizeList_nil]
        omega)
    obtain ⟨diskG, hrunG, hchainG, hrepG, hframeG⟩ := hbc
    rw [tsizeList_nil] at hrunG hrepG hframeG
    simp only [Nat.add_zero, List.nil_append] at hrunG hchainG hrepG hframeG
    refine ⟨diskG, ?_, ?_, ?_, ?_⟩
    · rw [buildTree_eq, hnewdir]
      dsimp only
      show (match buildFiles (wd ++ [name]) files ⟨diskC, ⟨b + 9, []⟩⟩ with
        | .error e => Except.error e
        | .ok st2 => buildChildren (wd ++ [name]) children st2) = _
      rw [hrunF]
      show buildChildren (wd ++ [name]) children ⟨diskF, ⟨b + 9 + files.length, []⟩⟩ = _
      rw [hrunG]
      have harith : b + 9 + files.length + tsizeList children
          = b + (9 + files.length + tsizeList children) := by omega
      rw [harith]
    · apply chain_agree diskC diskG wd secs sfin d1 _ hchainC
      intro x hx
      obtain ⟨hxb, hx19⟩ := hcond x hx
      rw [hframeG x hx19 (by omega) (Or.inl (by omega))]
      exact hframeF x hx19 (by omega) (by omega) (Or.inl (by omega))
    · rw [diskRep_node]
      refine ⟨?_, ?_, ?_⟩
      · rw [hframeG b (by show b ≠ 19; omega) (by omega) (Or.inl (by omega))]
        exact hfatF
      · exact chain_final_disk diskG (wd ++ [name]) (secs ++ [b + 1]) (b + 1)
          _ hchainG (by simp)
      · exact hrepG
    · intro x h19 hsfinx hor
      have hxb1 : x ≠ b + 1 := by omega
      have hxb0 : x ≠ b := by omega
      rw [hframeG x h19 hxb1 (by omega)]
      rw [hframeF x h19 hxb0 hxb1 (by omega)]
      show diskC x = st.disk x
      rw [hdiskC]
      unfold Disk.write
      rw [if_neg hsfinx, if_neg hxb1, if_neg hxb0, if_neg h19]
  refine ⟨treePart, ?_⟩
  intro cs
  induction cs with
  | nil =>
    intro _ done files0 st wd2 secs2 b psec halloc hchain hcond hnd hwne hlast hf0val
      hcval hnodup hcap hwfl hb hbound
    obtain ⟨d, a⟩ := st
    have h2 : a = ⟨b + 9 + files0.length + tsizeList done, []⟩ := halloc
    subst h2
    refine ⟨d, ?_, ?_, ?_, ?_⟩
    · rw [buildChildren_nil]
      have h3 : b + 9 + files0.length + tsizeList done + tsizeList ([] : List (Name × FsTree))
          = b + 9 + files0.length + tsizeList done := by
        rw [tsizeList_nil]
        omega
      rw [h3]
    · rw [List.append_nil]
      exact hchain
    · rw [diskRepList_nil]
      trivial
    · intro x _ _ _
      rfl
  | cons c rest ihr =>
    intro hsz done files0 st wd2 secs2 b psec halloc hchain hcond hnd hwne hlast hf0val
      hcval hnodup hcap hwfl hb hbound
    rw [tsizeList_cons] at hsz hbound ⊢
    have hwfc : (wfTree c.2 && wfList rest) = true := by
      rw [wfList_cons] at hwfl
      exact hwfl
    rw [Bool.and_eq_true] at hwfc
    obtain ⟨hwfc2, hwfrest⟩ := hwfc
    have hcval_c : validName c.1 = true := hcval c (by simp)
    obtain ⟨hcne, _, _, hcdot, hcdotdot⟩ := validName_spec c.1 hcval_c
    have hcnotin_files : c.1 ∉ files0 := by
      intro hc
      exact (List.nodup_append.mp hnodup).2.2 hc
        (List.mem_map_of_mem Prod.fst (by simp))
    have hcnotin_done : ∀ cd ∈ done, c.1 ≠ cd.1 := by
      intro cd hcd hc
      have hnd3 : ((done ++ c :: rest).map Prod.fst).Nodup :=
        (List.nodup_append.mp hnodup).2.1
      rw [List.map_append] at hnd3
      apply (List.nodup_append.mp hnd3).2.2 (List.mem_map_of_mem Prod.fst hcd)
      rw [← hc]
      simp
    have hvdone : ∀ cd ∈ childrenWithBases (b + 9 + files0.length) done,
        validName cd.1 = true := by
      intro cd hcd
      obtain ⟨c2, hc2, he2⟩ := childrenWithBases_fst done (b + 9 + files0.length) cd hcd
      rw [he2]
      exact hcval c2 (by simp [hc2])
    set Ed : List DirEntry := fileEntriesFrom 0 files0
      ++ childEntries (childrenWithBases (b + 9 + files0.length) done) with hEd
    set Pd : Directory := ⟨DIRECTORY_MAGIC, b, mkDirEntries b psec Ed⟩ with hPd
    have hEd_nonempty : ∀ e ∈ Ed, e.isEmptySlot = false := by
      rw [hEd]
      intro e he
      rcases List.mem_append.mp he with h | h
      · exact fileEntriesFrom_nonempty 0 files0 hf0val e h
      · exact childEntries_nonempty _ hvdone e h
    have hEd_names : ∀ e ∈ Ed, e.to_string ≠ c.1 := by
      rw [hEd]
      intro e he hc
      rcases List.mem_append.mp he with h | h
      · have h2 := fileEntriesFrom_to_string 0 files0 hf0val e h
        rw [hc] at h2
        exact hcnotin_files h2
      · obtain ⟨cd, hcd, he2⟩ := childEntries_to_string _ hvdone e h
        obtain ⟨c2, hc2, he3⟩ := childrenWithBases_fst done (b + 9 + files0.length) cd hcd
        exact hcnotin_done c2 hc2 (by rw [← hc, he2, he3])
    have hEdlen : Ed.length = files0.length + done.length := by
      rw [hEd, List.length_append, fileEntriesFrom_length, childEntries_length,
        childrenWithBases_length]
    have hmiss : Pd.get_entry c.1 = .error FileSystemError.FileNotFound := by
      rw [hPd]
      exact get_entry_mk_miss DIRECTORY_MAGIC b b psec Ed c.1 hcdot hcdotdot hEd_names
    have hadd : Pd.add_entry (DirEntry.new c.1 (b + 9 + files0.length + tsizeList done + 1)
          DIR_ENTRY_TYPE)
        = .ok ⟨DIRECTORY_MAGIC, b, mkDirEntries b psec
            (Ed ++ [DirEntry.new c.1 (b + 9 + files0.length + tsizeList done + 1)
              DIR_ENTRY_TYPE])⟩ := by
      rw [hPd]
      exact add_entry_mk DIRECTORY_MAGIC b b psec Ed _ hEd_nonempty (by
        rw [hEdlen]
        simp only [List.length_cons] at hcap
        omega)
    have hhit : Directory.get_entry ⟨DIRECTORY_MAGIC, b, mkDirEntries b psec
          (Ed ++ [DirEntry.new c.1 (b + 9 + files0.length + tsizeList done + 1)
            DIR_ENTRY_TYPE])⟩ c.1
        = .ok (DirEntry.new c.1 (b + 9 + files0.length + tsizeList done + 1)
            DIR_ENTRY_TYPE) :=
      get_entry_mk_hit DIRECTORY_MAGIC b b psec Ed [] _ c.1 hcdot hcdotdot hEd_names
        (isEmptySlot_new_false c.1 _ _ hcval_c) (to_string_new c.1 _ _ hcval_c)
    have htree := treePart c.2 (by omega) c.1 st wd2 secs2 (b + 1) Pd
      ⟨DIRECTORY_MAGIC, b, mkDirEntries b psec
        (Ed ++ [DirEntry.new c.1 (b + 9 + files0.length + tsizeList done + 1)
          DIR_ENTRY_TYPE])⟩
      FileSystemError.FileNotFound (b + 9 + files0.length + tsizeList done)
      hwfc2 halloc hchain hmiss hadd hhit
      (by
        intro x hx
        obtain ⟨h1, h2⟩ := hcond x hx
        refine ⟨?_, h2⟩
        rcases h1 with h | h <;> omega)
      hnd (by omega) (by omega)
    obtain ⟨diskH, hrunH, hchainH, hrepH, hframeH⟩ := htree
    have hrest := ihr (by omega) (done ++ [c]) files0
      ⟨diskH, ⟨b + 9 + files0.length + tsizeList done + tsize c.2, []⟩⟩
      wd2 secs2 b psec
      (by
        show (⟨b + 9 + files0.length + tsizeList done + tsize c.2, []⟩ : SectorAllocator)
          = _
        rw [tsizeList_append, tsizeList_cons, tsizeList_nil]
        congr 1
        omega)
      (by
        show Chain diskH wd2 secs2 (b + 1) _
        rw [childrenWithBases_append, childrenWithBases_cons, childrenWithBases_nil,
          childEntries_append, childEntries_pair, ← List.append_assoc, ← hEd]
        exact hchainH)
      hcond hnd hwne hlast hf0val
      (by
        intro cc hcc
        apply hcval
        rw [List.append_assoc, List.singleton_append] at hcc
        exact hcc)
      (by
        rw [List.append_assoc, List.singleton_append]
        exact hnodup)
      (by
        simp only [List.length_append, List.length_cons, List.length_nil]
        simp only [List.length_cons] at hcap
        omega)
      hwfrest hb
      (by
        rw [tsizeList_append, tsizeList_cons, tsizeList_nil]
        omega)
    obtain ⟨diskI, hrunI, hchainI, hrepI, hframeI⟩ := hrest
    have hsz2 : b + 9 + files0.length + tsizeList (done ++ [c])
        = b + 9 + files0.length + tsizeList done + tsize c.2 := by
      rw [tsizeList_append, tsizeList_cons, tsizeList_nil]
      omega
    rw [hsz2] at hrunI hrepI hframeI
    refine ⟨diskI, ?_, ?_, ?_, ?_⟩
    · rw [buildChildren_cons, hrunH]
      dsimp only
      rw [hrunI]
      have harith : b + 9 + files0.length + tsizeList done + tsize c.2 + tsizeList rest
          = b + 9 + files0.length + tsizeList done + (tsize c.2 + tsizeList rest) := by
        omega
      rw [harith]
    · rw [show done ++ c :: rest = (done ++ [c]) ++ rest from by
        rw [List.append_assoc, List.singleton_append]]
      exact hchainI
    · rw [diskRepList_cons]
      refine ⟨?_, ?_⟩
      · apply diskRep_agree c.2 diskH diskI (b + 1)
          (b + 9 + files0.length + tsizeList done) _ hrepH
        intro x hx1 hx2
        exact hframeI x (by show x ≠ 19; omega) (by omega) (Or.inl (by omega))
      · exact hrepI
    · intro x h19 hb1 hor
      rw [hframeI x h19 hb1 (by omega)]
      exact hframeH x h19 hb1 (by omega)


/-! ## Equations and helpers for the removal functions -/

lemma removeChildrenAux_nil (recFn) (st : St) (dir : Directory × Nat) :
    removeChildrenAux recFn [] st dir = (.ok (), st, dir) := rfl

lemma removeChildrenAux_cons (recFn) (e : DirEntry) (rest : List DirEntry) (st : St)
    (dir : Directory × Nat) :
    removeChildrenAux recFn (e :: rest) st dir
      = if e.entry_type = DIR_ENTRY_TYPE ∧ e.to_string ≠ dotName ∧ e.to_string ≠ dotdotName
        then
          match recFn st e.to_string dir with
          | (.ok _, st1, dir1) => removeChildrenAux recFn rest st1 dir1
          | (.error er, st1, dir1) => (.error er, st1, dir1)
        else removeChildrenAux recFn rest st dir := rfl

/-- Entries that are not Directory-typed (or are `.`/`..`) are skipped by
the child-recursion loop. -/
lemma removeChildrenAux_skip (recFn) (e : DirEntry) (rest : List DirEntry) (st : St)
    (dir : Directory × Nat)
    (h : ¬(e.entry_type = DIR_ENTRY_TYPE ∧ e.to_string ≠ dotName
        ∧ e.to_string ≠ dotdotName)) :
    removeChildrenAux recFn (e :: rest) st dir = removeChildrenAux recFn rest st dir := by
  rw [removeChildrenAux_cons, if_neg h]

lemma removeChildrenAux_skipAll (recFn) :
    ∀ (es1 es2 : List DirEntry) (st : St) (dir : Directory × Nat),
    (∀ e ∈ es1, ¬(e.entry_type = DIR_ENTRY_TYPE ∧ e.to_string ≠ dotName
        ∧ e.to_string ≠ dotdotName)) →
    removeChildrenAux recFn (es1 ++ es2) st dir = removeChildrenAux recFn es2 st dir := by
  intro es1
  induction es1 with
  | nil =>
    intro es2 st dir _
    rfl
  | cons e tl ih =>
    intro es2 st dir h
    rw [List.cons_append, removeChildrenAux_skip recFn e _ st dir (h e (by simp))]
    exact ih es2 st dir (fun x hx => h x (by simp [hx]))

lemma removeDirByName_succ (fuel : Nat) (st : St) (name : Name)
    (directory : Directory × Nat) :
    removeDirByName (fuel + 1) st name directory
      = (let entry_index :=
            (directory.1.entries.findIdx? (fun e => e.to_string == name)).getD 0
         let e0 := directory.1.entries.getD entry_index default
         if 255 - e0.entry_type = DIR_ENTRY_TYPE then (.error NotADirectory, st, directory)
         else
           match getDirectoryTableByName st.disk directory.1 name with
           | .error e => (.error e, st, directory)
           | .ok dir =>
             let fat := FAT.loadDisk st.disk (some dir.1.fat_sector)
             match freeUsedLoop st.allocator fat.entries with
             | (.error e, a, _) => (.error e, { st with allocator := a }, directory)
             | (.ok _, alloc1, fatEntries1) =>
               let st1 : St := { st with allocator := alloc1 }
               match removeChildrenAux (removeDirByName fuel) dir.1.entries st1 dir with
               | (.error e, st2, _) => (.error e, st2, directory)
               | (.ok _, st2, dir2) =>
                 let fat2 : FAT := ⟨fatEntries1.set 0 FATEntry.new_free⟩
                 let st3 : St :=
                   { st2 with disk := fat2.saveDisk st2.disk (some dir2.1.fat_sector) }
                 let st4 : St := { st3 with allocator := st3.allocator.free dir2.1.fat_sector }
                 let dir3 := { dir2.1 with magic := 0 }
                 let st5 : St := { st4 with disk := dir3.saveDisk st4.disk (some dir2.2) }
                 let pd1 := { directory.1 with
                   entries := directory.1.entries.set entry_index DirEntry.empty }
                 let st6 : St := { st5 with disk := pd1.saveDisk st5.disk (some directory.2) }
                 let st7 : St := { st6 with allocator := st6.allocator.free_directory dir2.2 }
                 (.ok (), st7, (pd1, directory.2))) := rfl

lemma findIdx?_cons_eq (p : DirEntry → Bool) (a : DirEntry) (l : List DirEntry) (i : Nat) :
    List.findIdx? p (a :: l) i = if p a then some i else List.findIdx? p l (i + 1) := rfl

/-- The scan of `findIdx?` lands on the first satisfying entry. -/
lemma findIdx?_prefix_hit (p : DirEntry → Bool) :
    ∀ (l1 : List DirEntry) (i : Nat) (e : DirEntry) (l2 : List DirEntry),
    (∀ x ∈ l1, p x = false) → p e = true →
    List.findIdx? p (l1 ++ e :: l2) i = some (i + l1.length) := by
  intro l1
  induction l1 with
  | nil =>
    intro i e l2 _ hpe
    rw [List.nil_append, findIdx?_cons_eq, if_pos hpe]
    rfl
  | cons a tl ih =>
    intro i e l2 h hpe
    rw [List.cons_append, findIdx?_cons_eq, if_neg (by simp [h a (by simp)])]
    rw [ih (i + 1) e l2 (fun x hx => h x (by simp [hx])) hpe]
    congr 1
    simp only [List.length_cons]
    omega

lemma getD_append_length (l1 : List DirEntry) (e : DirEntry) (l2 : List DirEntry) :
    (l1 ++ e :: l2).getD l1.length default = e := by
  induction l1 with
  | nil => rfl
  | cons a tl ih => simpa using ih

/-! ## Tree measures for the removal -/

lemma depth_node (files : List Name) (children : List (Name × FsTree)) :
    depth (.node files children) = 1 + depthList children := rfl

lemma depthList_nil : depthList [] = 0 := rfl

lemma depthList_cons (c : Name × FsTree) (rest : List (Name × FsTree)) :
    depthList (c :: rest) = max (depth c.2) (depthList rest) := by
  cases rest <;> rfl

lemma freeTrace_node (b : Nat) (files : List Name) (children : List (Name × FsTree)) :
    freeTrace b (.node files children)
      = (List.range files.length).map (fun j => b + 9 + j)
        ++ freeTraceList (b + 9 + files.length) children
        ++ [b] ++ (List.range 8).map (fun o => b + 1 + o) := rfl

lemma freeTraceList_nil (cb : Nat) : freeTraceList cb [] = [] := rfl

lemma freeTraceList_cons (cb : Nat) (c : Name × FsTree) (rest : List (Name × FsTree)) :
    freeTraceList cb (c :: rest)
      = freeTrace cb c.2 ++ freeTraceList (cb + tsize c.2) rest := by
  cases rest <;> rfl

lemma freeTrace_length_strong : ∀ n : Nat,
    (∀ t : FsTree, tsize t ≤ n → ∀ b, (freeTrace b t).length = tsize t) ∧
    (∀ cs : List (Name × FsTree), tsizeList cs ≤ n →
      ∀ cb, (freeTraceList cb cs).length = tsizeList cs) := by
  intro n
  induction n using Nat.strong_induction_on with
  | _ n ih =>
  have treePart : ∀ t : FsTree, tsize t ≤ n → ∀ b, (freeTrace b t).length = tsize t := by
    intro t ht b
    cases t with
    | node files children =>
      rw [tsize_node] at ht ⊢
      rw [freeTrace_node]
      simp only [List.length_append, List.length_map, List.length_range, List.length_cons,
        List.length_nil]
      rw [(ih (n - 1) (by omega)).2 children (by omega) (b + 9 + files.length)]
      omega
  refine ⟨treePart, ?_⟩
  intro cs
  induction cs with
  | nil =>
    intro _ cb
    rw [freeTraceList_nil, tsizeList_nil]
    rfl
  | cons c rest ihr =>
    intro hsz cb
    rw [tsizeList_cons] at hsz ⊢
    rw [freeTraceList_cons, List.length_append, treePart c.2 (by omega) cb,
      ihr (by omega) (cb + tsize c.2)]

lemma freeTrace_length (t : FsTree) (b : Nat) : (freeTrace b t).length = tsize t :=
  (freeTrace_length_strong (tsize t)).1 t (Nat.le_refl _) b

lemma freeTrace_mem_strong : ∀ n : Nat,
    (∀ t : FsTree, tsize t ≤ n → ∀ b s, b ≤ s → s < b + tsize t → s ∈ freeTrace b t) ∧
    (∀ cs : List (Name × FsTree), tsizeList cs ≤ n →
      ∀ cb s, cb ≤ s → s < cb + tsizeList cs → s ∈ freeTraceList cb cs) := by
  intro n
  induction n using Nat.strong_induction_on with
  | _ n ih =>
  have treePart : ∀ t : FsTree, tsize t ≤ n → ∀ b s, b ≤ s → s < b + tsize t →
      s ∈ freeTrace b t := by
    intro t ht b s hs1 hs2
    cases t with
    | node files children =>
      rw [tsize_node] at ht hs2
      rw [freeTrace_node]
      simp only [List.mem_append, List.mem_map, List.mem_range, List.mem_singleton,
        List.mem_cons, List.not_mem_nil, or_false]
      by_cases h1 : s = b
      · exact Or.inl (Or.inr h1)
      · by_cases h2 : s < b + 9
        · refine Or.inr ?_
          exact ⟨s - (b + 1), by omega, by omega⟩
        · by_cases h3 : s < b + 9 + files.length
          · exact Or.inl (Or.inl (Or.inl ⟨s - (b + 9), by omega, by omega⟩))
          · refine Or.inl (Or.inl (Or.inr ?_))
            exact (ih (n - 1) (by omega)).2 children (by omega) (b + 9 + files.length) s
              (by omega) (by omega)
  refine ⟨treePart, ?_⟩
  intro cs
  induction cs with
  | nil =>
    intro _ cb s hs1 hs2
    rw [tsizeList_nil] at hs2
    omega
  | cons c rest ihr =>
    intro hsz cb s hs1 hs2
    rw [tsizeList_cons] at hsz hs2
    rw [freeTraceList_cons]
    rw [List.mem_append]
    by_cases h1 : s < cb + tsize c.2
    · exact Or.inl (treePart c.2 (by omega) cb s hs1 h1)
    · exact Or.inr (ihr (by omega) (cb + tsize c.2) s (by omega) (by omega))

lemma freeTrace_mem (t : FsTree) (b s : Nat) (h1 : b ≤ s) (h2 : s < b + tsize t) :
    s ∈ freeTrace b t :=
  (freeTrace_mem_strong (tsize t)).1 t (Nat.le_refl _) b s h1 h2


/-! ## Entry-table index lemmas for the removal scan -/

lemma empty_to_string : DirEntry.empty.to_string = [] := rfl

lemma empty_entry_type : DirEntry.empty.entry_type = FILE_ENTRY_TYPE := rfl

lemma beq_false_of_ne (a b : Name) (h : a ≠ b) : (a == b) = false := by
  cases h2 : a == b with
  | false => rfl
  | true => exact absurd (eq_of_beq h2) h

lemma replicate_concat (n : Nat) (a : DirEntry) :
    List.replicate n a ++ [a] = List.replicate (n + 1) a := by
  induction n with
  | zero => rfl
  | succ m ih =>
    rw [List.replicate_succ, List.cons_append, ih]
    rw [← List.replicate_succ]

lemma wfList_mem : ∀ (cs : List (Name × FsTree)), wfList cs = true →
    ∀ c ∈ cs, wfTree c.2 = true := by
  intro cs
  induction cs with
  | nil =>
    intro _ c hc
    exact absurd hc (by simp)
  | cons c0 rest ih =>
    intro h c hc
    rw [wfList_cons, Bool.and_eq_true] at h
    rcases List.mem_cons.mp hc with h2 | h2
    · rw [h2]
      exact h.1
    · exact ih h.2 c h2

lemma depthList_mem : ∀ (cs : List (Name × FsTree)), ∀ c ∈ cs,
    depth c.2 ≤ depthList cs := by
  intro cs
  induction cs with
  | nil =>
    intro c hc
    exact absurd hc (by simp)
  | cons c0 rest ih =>
    intro c hc
    rw [depthList_cons]
    rcases List.mem_cons.mp hc with h2 | h2
    · rw [h2]
      exact Nat.le_max_left _ _
    · exact Nat.le_trans (ih c h2) (Nat.le_max_right _ _)

/-- `mkDirEntries` rearranged to expose the entry at offset `2 + es1.length`. -/
lemma mk_focus (b psec : Nat) (es1 : List DirEntry) (e : DirEntry) (es2 : List DirEntry) :
    mkDirEntries b psec (es1 ++ e :: es2)
      = (DirEntry.new dotName (b + 1) DIR_ENTRY_TYPE
          :: DirEntry.new dotdotName psec DIR_ENTRY_TYPE :: es1)
        ++ e :: (es2 ++ List.replicate (251 - (es1 ++ e :: es2).length) DirEntry.empty) := by
  rw [mk_assoc]
  simp [List.append_assoc]

lemma findIdx?_mk_hit (b psec : Nat) (es1 : List DirEntry) (e : DirEntry)
    (es2 : List DirEntry) (name : Name)
    (hdot : name ≠ dotName) (hdotdot : name ≠ dotdotName)
    (hes1 : ∀ x ∈ es1, x.to_string ≠ name)
    (he : e.to_string = name) :
    (mkDirEntries b psec (es1 ++ e :: es2)).findIdx? (fun x => x.to_string == name)
      = some (2 + es1.length) := by
  rw [mk_focus]
  have h2 := findIdx?_prefix_hit (fun x => x.to_string == name)
    (DirEntry.new dotName (b + 1) DIR_ENTRY_TYPE
      :: DirEntry.new dotdotName psec DIR_ENTRY_TYPE :: es1) 0 e
    (es2 ++ List.replicate (251 - (es1 ++ e :: es2).length) DirEntry.empty)
    (by
      intro x hx
      simp only [List.mem_cons] at hx
      rcases hx with h | h | h
      · rw [h]
        show ((DirEntry.new dotName (b + 1) DIR_ENTRY_TYPE).to_string == name) = false
        rw [dotEntry_to_string]
        exact beq_false_of_ne _ _ (fun hc => hdot hc.symm)
      · rw [h]
        show ((DirEntry.new dotdotName psec DIR_ENTRY_TYPE).to_string == name) = false
        rw [dotdotEntry_to_string]
        exact beq_false_of_ne _ _ (fun hc => hdotdot hc.symm)
      · show (x.to_string == name) = false
        exact beq_false_of_ne _ _ (hes1 x h))
    (by
      show (e.to_string == name) = true
      rw [he]
      exact beq_self_eq_true name)
  rw [h2]
  simp only [List.length_cons]
  congr 1
  omega

lemma getD_mk (b psec : Nat) (es1 : List DirEntry) (e : DirEntry) (es2 : List DirEntry) :
    (mkDirEntries b psec (es1 ++ e :: es2)).getD (2 + es1.length) default = e := by
  rw [mk_focus]
  have h2 := getD_append_length
    (DirEntry.new dotName (b + 1) DIR_ENTRY_TYPE
      :: DirEntry.new dotdotName psec DIR_ENTRY_TYPE :: es1) e
    (es2 ++ List.replicate (251 - (es1 ++ e :: es2).length) DirEntry.empty)
  have h3 : (DirEntry.new dotName (b + 1) DIR_ENTRY_TYPE
      :: DirEntry.new dotdotName psec DIR_ENTRY_TYPE :: es1).length = 2 + es1.length := by
    simp only [List.length_cons]
    omega
  rw [h3] at h2
  exact h2

/-- Clearing the focused slot of a built record. -/
lemma set_mk (b psec : Nat) (es1 : List DirEntry) (e x : DirEntry) (es2 : List DirEntry) :
    (mkDirEntries b psec (es1 ++ e :: es2)).set (2 + es1.length) x
      = mkDirEntries b psec (es1 ++ x :: es2) := by
  rw [mk_focus, mk_focus]
  have h3 : (DirEntry.new dotName (b + 1) DIR_ENTRY_TYPE
      :: DirEntry.new dotdotName psec DIR_ENTRY_TYPE :: es1).length = 2 + es1.length := by
    simp only [List.length_cons]
    omega
  rw [← h3, set_append_length_cons]
  have h4 : (es1 ++ e :: es2).length = (es1 ++ x :: es2).length := by
    simp only [List.length_append, List.length_cons]
  rw [h4]

/-- Big-step equation for one successful level of `remove_dir_by_name`. -/
lemma removeDirByName_ok_eq (fuel : Nat) (st : St) (name : Name) (P : Directory)
    (ppos : Nat) (j : Nat) (e0 : DirEntry) (child : Directory) (cpos : Nat)
    (alloc1 : SectorAllocator) (fatE1 : List FATEntry) (st2 : St) (dir2 : Directory × Nat)
    (hfind : P.entries.findIdx? (fun e => e.to_string == name) = some j)
    (hgetD : P.entries.getD j default = e0)
    (hty : 255 - e0.entry_type ≠ DIR_ENTRY_TYPE)
    (hgdtbn : getDirectoryTableByName st.disk P name = .ok (child, cpos))
    (hloop : freeUsedLoop st.allocator (FAT.loadDisk st.disk (some child.fat_sector)).entries
        = (.ok (), alloc1, fatE1))
    (hrca : removeChildrenAux (removeDirByName fuel) child.entries
        { st with allocator := alloc1 } (child, cpos) = (.ok (), st2, dir2)) :
    removeDirByName (fuel + 1) st name (P, ppos)
      = (.ok (),
         { disk := Disk.write
             (Disk.write
               (Disk.write st2.disk dir2.1.fat_sector
                 (.fatB ⟨fatE1.set 0 FATEntry.new_free⟩))
               dir2.2 (.dirB { dir2.1 with magic := 0 }))
             ppos (.dirB { P with entries := P.entries.set j DirEntry.empty }),
           allocator := (st2.allocator.free dir2.1.fat_sector).free_directory dir2.2 },
         ({ P with entries := P.entries.set j DirEntry.empty }, ppos)) := by
  rw [removeDirByName_succ]
  show (let entry_index := (P.entries.findIdx? (fun e => e.to_string == name)).getD 0
    let e0x := P.entries.getD entry_index default
    if 255 - e0x.entry_type = DIR_ENTRY_TYPE then
      (Except.error FileSystemError.NotADirectory, st, (P, ppos))
    else
      match getDirectoryTableByName st.disk P name with
      | Except.error e => (Except.error e, st, (P, ppos))
      | Except.ok dir =>
        let fat := FAT.loadDisk st.disk (some dir.1.fat_sector)
        match freeUsedLoop st.allocator fat.entries with
        | (Except.error e, a, _) => (Except.error e, { st with allocator := a }, (P, ppos))
        | (Except.ok _, alloc1x, fatEntries1) =>
          let st1 : St := { st with allocator := alloc1x }
          match removeChildrenAux (removeDirByName fuel) dir.1.entries st1 dir with
          | (Except.error e, st2x, _) => (Except.error e, st2x, (P, ppos))
          | (Except.ok _, st2x, dir2x) =>
            let fat2 : FAT := ⟨fatEntries1.set 0 FATEntry.new_free⟩
            let st3 : St :=
              { st2x with disk := fat2.saveDisk st2x.disk (some dir2x.1.fat_sector) }
            let st4 : St := { st3 with allocator := st3.allocator.free dir2x.1.fat_sector }
            let dir3 := { dir2x.1 with magic := 0 }
            let st5 : St := { st4 with disk := dir3.saveDisk st4.disk (some dir2x.2) }
            let pd1 := { P with entries := P.entries.set entry_index DirEntry.empty }
            let st6 : St := { st5 with disk := pd1.saveDisk st5.disk (some ppos) }
            let st7 : St := { st6 with allocator := st6.allocator.free_directory dir2x.2 }
            (Except.ok (), st7, (pd1, ppos))) = _
  rw [hfind]
  show (if 255 - (P.entries.getD j default).entry_type = DIR_ENTRY_TYPE
      then (Except.error FileSystemError.NotADirectory, st, (P, ppos))
      else _) = _
  rw [hgetD, if_neg hty, hgdtbn]
  dsimp only
  rw [hloop]
  dsimp only
  rw [hrca]
  rfl


lemma childEntries_cons_expl (nm : Name) (t : FsTree) (cbx : Nat)
    (l : List (Name × FsTree × Nat)) :
    childEntries ((nm, t, cbx) :: l)
      = DirEntry.new nm (cbx + 1) DIR_ENTRY_TYPE :: childEntries l := rfl

lemma removeChildrenAux_skipAll_nil (recFn) (es : List DirEntry) (st : St)
    (dir : Directory × Nat)
    (h : ∀ e ∈ es, ¬(e.entry_type = DIR_ENTRY_TYPE ∧ e.to_string ≠ dotName
        ∧ e.to_string ≠ dotdotName)) :
    removeChildrenAux recFn es st dir = (.ok (), st, dir) := by
  have h2 := removeChildrenAux_skipAll recFn es [] st dir h
  rw [List.append_nil] at h2
  rw [h2, removeChildrenAux_nil]

/-- Combined strong induction for `remove_dir_by_name`: removing a tree
laid out by `DiskRep` succeeds, pushes back exactly `freeTrace` onto the
free-list (in order), clears the parent's entry, and touches no sector
outside the tree span and the parent record. -/
lemma remove_spec_strong : ∀ n : Nat,
    (∀ t : FsTree, tsize t ≤ n →
      ∀ (fuel : Nat) (name : Name) (st : St) (P : Directory) (ppos b psec j : Nat),
      wfTree t = true →
      depth t ≤ fuel →
      DiskRep st.disk psec b t →
      P.entries.findIdx? (fun e => e.to_string == name) = some j →
      P.entries.getD j default = DirEntry.new name (b + 1) DIR_ENTRY_TYPE →
      P.get_entry name = .ok (DirEntry.new name (b + 1) DIR_ENTRY_TYPE) →
      ppos < b →
      21 ≤ b →
      b + tsize t ≤ 4096 →
      ∃ disk2,
        removeDirByName fuel st name (P, ppos)
          = (.ok (),
             ⟨disk2, ⟨st.allocator.next_free,
               st.allocator.freed_sectors ++ freeTrace b t⟩⟩,
             ({ P with entries := P.entries.set j DirEntry.empty }, ppos)) ∧
        disk2 ppos = .dirB { P with entries := P.entries.set j DirEntry.empty } ∧
        (∀ x, x ≠ ppos → (x < b ∨ b + tsize t ≤ x) → disk2 x = st.disk x)) ∧
    (∀ cs : List (Name × FsTree), tsizeList cs ≤ n →
      ∀ (fuel : Nat) (st : St) (b psec cb cpre : Nat) (files0 : List Name)
        (tailEs : List DirEntry),
      (∀ c ∈ cs, wfTree c.2 = true) →
      (∀ c ∈ cs, depth c.2 ≤ fuel) →
      DiskRepList st.disk (b + 1) cb cs →
      (∀ c ∈ cs, validName c.1 = true) →
      (∀ c ∈ cs, c.1 ∉ files0) →
      (∀ nm ∈ files0, validName nm = true) →
      (∀ e ∈ tailEs, ¬(e.entry_type = DIR_ENTRY_TYPE ∧ e.to_string ≠ dotName
          ∧ e.to_string ≠ dotdotName)) →
      b + 1 < cb →
      21 ≤ b →
      cb + tsizeList cs ≤ 4096 →
      ∃ disk2,
        removeChildrenAux (removeDirByName fuel)
            (childEntries (childrenWithBases cb cs) ++ tailEs) st
            (⟨DIRECTORY_MAGIC, b, mkDirEntries b psec
              (fileEntriesFrom 0 files0
                ++ (List.replicate cpre DirEntry.empty
                  ++ childEntries (childrenWithBases cb cs)))⟩, b + 1)
          = (.ok (),
             ⟨disk2, ⟨st.allocator.next_free,
               st.allocator.freed_sectors ++ freeTraceList cb cs⟩⟩,
             (⟨DIRECTORY_MAGIC, b, mkDirEntries b psec
               (fileEntriesFrom 0 files0
                 ++ List.replicate (cpre + cs.length) DirEntry.empty)⟩, b + 1)) ∧
        (∀ x, x ≠ b + 1 → (x < cb ∨ cb + tsizeList cs ≤ x) → disk2 x = st.disk x)) := by
  intro n
  induction n using Nat.strong_induction_on with
  | _ n ih =>
  have treePart : ∀ t : FsTree, tsize t ≤ n →
      ∀ (fuel : Nat) (name : Name) (st : St) (P : Directory) (ppos b psec j : Nat),
      wfTree t = true →
      depth t ≤ fuel →
      DiskRep st.disk psec b t →
      P.entries.findIdx? (fun e => e.to_string == name) = some j →
      P.entries.getD j default = DirEntry.new name (b + 1) DIR_ENTRY_TYPE →
      P.get_entry name = .ok (DirEntry.new name (b + 1) DIR_ENTRY_TYPE) →
      ppos < b →
      21 ≤ b →
      b + tsize t ≤ 4096 →
      ∃ disk2,
        removeDirByName fuel st name (P, ppos)
          = (.ok (),
             ⟨disk2, ⟨st.allocator.next_free,
               st.allocator.freed_sectors ++ freeTrace b t⟩⟩,
             ({ P with entries := P.entries.set j DirEntry.empty }, ppos)) ∧
        disk2 ppos = .dirB { P with entries := P.entries.set j DirEntry.empty } ∧
        (∀ x, x ≠ ppos → (x < b ∨ b + tsize t ≤ x) → disk2 x = st.disk x) := by
    intro t ht fuel name st P ppos b psec j hwf hfuel hrep hfind hgetD hget hppos hb hbound
    cases t with
    | node files children =>
    rw [tsize_node] at ht hbound ⊢
    rw [diskRep_node] at hrep
    obtain ⟨hfat, hdir, hreps⟩ := hrep
    rw [wfTree_node] at hwf
    simp only [Bool.and_eq_true, List.all_eq_true, decide_eq_true_eq] at hwf
    obtain ⟨⟨⟨⟨hfval, hcval⟩, hnodup⟩, hcap⟩, hwfchil⟩ := hwf
    have hcap' : 2 + files.length + children.length ≤ 253 := hcap
    have hfp : ∃ f, fuel = f + 1 := by
      rw [depth_node] at hfuel
      exact ⟨fuel - 1, by omega⟩
    obtain ⟨f, rfl⟩ := hfp
    rw [depth_node] at hfuel
    have hgdtbn : getDirectoryTableByName st.disk P name
        = .ok (builtDir b psec files children, b + 1) :=
      gdtbn_ok st.disk P name (DirEntry.new name (b + 1) DIR_ENTRY_TYPE)
        (builtDir b psec files children) hget rfl hdir rfl
    have hloadfat : FAT.loadDisk st.disk
        (some (builtDir b psec files children).fat_sector) = buildFat b files.length :=
      loadFat_some st.disk b _ hfat
    have hloop : freeUsedLoop st.allocator
        (FAT.loadDisk st.disk (some (builtDir b psec files children).fat_sector)).entries
        = (.ok (),
          ⟨st.allocator.next_free, st.allocator.freed_sectors
            ++ (List.range files.length).map (fun j => b + 9 + j)⟩,
          (⟨FAT.MAGIC_NUMBER⟩ : FATEntry) :: List.replicate 255 FATEntry.new_free) := by
      rw [hloadfat]
      exact freeUsedLoop_buildFat st.allocator b files.length (by omega) (by omega)
    have hlist := (ih (n - 1) (by omega)).2 children (by omega) f
      ⟨st.disk, ⟨st.allocator.next_free, st.allocator.freed_sectors
        ++ (List.range files.length).map (fun j => b + 9 + j)⟩⟩
      b psec (b + 9 + files.length) 0 files
      (List.replicate (251 - (fileEntriesFrom 0 files
        ++ childEntries (childrenWithBases (b + 9 + files.length) children)).length)
        DirEntry.empty)
      (wfList_mem children hwfchil)
      (by
        intro c hc
        have h2 := depthList_mem children c hc
        omega)
      hreps
      hcval
      (by
        intro c hc hcf
        exact (List.nodup_append.mp hnodup).2.2 hcf (List.mem_map_of_mem Prod.fst hc))
      hfval
      (by
        intro e he
        rw [List.eq_of_mem_replicate he]
        intro hcontra
        rw [empty_entry_type] at hcontra
        exact absurd hcontra.1 (by decide))
      (by omega) hb (by omega)
    obtain ⟨diskL, hrunL, hframeL⟩ := hlist
    have hrca : removeChildrenAux (removeDirByName f) (builtDir b psec files children).entries
        { st with allocator := ⟨st.allocator.next_free, st.allocator.freed_sectors
          ++ (List.range files.length).map (fun j => b + 9 + j)⟩ }
        (builtDir b psec files children, b + 1)
        = (.ok (),
           ⟨diskL,
             ⟨(⟨st.disk, ⟨st.allocator.next_free, st.allocator.freed_sectors
               ++ (List.range files.length).map (fun j => b + 9 + j)⟩⟩ : St).allocator.next_free,
              (⟨st.disk, ⟨st.allocator.next_free, st.allocator.freed_sectors
               ++ (List.range files.length).map (fun j => b + 9 + j)⟩⟩ : St).allocator.freed_sectors
               ++ freeTraceList (b + 9 + files.length) children⟩⟩,
           (⟨DIRECTORY_MAGIC, b, mkDirEntries b psec
             (fileEntriesFrom 0 files
               ++ List.replicate (0 + children.length) DirEntry.empty)⟩, b + 1)) := by
      show removeChildrenAux (removeDirByName f)
          (DirEntry.new dotName (b + 1) DIR_ENTRY_TYPE
            :: DirEntry.new dotdotName psec DIR_ENTRY_TYPE
            :: ((fileEntriesFrom 0 files
                ++ childEntries (childrenWithBases (b + 9 + files.length) children))
              ++ List.replicate (251 - (fileEntriesFrom 0 files
                ++ childEntries (childrenWithBases (b + 9 + files.length) children)).length)
                DirEntry.empty))
          ⟨st.disk, ⟨st.allocator.next_free, st.allocator.freed_sectors
            ++ (List.range files.length).map (fun j => b + 9 + j)⟩⟩
          (builtDir b psec files children, b + 1) = _
      rw [removeChildrenAux_skip _ _ _ _ _ (by
        intro hcontra
        exact hcontra.2.1 (dotEntry_to_string _ _))]
      rw [removeChildrenAux_skip _ _ _ _ _ (by
        intro hcontra
        exact hcontra.2.2 (dotdotEntry_to_string _ _))]
      rw [List.append_assoc]
      rw [removeChildrenAux_skipAll _ _ _ _ _ (by
        intro e he hcontra
        rw [fileEntriesFrom_type 0 files e he] at hcontra
        exact absurd hcontra.1 (by decide))]
      exact hrunL
    have hmain := removeDirByName_ok_eq f st name P ppos j
      (DirEntry.new name (b + 1) DIR_ENTRY_TYPE) (builtDir b psec files children) (b + 1)
      ⟨st.allocator.next_free, st.allocator.freed_sectors
        ++ (List.range files.length).map (fun j => b + 9 + j)⟩
      ((⟨FAT.MAGIC_NUMBER⟩ : FATEntry) :: List.replicate 255 FATEntry.new_free)
      ⟨diskL,
        ⟨(⟨st.disk, ⟨st.allocator.next_free, st.allocator.freed_sectors
          ++ (List.range files.length).map (fun j => b + 9 + j)⟩⟩ : St).allocator.next_free,
         (⟨st.disk, ⟨st.allocator.next_free, st.allocator.freed_sectors
          ++ (List.range files.length).map (fun j => b + 9 + j)⟩⟩ : St).allocator.freed_sectors
          ++ freeTraceList (b + 9 + files.length) children⟩⟩
      (⟨DIRECTORY_MAGIC, b, mkDirEntries b psec
        (fileEntriesFrom 0 files
          ++ List.replicate (0 + children.length) DirEntry.empty)⟩, b + 1)
      hfind hgetD
      (by
        show 255 - DIR_ENTRY_TYPE ≠ DIR_ENTRY_TYPE
        decide)
      hgdtbn hloop hrca
    refine ⟨Disk.write
        (Disk.write
          (Disk.write diskL b
            (.fatB ⟨FATEntry.new_free :: List.replicate 255 FATEntry.new_free⟩))
          (b + 1) (.dirB ⟨0, b, mkDirEntries b psec
            (fileEntriesFrom 0 files
              ++ List.replicate (0 + children.length) DirEntry.empty)⟩))
        ppos (.dirB { P with entries := P.entries.set j DirEntry.empty }), ?_, ?_, ?_⟩
    · refine hmain.trans ?_
      show (Except.ok (),
          (⟨Disk.write
            (Disk.write
              (Disk.write diskL b
                (.fatB ⟨FATEntry.new_free :: List.replicate 255 FATEntry.new_free⟩))
              (b + 1) (.dirB ⟨0, b, mkDirEntries b psec
                (fileEntriesFrom 0 files
                  ++ List.replicate (0 + children.length) DirEntry.empty)⟩))
            ppos (.dirB { P with entries := P.entries.set j DirEntry.empty }),
           ⟨st.allocator.next_free,
            (((st.allocator.freed_sectors
              ++ (List.range files.length).map (fun j => b + 9 + j))
              ++ freeTraceList (b + 9 + files.length) children) ++ [b])
              ++ (List.range 8).map ((b + 1) + ·)⟩⟩ : St),
          ({ P with entries := P.entries.set j DirEntry.empty }, ppos)) = _
      rw [show (((st.allocator.freed_sectors
            ++ (List.range files.length).map (fun j => b + 9 + j))
            ++ freeTraceList (b + 9 + files.length) children) ++ [b])
            ++ (List.range 8).map ((b + 1) + ·)
          = st.allocator.freed_sectors ++ freeTrace b (FsTree.node files children) from by
        rw [freeTrace_node]
        simp [List.append_assoc]]
    · unfold Disk.write
      rw [if_pos rfl]
    · intro x hx1 hx2
      unfold Disk.write
      rw [if_neg hx1, if_neg (by omega), if_neg (by omega)]
      exact hframeL x (by omega) (by omega)
  refine ⟨treePart, ?_⟩
  intro cs
  induction cs with
  | nil =>
    intro _ fuel st b psec cb cpre files0 tailEs _ _ _ _ _ _ htail _ _ _
    obtain ⟨d, a⟩ := st
    obtain ⟨nf0, fr0⟩ := a
    refine ⟨d, ?_, ?_⟩
    · rw [childrenWithBases_nil, childEntries_nil, List.nil_append]
      rw [removeChildrenAux_skipAll_nil _ tailEs _ _ htail]
      rw [freeTraceList_nil]
      rw [List.append_nil, List.append_nil]
      rfl
    · intro x _ _
      rfl
  | cons c rest ihr =>
    intro hsz fuel st b psec cb cpre files0 tailEs hwfcs hdepth hreps hval hdisj hf0val
      htail hcb hb hbound
    rw [tsizeList_cons] at hsz hbound
    rw [diskRepList_cons] at hreps
    obtain ⟨hrepc, hreprest⟩ := hreps
    have hvc : validName c.1 = true := hval c (by simp)
    obtain ⟨hcne, _, _, hcdot, hcdotdot⟩ := validName_spec c.1 hvc
    have hwfc : wfTree c.2 = true := hwfcs c (by simp)
    have hes1ne : ∀ x ∈ fileEntriesFrom 0 files0 ++ List.replicate cpre DirEntry.empty,
        x.to_string ≠ c.1 := by
      intro x hx
      rcases List.mem_append.mp hx with h | h
      · intro hc
        have h2 := fileEntriesFrom_to_string 0 files0 hf0val x h
        rw [hc] at h2
        exact hdisj c (by simp) h2
      · rw [List.eq_of_mem_replicate h, empty_to_string]
        intro hc
        exact hcne hc.symm
    have hCEeq : childEntries (childrenWithBases cb (c :: rest))
        = DirEntry.new c.1 (cb + 1) DIR_ENTRY_TYPE
          :: childEntries (childrenWithBases (cb + tsize c.2) rest) := by
      rw [childrenWithBases_cons, childEntries_cons_expl]
    have hDeq : fileEntriesFrom 0 files0
        ++ (List.replicate cpre DirEntry.empty
          ++ DirEntry.new c.1 (cb + 1) DIR_ENTRY_TYPE
          :: childEntries (childrenWithBases (cb + tsize c.2) rest))
        = (fileEntriesFrom 0 files0 ++ List.replicate cpre DirEntry.empty)
          ++ DirEntry.new c.1 (cb + 1) DIR_ENTRY_TYPE
          :: childEntries (childrenWithBases (cb + tsize c.2) rest) := by
      rw [List.append_assoc]
    have htree := treePart c.2 (by omega) fuel c.1 st
      ⟨DIRECTORY_MAGIC, b, mkDirEntries b psec
        ((fileEntriesFrom 0 files0 ++ List.replicate cpre DirEntry.empty)
          ++ DirEntry.new c.1 (cb + 1) DIR_ENTRY_TYPE
          :: childEntries (childrenWithBases (cb + tsize c.2) rest))⟩
      (b + 1) cb (b + 1)
      (2 + (fileEntriesFrom 0 files0 ++ List.replicate cpre DirEntry.empty).length)
      hwfc (hdepth c (by simp)) hrepc
      (findIdx?_mk_hit b psec _ _ _ c.1 hcdot hcdotdot hes1ne (to_string_new c.1 _ _ hvc))
      (getD_mk b psec _ _ _)
      (get_entry_mk_hit DIRECTORY_MAGIC b b psec _ _ _ c.1 hcdot hcdotdot hes1ne
        (isEmptySlot_new_false c.1 _ _ hvc) (to_string_new c.1 _ _ hvc))
      hcb (by omega) (by omega)
    obtain ⟨diskT, hrunT, hdiskT, hframeT⟩ := htree
    have hrest := ihr (by omega) fuel
      ⟨diskT, ⟨st.allocator.next_free, st.allocator.freed_sectors ++ freeTrace cb c.2⟩⟩
      b psec (cb + tsize c.2) (cpre + 1) files0 tailEs
      (fun x hx => hwfcs x (by simp [hx]))
      (fun x hx => hdepth x (by simp [hx]))
      (by
        show DiskRepList diskT (b + 1) (cb + tsize c.2) rest
        apply diskRepList_agree rest st.disk diskT (b + 1) (cb + tsize c.2) _ hreprest
        intro x hx1 hx2
        exact hframeT x (by omega) (by omega))
      (fun x hx => hval x (by simp [hx]))
      (fun x hx => hdisj x (by simp [hx]))
      hf0val htail (by omega) hb (by omega)
    obtain ⟨diskR, hrunR, hframeR⟩ := hrest
    have htlc : tsizeList (c :: rest) = tsize c.2 + tsizeList rest := tsizeList_cons c rest
    refine ⟨diskR, ?_, ?_⟩
    · rw [hCEeq, hDeq, List.cons_append]
      rw [removeChildrenAux_cons, if_pos (by
        refine ⟨rfl, ?_, ?_⟩
        · rw [to_string_new c.1 _ _ hvc]
          exact hcdot
        · rw [to_string_new c.1 _ _ hvc]
          exact hcdotdot)]
      rw [to_string_new c.1 _ _ hvc]
      rw [hrunT]
      dsimp only
      rw [set_mk]
      rw [show (fileEntriesFrom 0 files0 ++ List.replicate cpre DirEntry.empty)
            ++ DirEntry.empty :: childEntries (childrenWithBases (cb + tsize c.2) rest)
          = fileEntriesFrom 0 files0
            ++ (List.replicate (cpre + 1) DirEntry.empty
              ++ childEntries (childrenWithBases (cb + tsize c.2) rest)) from by
        rw [List.append_assoc]
        congr 1
        rw [← replicate_concat, List.append_assoc, List.singleton_append]]
      rw [hrunR]
      show (Except.ok (),
          (⟨diskR, ⟨st.allocator.next_free,
            (st.allocator.freed_sectors ++ freeTrace cb c.2)
              ++ freeTraceList (cb + tsize c.2) rest⟩⟩ : St),
          ((⟨DIRECTORY_MAGIC, b, mkDirEntries b psec
            (fileEntriesFrom 0 files0
              ++ List.replicate (cpre + 1 + rest.length) DirEntry.empty)⟩ : Directory),
           b + 1)) = _
      rw [List.append_assoc, ← freeTraceList_cons]
      rw [show cpre + 1 + rest.length = cpre + (c :: rest).length from by
        simp only [List.length_cons]
        omega]
    · intro x hx1 hx2
      rw [hframeR x hx1 (by omega)]
      exact hframeT x (by omega) (by omega)


lemma rep253_cons : List.replicate DIR_TOTAL_ENTRIES DirEntry.empty
    = DirEntry.empty :: List.replicate 252 DirEntry.empty := by
  rw [show DIR_TOTAL_ENTRIES = 252 + 1 from rfl, List.replicate_succ]

set_option maxRecDepth 4000 in
/-- C1: leak-freedom of recursive directory deletion.  For every directory
tree shape `t` with well-formed, mutually distinct entry names (every
directory at least one file, nesting depth at least 2, and the whole tree
fitting into the 12-bit sector space of the allocation-table entries),
creating the tree from a freshly formatted filesystem through `new_dir`
and `add_file` and then calling `remove_entry` on the top-level name
succeeds, and the allocator comes back to exactly its pre-creation
allocated-sector count (watermark minus free-list length, i.e. 21): the
watermark stays at `21 + tsize t` and the free-list receives exactly the
trace `freeTrace 21 t` of length `tsize t`, which contains every sector
the tree ever consumed — its directory record sectors, its allocation
tables, its file data sectors, and those of all descendants.  The
recursion is modelled with fuel `depth t`, the actual recursion depth of
`remove_dir_by_name` on this tree. -/
theorem C1_recursive_removal_leak_freedom (t : FsTree) (name : Name)
    (hwf : wfTree t = true)
    (hvname : validName name = true)
    (hfe : filesEverywhere t = true)
    (hdepth : 2 ≤ depth t)
    (hbound : 21 + tsize t ≤ 4096) :
    ∃ st1 disk3,
      buildTree initSt [] name t = .ok st1 ∧
      st1.allocator = ⟨21 + tsize t, []⟩ ∧
      removeEntry (depth t) st1 [] name
        = (.ok (), ⟨disk3, ⟨21 + tsize t, freeTrace 21 t⟩⟩) ∧
      allocCount ⟨21 + tsize t, freeTrace 21 t⟩ = allocCount initSt.allocator ∧
      allocCount initSt.allocator = 21 ∧
      (∀ s, 21 ≤ s → s < 21 + tsize t → s ∈ freeTrace 21 t) := by
  have hmiss : Directory.get_entry ⟨DIRECTORY_MAGIC, FIRST_USABLE_SECTOR - 1,
      List.replicate DIR_TOTAL_ENTRIES DirEntry.empty⟩ name
      = .error FileSystemError.FileNotFound := by
    unfold Directory.get_entry
    show (match Directory.findEntry (List.replicate DIR_TOTAL_ENTRIES DirEntry.empty) name
      with
      | some e => Except.ok e
      | none => Except.error FileSystemError.FileNotFound) = _
    rw [findEntry_replicate_empty]
  have hfe0 : Directory.firstEmptyFrom (List.replicate DIR_TOTAL_ENTRIES DirEntry.empty) 0
      = some 0 := by
    rw [rep253_cons]
    show (if DirEntry.empty.isEmptySlot = true then some 0
      else Directory.firstEmptyFrom (List.replicate 252 DirEntry.empty) (0 + 1)) = some 0
    rw [if_pos empty_isEmptySlot]
  have hadd : Directory.add_entry ⟨DIRECTORY_MAGIC, FIRST_USABLE_SECTOR - 1,
      List.replicate DIR_TOTAL_ENTRIES DirEntry.empty⟩
      (DirEntry.new name (21 + 1) DIR_ENTRY_TYPE)
      = .ok ⟨DIRECTORY_MAGIC, FIRST_USABLE_SECTOR - 1,
          DirEntry.new name (21 + 1) DIR_ENTRY_TYPE :: List.replicate 252 DirEntry.empty⟩ := by
    unfold Directory.add_entry
    show (match Directory.firstEmptyFrom (List.replicate DIR_TOTAL_ENTRIES DirEntry.empty) 0
      with
      | some i =>
        Except.ok (⟨DIRECTORY_MAGIC, FIRST_USABLE_SECTOR - 1,
          (List.replicate DIR_TOTAL_ENTRIES DirEntry.empty).set i
            (DirEntry.new name (21 + 1) DIR_ENTRY_TYPE)⟩ : Directory)
      | none => Except.error FileSystemError.OutOfSpace) = _
    rw [hfe0]
    dsimp only
    rw [rep253_cons]
    rfl
  have hd1get : Directory.get_entry ⟨DIRECTORY_MAGIC, FIRST_USABLE_SECTOR - 1,
      DirEntry.new name (21 + 1) DIR_ENTRY_TYPE :: List.replicate 252 DirEntry.empty⟩ name
      = .ok (DirEntry.new name (21 + 1) DIR_ENTRY_TYPE) := by
    unfold Directory.get_entry
    show (match Directory.findEntry
        (DirEntry.new name (21 + 1) DIR_ENTRY_TYPE :: List.replicate 252 DirEntry.empty) name
      with
      | some e => Except.ok e
      | none => Except.error FileSystemError.FileNotFound) = _
    rw [findEntry_cons_hit _ _ _ (isEmptySlot_new_false name _ _ hvname)
      (to_string_new name _ _ hvname)]
  have hbuild := (build_spec_strong (tsize t)).1 t (Nat.le_refl _) name initSt [] []
    FIRST_DIRECTORY
    ⟨DIRECTORY_MAGIC, FIRST_USABLE_SECTOR - 1, List.replicate DIR_TOTAL_ENTRIES DirEntry.empty⟩
    ⟨DIRECTORY_MAGIC, FIRST_USABLE_SECTOR - 1,
      DirEntry.new name (21 + 1) DIR_ENTRY_TYPE :: List.replicate 252 DirEntry.empty⟩
    FileSystemError.FileNotFound 21
    hwf rfl chain_init hmiss hadd hd1get
    (by
      intro x hx
      have h2 : x = FIRST_DIRECTORY := by simpa using hx
      rw [h2]
      exact ⟨by decide, by decide⟩)
    (by decide)
    (Nat.le_refl 21) hbound
  obtain ⟨disk2, hrun, hchain2, hrep2, hframe2⟩ := hbuild
  refine ⟨⟨disk2, ⟨21 + tsize t, []⟩⟩, ?_⟩
  have hfind : List.findIdx? (fun e => e.to_string == name)
      (DirEntry.new name (21 + 1) DIR_ENTRY_TYPE :: List.replicate 252 DirEntry.empty) 0
      = some 0 := by
    rw [findIdx?_cons_eq]
    rw [if_pos (by
      show ((DirEntry.new name (21 + 1) DIR_ENTRY_TYPE).to_string == name) = true
      rw [to_string_new name _ _ hvname]
      exact beq_self_eq_true name)]
  have hremove := (remove_spec_strong (tsize t)).1 t (Nat.le_refl _) (depth t) name
    ⟨disk2, ⟨21 + tsize t, []⟩⟩
    ⟨DIRECTORY_MAGIC, FIRST_USABLE_SECTOR - 1,
      DirEntry.new name (21 + 1) DIR_ENTRY_TYPE :: List.replicate 252 DirEntry.empty⟩
    FIRST_DIRECTORY 21 FIRST_DIRECTORY 0
    hwf (Nat.le_refl _) hrep2 hfind rfl hd1get (by decide) (Nat.le_refl 21) hbound
  obtain ⟨disk3, hrem, hdisk3, hframe3⟩ := hremove
  refine ⟨disk3, hrun, rfl, ?_, ?_, rfl, ?_⟩
  · have hcur : getCurrentDirectory
        (⟨disk2, ⟨21 + tsize t, []⟩⟩ : St).disk []
        = .ok (⟨DIRECTORY_MAGIC, FIRST_USABLE_SECTOR - 1,
            DirEntry.new name (21 + 1) DIR_ENTRY_TYPE :: List.replicate 252 DirEntry.empty⟩,
          FIRST_DIRECTORY) :=
      chain_resolves _ [] [] FIRST_DIRECTORY _ hchain2
    have hrfbn : removeFileByName (⟨disk2, ⟨21 + tsize t, []⟩⟩ : St) name
        (⟨DIRECTORY_MAGIC, FIRST_USABLE_SECTOR - 1,
          DirEntry.new name (21 + 1) DIR_ENTRY_TYPE :: List.replicate 252 DirEntry.empty⟩,
         FIRST_DIRECTORY)
        = (.error FileSystemError.NotAFile, ⟨disk2, ⟨21 + tsize t, []⟩⟩,
           (⟨DIRECTORY_MAGIC, FIRST_USABLE_SECTOR - 1,
             DirEntry.new name (21 + 1) DIR_ENTRY_TYPE :: List.replicate 252 DirEntry.empty⟩,
            FIRST_DIRECTORY)) := by
      unfold removeFileByName
      dsimp only
      rw [hd1get]
      dsimp only
      rw [if_neg (by
        show ¬(DIR_ENTRY_TYPE = FILE_ENTRY_TYPE)
        decide)]
    unfold removeEntry
    rw [hcur]
    dsimp only
    rw [hrfbn]
    dsimp only
    rw [hrem]
    rfl
  · show 21 + tsize t - (freeTrace 21 t).length = allocCount initSt.allocator
    rw [freeTrace_length]
    show 21 + tsize t - tsize t = 21
    omega
  · intro s h1 h2
    exact freeTrace_mem t 21 s h1 h2

set_option maxRecDepth 2000 in
/-- Witness for C1: the two-level tree `d/{a, b/{c}}` (root directory with
file `a` and subdirectory `b` holding file `c`) consumes sectors 21–40;
building it from a fresh filesystem and removing `d` returns the
allocated count to 21 with all 20 sectors on the free-list. -/
theorem C1_recursive_removal_leak_freedom_witness :
    ∃ st1 disk3,
      buildTree initSt [] [100] (.node [[97]] [([98], .node [[99]] [])]) = .ok st1 ∧
      st1.allocator = ⟨21 + tsize (.node [[97]] [([98], .node [[99]] [])]), []⟩ ∧
      removeEntry (depth (.node [[97]] [([98], .node [[99]] [])])) st1 [] [100]
        = (.ok (), ⟨disk3, ⟨21 + tsize (.node [[97]] [([98], .node [[99]] [])]),
            freeTrace 21 (.node [[97]] [([98], .node [[99]] [])])⟩⟩) ∧
      allocCount ⟨21 + tsize (.node [[97]] [([98], .node [[99]] [])]),
          freeTrace 21 (.node [[97]] [([98], .node [[99]] [])])⟩
        = allocCount initSt.allocator ∧
      allocCount initSt.allocator = 21 ∧
      (∀ s, 21 ≤ s → s < 21 + tsize (.node [[97]] [([98], .node [[99]] [])]) →
        s ∈ freeTrace 21 (.node [[97]] [([98], .node [[99]] [])])) :=
  C1_recursive_removal_leak_freedom (.node [[97]] [([98], .node [[99]] [])]) [100]
    (by decide) (by decide) (by decide) (by decide) (by decide)

end Ry
